import Mathlib

/-!
Verification of the photo-publishing reconciler (publish.py).

The working directory (a `publish` folder) is modelled as a state `FS`:
direct children of the root (plain files with mtimes, symlinks with
structured targets, opaque directories), the per-service subdirectories
with their optional `published` children, the plain files living in the
parent directory of the root (reachable through `../name` links), and the
external world of absolute paths.  Symlink targets are either absolute or
of the form `../^k/name`.  Path-name manipulation (stem / suffix, the
`*_small*` glob) follows Python's pathlib semantics.  The six fixup steps
are translated one-to-one from `publish.py`; operations that raise OSError
in Python (mkdir / symlink on an existing path, readlink on a non-link)
return errors through `Except`.
-/

/-! ### String helpers (pathlib semantics) -/

/-- Lowercase a string character-wise, as Python `str.lower` does for the
ASCII extensions used here. -/
def lowerStr (s : String) : String := ⟨s.data.map Char.toLower⟩

/-- Split a file name into pathlib `stem` and `suffix`: the suffix starts at
the last dot, provided that dot is neither the first nor the last
character of the name; otherwise the suffix is empty. -/
def splitStemExt (s : String) : String × String :=
  let cs := s.data
  match cs.reverse.findIdx? (· = '.') with
  | some j =>
      if 1 ≤ j ∧ j + 2 ≤ cs.length then
        (⟨cs.take (cs.length - 1 - j)⟩, ⟨cs.drop (cs.length - 1 - j)⟩)
      else (s, "")
  | none => (s, "")

def stemOf (s : String) : String := (splitStemExt s).1

def suffixOf (s : String) : String := (splitStemExt s).2

/-- Does the second list start with the first one? -/
def leadEq : List Char → List Char → Bool
  | [], _ => true
  | _ :: _, [] => false
  | a :: as, b :: bs => a = b && leadEq as bs

/-- Does `pat` occur contiguously inside the second list? -/
def hasSub (pat : List Char) : List Char → Bool
  | [] => leadEq pat []
  | c :: cs => leadEq pat (c :: cs) || hasSub pat cs

/-- The glob pattern `*_small*` from publish.py: the name contains the
substring `_small`. -/
def smallGlob (n : String) : Bool := hasSub "_small".data n.data

/-! ### Filesystem model -/

/-- A symlink target: an absolute path, or a relative path that climbs
`ups` directory levels and then names a single component
(`ups = 0` means a sibling, `ups = 1` is one level up, ...). -/
inductive LinkTarget where
  | abs (p : String)
  | rel (ups : Nat) (name : String)
deriving DecidableEq, Repr

/-- A directory entry: a plain file carrying its modification time, a
symlink, or an (otherwise opaque) directory. -/
inductive Node where
  | file (mtime : Nat)
  | link (t : LinkTarget)
  | dir
deriving DecidableEq, Repr

/-- One service subdirectory: its direct children apart from `published`,
and the `published` child when it exists. -/
structure SvcDir where
  entries : List (String × Node)
  published : Option (List (String × Node))
deriving DecidableEq, Repr

/-- The state of one working directory together with the world reachable
from its symlinks. -/
structure FS where
  parentFiles : List (String × Nat)
  absFiles : List (String × Nat)
  rootEntries : List (String × Node)
  services : List (String × SvcDir)
deriving DecidableEq, Repr

/-- Association-list lookup with propositional equality on keys. -/
def alookup (n : String) : List (String × α) → Option α
  | [] => none
  | (m, v) :: rest => if m = n then some v else alookup n rest

/-- Replace the binding of `n` (first occurrence), or append it. -/
def aset (n : String) (v : α) : List (String × α) → List (String × α)
  | [] => [(n, v)]
  | (m, w) :: rest => if m = n then (n, v) :: rest else (m, w) :: aset n v rest

/-- The keys of an association list. -/
def akeys (l : List (String × α)) : List String := l.map (·.1)

/-! ### Path resolution

The directories a link can denote.  `Loc` is where a link lives; `Dest`
is the directory its target climbs to. -/

inductive Loc where
  | inRoot
  | inSvc (s : String)
  | inPub (s : String)
deriving DecidableEq, Repr

inductive Dest where
  | dparent
  | droot
  | dsvc (s : String)
  | dpub (s : String)
deriving DecidableEq, Repr

/-- Which directory `ups` levels above `loc` is. Levels beyond the parent
of the root leave the modelled world. -/
def destOf : Loc → Nat → Option Dest
  | .inRoot, 0 => some .droot
  | .inRoot, 1 => some .dparent
  | .inSvc _, 0+1+1 => some .dparent
  | .inSvc _, 1 => some .droot
  | .inSvc s, 0 => some (.dsvc s)
  | .inPub _, 3 => some .dparent
  | .inPub _, 2 => some .droot
  | .inPub s, 1 => some (.dsvc s)
  | .inPub s, 0 => some (.dpub s)
  | _, _ => none

def locOfDest : Dest → Loc
  | .dparent => .inRoot
  | .droot => .inRoot
  | .dsvc s => .inSvc s
  | .dpub s => .inPub s

/-- The entry named `n` directly inside destination directory `d`.
Service directories and `published` folders appear as `Node.dir` children
of their parents. -/
def dirNode (fs : FS) (d : Dest) (n : String) : Option Node :=
  match d with
  | .dparent => (alookup n fs.parentFiles).map Node.file
  | .droot =>
      match alookup n fs.rootEntries with
      | some nd => some nd
      | none => if (alookup n fs.services).isSome then some .dir else none
  | .dsvc s =>
      match alookup s fs.services with
      | none => none
      | some sd =>
          match alookup n sd.entries with
          | some nd => some nd
          | none => if n = "published" ∧ sd.published.isSome then some .dir else none
  | .dpub s =>
      match alookup s fs.services with
      | none => none
      | some sd =>
          match sd.published with
          | none => none
          | some pub => alookup n pub

/-- Resolve a link target seen from `loc`, following at most `fuel` link
hops, like `Path.exists`/`stat` do (a looping chain resolves to nothing,
matching ELOOP).  `some m` is the mtime of the file finally reached;
directories resolve with a dummy mtime `0`. -/
def statT (fs : FS) : Nat → Loc → LinkTarget → Option Nat
  | _, _, .abs p => alookup p fs.absFiles
  | fuel, loc, .rel ups n =>
      match destOf loc ups with
      | none => none
      | some d =>
          match dirNode fs d n with
          | some (.file m) => some m
          | some .dir => some 0
          | some (.link t2) =>
              match fuel with
              | 0 => none
              | f + 1 => statT fs f (locOfDest d) t2
          | none => none

/-- Link-chain fuel: ample for every state in this development. -/
def FUEL : Nat := 8

/-- stat of `root/n`, following symlinks. -/
def statRoot (fs : FS) (n : String) : Option Nat := statT fs FUEL .inRoot (.rel 0 n)

/-- Python `Path.exists` for `root/n`. -/
def existsRoot (fs : FS) (n : String) : Bool := (statRoot fs n).isSome

/-! ### Source images -/

inductive SKind where
  | raw
  | jpeg
deriving DecidableEq, Repr

/-- Directory.classify: only symlinks are sources, keyed by the lowercased
suffix. -/
def classifyName (n : String) : Option SKind :=
  if lowerStr (suffixOf n) = ".jpg" ∨ lowerStr (suffixOf n) = ".jpeg" then some .jpeg
  else if lowerStr (suffixOf n) = ".nef" ∨ lowerStr (suffixOf n) = ".cr3" then some .raw
  else none

def classify (nd : Node) (n : String) : Option SKind :=
  match nd with
  | .link _ => classifyName n
  | _ => none

/-- Directory.__init__: scan the direct children of the root and keep the
entries classified as sources (directories are never symlinks here, so the
`is_dir` pre-filter of the scan is subsumed by `classify`). -/
def scanSources (fs : FS) : List (String × SKind) :=
  fs.rootEntries.filterMap (fun e => (classify e.2 e.1).map (fun k => (e.1, k)))

/-- SourceImage.small for both variants: the `<stem>_small.jpg` sibling. -/
def smallNameOf (n : String) : String := stemOf n ++ "_small.jpg"

/-- RawSourceImage.large: the first of `<stem>.JPG`, `<stem>.jpg` existing
on disk, else `<stem>.JPG`. -/
def rawLargeName (fs : FS) (n : String) : String :=
  if existsRoot fs (stemOf n ++ ".JPG") then stemOf n ++ ".JPG"
  else if existsRoot fs (stemOf n ++ ".jpg") then stemOf n ++ ".jpg"
  else stemOf n ++ ".JPG"

/-- The extension preference list of JpegSourceImage.large. -/
def processedExts : List String := ["jpg", "JPG", "jpeg", "JPEG"]

/-- JpegSourceImage.large: the first existing `<stem>_processed.<ext>`
over the preference list, else the source path itself. -/
def jpegLargeName (fs : FS) (n : String) : String :=
  match processedExts.find? (fun e => existsRoot fs (stemOf n ++ "_processed." ++ e)) with
  | some e => stemOf n ++ "_processed." ++ e
  | none => n

def largeName (fs : FS) (n : String) (k : SKind) : String :=
  match k with
  | .raw => rawLargeName fs n
  | .jpeg => jpegLargeName fs n

/-! ### The fixup steps -/

inductive FsErr where
  | eexist (p : String)
  | enotlink (p : String)
  | enoent (p : String)
deriving DecidableEq, Repr

def svcExists (fs : FS) (s : String) : Bool := (alookup s fs.services).isSome

def pubExists (fs : FS) (s : String) : Bool :=
  match alookup s fs.services with
  | some sd => sd.published.isSome
  | none => false

/-- Create the `published` child of service `s` (which must exist). -/
def mkPub (fs : FS) (s : String) : FS :=
  match alookup s fs.services with
  | some sd => { fs with services := aset s { sd with published := some [] } fs.services }
  | none => fs

/-- Create the `published` child of service `s` when it is missing. -/
def ensurePub (fs : FS) (s : String) : FS :=
  if pubExists fs s then fs else mkPub fs s

/-- Step 1 body for one service, mirroring the interleaving of the
`missing_subdirs` generator with `mkdir`: create the service directory if
absent, then its `published` child if absent. -/
def ensureService (fs : FS) (s : String) : FS :=
  ensurePub (if svcExists fs s then fs else
    { fs with services := fs.services ++ [(s, ⟨[], none⟩)] }) s

/-- Step 1: Directory.__add_missing_subdirs. -/
def addMissingSubdirs (cfg : List String) (fs : FS) : FS :=
  cfg.foldl ensureService fs

def upsertRoot (fs : FS) (n : String) (nd : Node) : FS :=
  { fs with rootEntries := aset n nd fs.rootEntries }

/-- The CREATE / UPDATE decision of Directory.__create_missing_small_images
for one source: `some 1` = CREATE, `some 2` = UPDATE, `none` = skip. -/
def smallAction (fs : FS) (n : String) (k : SKind) : Option Nat :=
  match statRoot fs (largeName fs n k) with
  | none => none
  | some lm =>
      match statRoot fs (smallNameOf n) with
      | some sm => if sm < lm then some 2 else none
      | none => some 1

/-- One iteration of step 2: when the resize collaborator runs it writes
the small preview as a plain file stamped `now`. -/
def createSmallStep (now : Nat) (fs : FS) (src : String × SKind) : FS :=
  match smallAction fs src.1 src.2 with
  | none => fs
  | some _ => upsertRoot fs (smallNameOf src.1) (.file now)

/-- Step 2: Directory.__create_missing_small_images. -/
def createMissingSmallImages (now : Nat) (fs : FS) (srcs : List (String × SKind)) : FS :=
  srcs.foldl (createSmallStep now) fs

/-- Directory.existing_small, as the (deduplicated) list of names. -/
def allSmallNames (fs : FS) (srcs : List (String × SKind)) : List String :=
  (srcs.filterMap (fun src =>
    if existsRoot fs (smallNameOf src.1) then some (smallNameOf src.1) else none)).dedup

/-- The small previews already managed by service `s`: glob `*_small*`
directly in the service directory and in its `published` child. -/
def managedNames (fs : FS) (s : String) : List String :=
  match alookup s fs.services with
  | none => []
  | some sd =>
      (sd.entries.filter (fun e => smallGlob e.1)).map (·.1) ++
      (match sd.published with
       | some pub => (pub.filter (fun e => smallGlob e.1)).map (·.1)
       | none => [])

/-- Directory.new_small_images: per existing service directory, the
existing small previews not yet managed there, kept only when non-empty. -/
def newSmallImages (cfg : List String) (fs : FS) (srcs : List (String × SKind)) :
    List (String × List String) :=
  cfg.filterMap (fun s =>
    if svcExists fs s then
      if (allSmallNames fs srcs).filter (fun n => decide (n ∉ managedNames fs s)) = []
      then none
      else some (s, (allSmallNames fs srcs).filter (fun n => decide (n ∉ managedNames fs s)))
    else none)

/-- symlink creation inside a service directory; EEXIST when the name is
taken, ENOENT when the directory is missing. -/
def svcAddLink (fs : FS) (s n : String) (t : LinkTarget) : Except FsErr FS :=
  match alookup s fs.services with
  | none => .error (.enoent s)
  | some sd =>
      if (alookup n sd.entries).isSome ∨ (n = "published" ∧ sd.published.isSome) then
        .error (.eexist n)
      else
        .ok { fs with
          services := aset s { sd with entries := sd.entries ++ [(n, Node.link t)] } fs.services }

/-- Step 3: Directory.__add_new_small_files — a `../name` link per new
preview per service. -/
def addNewSmallFiles (cfg : List String) (fs : FS) (srcs : List (String × SKind)) :
    Except FsErr FS :=
  (newSmallImages cfg fs srcs).foldlM
    (fun acc pr => pr.2.foldlM (fun a n => svcAddLink a pr.1 n (.rel 1 n)) acc) fs

/-- Step 4 body for one source: readlink, and replace absolute targets by
the one-level-up relative link. readlink on a non-link raises. -/
def fixupOneSource (fs : FS) (src : String × SKind) : Except FsErr FS :=
  match alookup src.1 fs.rootEntries with
  | some (.link (.abs _)) => .ok (upsertRoot fs src.1 (.link (.rel 1 src.1)))
  | some (.link (.rel _ _)) => .ok fs
  | some _ => .error (.enotlink src.1)
  | none => .error (.enoent src.1)

/-- Step 4: Directory.__fixup_source_photos_links. -/
def fixupSourcePhotosLinks (fs : FS) (srcs : List (String × SKind)) : Except FsErr FS :=
  srcs.foldlM fixupOneSource fs

/-- Directory.published_small: glob `*_small*` under each existing
`root/<service>/published`, tagged with the service. -/
def publishedSmall (cfg : List String) (fs : FS) : List (String × String) :=
  cfg.flatMap (fun s =>
    match alookup s fs.services with
    | some sd =>
        match sd.published with
        | some pub => (pub.filter (fun e => smallGlob e.1)).map (fun e => (s, e.1))
        | none => []
    | none => [])

def pubNodeOf (fs : FS) (s n : String) : Option Node :=
  match alookup s fs.services with
  | some sd =>
      match sd.published with
      | some pub => alookup n pub
      | none => none
  | none => none

def setPubEntry (fs : FS) (s n : String) (nd : Node) : FS :=
  match alookup s fs.services with
  | some sd =>
      match sd.published with
      | some pub =>
          { fs with services := aset s { sd with published := some (aset n nd pub) } fs.services }
      | none => fs
  | none => fs

/-- Step 5 body for one published preview: readlink; keep it when its
target resolves from the published directory, otherwise replace it by the
two-level-up relative link. -/
def fixupOnePub (fs : FS) (sn : String × String) : Except FsErr FS :=
  match pubNodeOf fs sn.1 sn.2 with
  | some (.link t) =>
      if (statT fs FUEL (.inPub sn.1) t).isSome then .ok fs
      else .ok (setPubEntry fs sn.1 sn.2 (.link (.rel 2 sn.2)))
  | some _ => .error (.enotlink sn.2)
  | none => .error (.enoent sn.2)

/-- Step 5: Directory.__fixup_published_links. -/
def fixupPublishedLinks (cfg : List String) (fs : FS) : Except FsErr FS :=
  (publishedSmall cfg fs).foldlM fixupOnePub fs

/-- Step 6: Directory.__add_files_to_repository registers symlinks with
the VCS collaborator; it does not change the tree. -/
def addFilesToRepository (fs : FS) : FS := fs

/-- Directory.action_fixup: the six ordered steps, over the source list
scanned at entry (Directory.__init__ runs before any step). -/
def actionFixup (cfg : List String) (now : Nat) (fs : FS) : Except FsErr FS := do
  let srcs := scanSources fs
  let fs1 := addMissingSubdirs cfg fs
  let fs2 := createMissingSmallImages now fs1 srcs
  let fs3 ← addNewSmallFiles cfg fs2 srcs
  let fs4 ← fixupSourcePhotosLinks fs3 srcs
  let fs5 ← fixupPublishedLinks cfg fs4
  pure (addFilesToRepository fs5)

def isLinkNode : Node → Bool
  | .link _ => true
  | _ => false

/-- Directory.action_not_published: nothing when the service directory is
absent; otherwise the symlinked direct children (the `published` child is
itself a directory entry of the glob, filtered out as a non-symlink). -/
def actionNotPublished (fs : FS) (service : String) : List String :=
  match alookup service fs.services with
  | none => []
  | some sd =>
      ((sd.entries ++ (match sd.published with
        | some _ => [("published", Node.dir)]
        | none => [])).filter (fun e => isLinkNode e.2)).map (·.1)

/-! ### Workdir discovery (Application.workdirs / Application.all_workdirs)

A separate little model: the archive above the working directories is a
tree of named entries, each a plain file or a directory with children.
Paths are component lists relative to the scanned root. -/

inductive DEnt where
  | dfile
  | ddir (children : List (String × DEnt))

def childOf (d : DEnt) (n : String) : Option DEnt :=
  match d with
  | .dfile => none
  | .ddir cs => alookup n cs

def childrenOf : DEnt → List (String × DEnt)
  | .dfile => []
  | .ddir cs => cs

def resolvePath (root : DEnt) : List String → Option DEnt
  | [] => some root
  | n :: rest =>
      match childOf root n with
      | some d => resolvePath d rest
      | none => none

def monthNames : List String :=
  ["01", "02", "03", "04", "05", "06", "07", "08", "09", "10", "11", "12"]

def letterNames : List String := ["a", "b", "c", "d", "e", "f", "g", "h"]

/-- The regex `^[0-9]{4}-[0-9]{2}-[0-9]{2}$` applied to a ten-character
name. -/
def dateShape : List Char → Bool
  | [a, b, c, d, h1, e, f, h2, g, i] =>
      a.isDigit && b.isDigit && c.isDigit && d.isDigit && h1 = '-' &&
      e.isDigit && f.isDigit && h2 = '-' && g.isDigit && i.isDigit
  | _ => false

/-- re.match with a `$` anchor also accepts one trailing newline. -/
def isDateName (s : String) : Bool :=
  dateShape s.data ||
  (match s.data with
   | [a, b, c, d, h1, e, f, h2, g, i, nl] =>
       dateShape [a, b, c, d, h1, e, f, h2, g, i] && nl = '\n'
   | _ => false)

/-- Python string comparison: lexicographic on code points. -/
def strLt : List Char → List Char → Bool
  | [], [] => false
  | [], _ :: _ => true
  | _ :: _, [] => false
  | a :: as, b :: bs => if a = b then strLt as bs else decide (a < b)

/-- Python `sorted` on paths: lexicographic comparison, component-wise. -/
def pathLe : List String → List String → Bool
  | [], _ => true
  | _ :: _, [] => false
  | a :: as, b :: bs => if a = b then pathLe as bs else strLt a.data b.data

/-- The month buckets that exist under the scanned root. -/
def monthDirsOf (root : DEnt) : List String :=
  monthNames.filter (fun m => (childOf root m).isSome)

/-- The directories whose children are scanned for date names: the month
buckets when any exist, else the root itself (paired with the path prefix
leading to each). -/
def scanDirsOf (root : DEnt) : List (List String × DEnt) :=
  if monthDirsOf root = [] then [([], root)]
  else (monthDirsOf root).filterMap (fun m => (childOf root m).map (fun d => ([m], d)))

/-- The date-named roots produced by the `roots()` generator. -/
def dateRootPaths (root : DEnt) : List (List String) :=
  (scanDirsOf root).flatMap (fun pr => (childrenOf pr.2).filterMap (fun c =>
    if isDateName c.1 then some (pr.1 ++ [c.1]) else none))

def sortedDateRoots (root : DEnt) : List (List String) :=
  (dateRootPaths root).mergeSort pathLe

/-- The existing lettered sub-roots of a date directory. -/
def lettersOf (d : DEnt) : List String :=
  letterNames.filter (fun l => (childOf d l).isSome)

/-- The per-date expansion: each existing lettered sub-root, else the
date directory itself. -/
def expandRoot (root : DEnt) (p : List String) : List (List String) :=
  match resolvePath root p with
  | none => []
  | some d =>
      if lettersOf d = [] then [p] else (lettersOf d).map (fun l => p ++ [l])

/-- Application.all_workdirs. -/
def allWorkdirs (root : DEnt) : List (List String) :=
  (sortedDateRoots root).flatMap (expandRoot root)

/-- Application.workdirs: keep only roots whose `publish` child exists,
and yield that child. -/
def workdirsOf (root : DEnt) : List (List String) :=
  (allWorkdirs root).filterMap (fun p =>
    if (resolvePath root (p ++ ["publish"])).isSome then some (p ++ ["publish"]) else none)

/-! ### Example states used by witnesses -/

def exC5 : FS := {
  parentFiles := []
  absFiles := []
  rootEntries := [("a.JPG", .file 6), ("a_small.jpg", .file 3)]
  services := [] }

def exC7 : FS := {
  parentFiles := []
  absFiles := []
  rootEntries := [("b_processed.JPG", .file 4)]
  services := [] }

def exC10sd : SvcDir := {
  entries := [("DSC_0001_small.jpg", .link (.rel 1 "DSC_0001_small.jpg")),
              ("notes.txt", .file 2),
              ("DSC_0004_small.jpg", .link (.rel 1 "DSC_0004_small.jpg"))]
  published := some [("DSC_0002_small.jpg", .link (.rel 2 "DSC_0002_small.jpg"))] }

def exC10 : FS := {
  parentFiles := []
  absFiles := []
  rootEntries := []
  services := [("flickr", exC10sd)] }

def exC8 : FS := {
  parentFiles := [("a.NEF", 4)]
  absFiles := []
  rootEntries := [("a.NEF", .link (.abs "/mnt/old/a.NEF")),
                  ("b.CR3", .link (.rel 1 "b.CR3")),
                  ("c.txt", .file 9)]
  services := [] }

def exC4s1 : SvcDir := {
  entries := [("a_small.jpg", .link (.rel 1 "a_small.jpg"))]
  published := some [] }

def exC4s2 : SvcDir := {
  entries := []
  published := some [("b_small.jpg", .link (.rel 2 "b_small.jpg"))] }

def exC4 : FS := {
  parentFiles := []
  absFiles := []
  rootEntries := [("a.jpg", .link (.rel 1 "a.jpg")),
                  ("a_small.jpg", .file 7),
                  ("b.jpg", .link (.rel 1 "b.jpg")),
                  ("b_small.jpg", .file 7)]
  services := [("s1", exC4s1), ("s2", exC4s2)] }

def exC3sd : SvcDir := {
  entries := [("old_small.jpg", .link (.rel 1 "old_small.jpg")), ("keep.txt", .file 1)]
  published := some [("pub_small.jpg", .link (.rel 2 "pub_small.jpg"))] }

def exC3 : FS := {
  parentFiles := []
  absFiles := []
  rootEntries := [("x.jpg", .link (.rel 1 "x.jpg")), ("x_small.jpg", .file 5)]
  services := [("s1", exC3sd)] }

/-- A month-named child must not be a plain file: Application.all_workdirs
calls iterdir on it, which raises on a file. -/
def isDirE : Option DEnt → Bool
  | some .dfile => false
  | _ => true

def exC9 : DEnt := .ddir [
  ("01", .ddir [("2022-01-05", .ddir [("publish", .ddir [])]),
                ("2022-01-02", .ddir [("a", .ddir [("publish", .ddir [])]),
                                      ("b", .ddir [])]),
                ("stuff", .ddir [])]),
  ("03", .ddir [("2022-03-01", .ddir [])])]

/-! ### Well-formedness checkers

These Bool-valued checkers mark out the directory states on which the
model is a faithful image of the Python code (no readlink on a plain
file, no glob entry whose shape the code would crash on) and on which the
fixup run is free of pathological name collisions. -/

def optFileOrNone : Option Node → Bool
  | none => true
  | some (.file _) => true
  | _ => false

/-- A published preview entry the repair step can process: a symlink that
does not point back into its own directory. -/
def nodeLinkOk : Node → Bool
  | .link (.rel 0 _) => false
  | .link _ => true
  | _ => false

/-- A root entry whose symlink (if any) points out of the root directory
(absolute, or at least one level up), as source links do. -/
def nodeLinkUp : Node → Bool
  | .link (.rel 0 _) => false
  | _ => true

/-- Published directories have distinct entry names, and their `*_small*`
entries are symlinks pointing out of the published directory. -/
def pubOkB (fs : FS) : Bool :=
  fs.services.all (fun sdp =>
    match sdp.2.published with
    | none => true
    | some pub =>
        decide ((akeys pub).Nodup) &&
        pub.all (fun e => !smallGlob e.1 || nodeLinkOk e.2))

/-- Root entries at the sources' small-preview names are plain files or
absent (the data-model invariant that small previews are plain files). -/
def smallsPlainB (fs : FS) (srcs : List (String × SKind)) : Bool :=
  srcs.all (fun src => optFileOrNone (alookup (smallNameOf src.1) fs.rootEntries))

/-- Every root symlink points out of the root directory. -/
def rootLinksUpB (fs : FS) : Bool :=
  fs.rootEntries.all (fun e => nodeLinkUp e.2)

/-- The sibling names a source's `large` computation probes. -/
def largeCandidates (n : String) (k : SKind) : List String :=
  match k with
  | .raw => [stemOf n ++ ".JPG", stemOf n ++ ".jpg"]
  | .jpeg => (processedExts.map (fun e => stemOf n ++ "_processed." ++ e)) ++ [n]

/-- No source's small-preview name collides with a source name or with
any source's large-candidate name. -/
def noClashB (srcs : List (String × SKind)) : Bool :=
  srcs.all (fun src => srcs.all (fun src2 =>
    decide (smallNameOf src.1 ≠ src2.1) &&
    (largeCandidates src2.1 src2.2).all (fun c => decide (smallNameOf src.1 ≠ c))))

/-- No large-candidate name is a directory in the root. -/
def candDirFreeB (fs : FS) (srcs : List (String × SKind)) : Bool :=
  srcs.all (fun src => (largeCandidates src.1 src.2).all (fun c =>
    match alookup c fs.rootEntries with
    | some .dir => false
    | _ => true))

/-- No configured service name collides with a root entry, and no service
directory has a plain entry named `published` (the code's existence
checks would otherwise see the file where the model sees a directory). -/
def cfgFreshB (fs : FS) (cfg : List String) : Bool :=
  cfg.all (fun s => (alookup s fs.rootEntries).isNone) &&
  fs.services.all (fun sdp => (alookup "published" sdp.2.entries).isNone)

/-- The parts of a service directory that symlink resolution outside the
published folder can see: its entries and whether `published` exists. -/
def svcShape : Option SvcDir → Option (List (String × Node) × Bool) :=
  Option.map (fun sd => (sd.entries, sd.published.isSome))

/-- The published list of a service, when the service and the list exist. -/
def pubList (fs : FS) (s : String) : Option (List (String × Node)) :=
  match alookup s fs.services with
  | some sd => sd.published
  | none => none

def exC2sd : SvcDir := {
  entries := [("b_small.jpg", .link (.abs "/stale"))]
  published := some [] }

def exC2 : FS := {
  parentFiles := []
  absFiles := []
  rootEntries := [("A.jpg", .link (.abs "/gone"))]
  services := [("s", exC2sd)] }

def exC2sd' : SvcDir := {
  entries := [("b_small.jpg", .link (.abs "/stale"))]
  published := some [] }

def exC2' : FS := {
  parentFiles := []
  absFiles := []
  rootEntries := [("A.jpg", .link (.rel 1 "A.jpg"))]
  services := [("s", exC2sd')] }

/-- Every modification time recorded in the state is at most `now` (the
resize collaborator stamps new previews with `now`, so a well-formed state
has no files from the future). -/
def mtimesLeB (fs : FS) (now : Nat) : Bool :=
  fs.parentFiles.all (fun e => e.2 ≤ now) &&
  fs.absFiles.all (fun e => e.2 ≤ now) &&
  fs.rootEntries.all (fun e => match e.2 with | .file m => m ≤ now | _ => true)

/-- Every source whose link target is absolute denotes the same file the
one-level-up rewrite `../name` will denote: the stale mount-point path and
the parent-directory path agree (same presence and modification time). -/
def absMatchesB (fs : FS) (srcs : List (String × SKind)) : Bool :=
  srcs.all (fun src =>
    match alookup src.1 fs.rootEntries with
    | some (.link (.abs p)) =>
        decide (alookup p fs.absFiles = alookup src.1 fs.parentFiles)
    | _ => true)

/-- A state refuting fixup idempotence: the source `a.jpg` points at a
dead absolute path while `../a.jpg` exists in the parent directory. -/
def exC1 : FS := {
  parentFiles := [("a.jpg", 5)]
  absFiles := []
  rootEntries := [("a.jpg", .link (.abs "/gone/a.jpg"))]
  services := [] }

/-- `exC1` after one fixup run: only the link was rewritten (its absolute
target did not resolve, so no preview was materialized). -/
def exC1' : FS := {
  parentFiles := [("a.jpg", 5)]
  absFiles := []
  rootEntries := [("a.jpg", .link (.rel 1 "a.jpg"))]
  services := [("s", { entries := [], published := some [] })] }

/-- `exC1` after a second fixup run: the rewritten link now resolves, so
the preview `a_small.jpg` is materialized and distributed. -/
def exC1s : FS := {
  parentFiles := [("a.jpg", 5)]
  absFiles := []
  rootEntries := [("a.jpg", .link (.rel 1 "a.jpg")), ("a_small.jpg", .file 10)]
  services := [("s", { entries := [("a_small.jpg", .link (.rel 1 "a_small.jpg"))], published := some [] })] }

/-- A well-formed state for the amended idempotence theorem: the absolute
source target denotes the same parent file as its `../a.jpg` rewrite. -/
def exC1w : FS := {
  parentFiles := [("a.jpg", 5)]
  absFiles := [("/mnt/arch/a.jpg", 5)]
  rootEntries := [("a.jpg", .link (.abs "/mnt/arch/a.jpg"))]
  services := [] }

/-! ### Association list lemmas -/

theorem alookup_aset (n : String) (v : α) (l : List (String × α)) (m : String) :
    alookup m (aset n v l) = if n = m then some v else alookup m l := by
  induction l with
  | nil => simp [aset, alookup]
  | cons e rest ih =>
      obtain ⟨k, w⟩ := e
      by_cases hk : k = n
      · subst hk
        by_cases hm : k = m
        · subst hm; simp [aset, alookup]
        · simp [aset, alookup, hm, Ne.symm hm]
      · by_cases hm : k = m
        · subst hm
          have : ¬ n = k := fun h => hk h.symm
          simp [aset, alookup, hk, this]
        · simp [aset, alookup, hk, hm, ih]

theorem aset_self (n : String) (v : α) (l : List (String × α))
    (h : alookup n l = some v) : aset n v l = l := by
  induction l with
  | nil => simp [alookup] at h
  | cons e rest ih =>
      obtain ⟨k, w⟩ := e
      by_cases hk : k = n
      · subst hk
        simp [alookup] at h
        simp [aset, h]
      · simp [alookup, hk] at h
        simp [aset, hk, ih h]

theorem alookup_append (n : String) (l1 l2 : List (String × α)) :
    alookup n (l1 ++ l2) =
      match alookup n l1 with
      | some v => some v
      | none => alookup n l2 := by
  induction l1 with
  | nil => simp [alookup]
  | cons e rest ih =>
      obtain ⟨k, w⟩ := e
      by_cases hk : k = n
      · simp [alookup, hk]
      · simp [alookup, hk, ih]

theorem mem_of_alookup {n : String} {v : α} {l : List (String × α)}
    (h : alookup n l = some v) : (n, v) ∈ l := by
  induction l with
  | nil => simp [alookup] at h
  | cons e rest ih =>
      obtain ⟨k, w⟩ := e
      by_cases hk : k = n
      · subst hk
        simp [alookup] at h
        simp [h]
      · simp [alookup, hk] at h
        simp [ih h]

theorem alookup_isSome_iff {n : String} {l : List (String × α)} :
    (alookup n l).isSome = true ↔ n ∈ akeys l := by
  induction l with
  | nil => simp [alookup, akeys]
  | cons e rest ih =>
      obtain ⟨k, w⟩ := e
      by_cases hk : k = n
      · subst hk; simp [alookup, akeys]
      · simp [alookup, akeys, hk, Ne.symm hk, ih]

theorem alookup_eq_none_iff {n : String} {l : List (String × α)} :
    alookup n l = none ↔ n ∉ akeys l := by
  rw [← alookup_isSome_iff]
  cases h : alookup n l <;> simp [h]

/-! ### Glob lemmas -/

theorem leadEq_self_append (p ys : List Char) : leadEq p (p ++ ys) = true := by
  induction p with
  | nil => simp [leadEq]
  | cons c cs ih => simp [leadEq, ih]

theorem hasSub_of_mid (p xs ys : List Char) : hasSub p (xs ++ (p ++ ys)) = true := by
  induction xs with
  | nil =>
      simp only [List.nil_append]
      cases hp : p ++ ys with
      | nil =>
          have : p = [] := by
            cases p with
            | nil => rfl
            | cons a as => simp at hp
          subst this
          simp [hasSub, leadEq]
      | cons c cs =>
          rw [hasSub, ← hp, leadEq_self_append]
          simp
  | cons x xs ih =>
      rw [List.cons_append, hasSub, ih]
      simp

theorem smallGlob_smallNameOf (n : String) : smallGlob (smallNameOf n) = true := by
  have h : ("_small.jpg" : String).data = "_small".data ++ ".jpg".data := rfl
  rw [smallGlob, smallNameOf, String.data_append, h]
  exact hasSub_of_mid _ _ _

/-! ### Claim theorems -/

/-- C6: classification is total and decided only by being a symlink and by
the lowercased extension: symlinks with extension lowering to .nef or .cr3
are raw sources, those lowering to .jpg or .jpeg are jpeg sources, and
every other entry (plain files and directories included) is not a source;
names with the same lowercased extension classify identically. -/
theorem c6_classify_totality (nd : Node) (n : String) :
    (classify nd n = some SKind.raw ↔
      ((∃ t, nd = Node.link t) ∧
        (lowerStr (suffixOf n) = ".nef" ∨ lowerStr (suffixOf n) = ".cr3"))) ∧
    (classify nd n = some SKind.jpeg ↔
      ((∃ t, nd = Node.link t) ∧
        (lowerStr (suffixOf n) = ".jpg" ∨ lowerStr (suffixOf n) = ".jpeg"))) ∧
    ((∀ m, nd = Node.file m → classify nd n = none) ∧
      (nd = Node.dir → classify nd n = none)) ∧
    (∀ n2, lowerStr (suffixOf n2) = lowerStr (suffixOf n) →
      classify nd n2 = classify nd n) := by
  cases nd with
  | file m =>
      refine ⟨by simp [classify], by simp [classify], ⟨by simp [classify], by simp⟩, ?_⟩
      intro n2 _; rfl
  | dir =>
      refine ⟨by simp [classify], by simp [classify], ⟨by simp, by simp [classify]⟩, ?_⟩
      intro n2 _; rfl
  | link t =>
      have hshow : ∀ m : String, classify (Node.link t) m = classifyName m := fun _ => rfl
      refine ⟨?_, ?_, ⟨by simp, by simp⟩, ?_⟩
      · rw [hshow, classifyName]
        by_cases h1 : lowerStr (suffixOf n) = ".jpg" ∨ lowerStr (suffixOf n) = ".jpeg"
        · rw [if_pos h1]
          constructor
          · intro h; simp at h
          · rintro ⟨-, h2⟩
            exfalso
            rcases h1 with h1 | h1 <;> rcases h2 with h2 | h2 <;>
              rw [h1] at h2 <;> simp at h2
        · rw [if_neg h1]
          by_cases h2 : lowerStr (suffixOf n) = ".nef" ∨ lowerStr (suffixOf n) = ".cr3"
          · rw [if_pos h2]
            constructor
            · intro _; exact ⟨⟨t, rfl⟩, h2⟩
            · intro _; rfl
          · rw [if_neg h2]
            constructor
            · intro h; simp at h
            · rintro ⟨-, h⟩; exact absurd h h2
      · rw [hshow, classifyName]
        by_cases h1 : lowerStr (suffixOf n) = ".jpg" ∨ lowerStr (suffixOf n) = ".jpeg"
        · rw [if_pos h1]
          constructor
          · intro _; exact ⟨⟨t, rfl⟩, h1⟩
          · intro _; rfl
        · rw [if_neg h1]
          by_cases h2 : lowerStr (suffixOf n) = ".nef" ∨ lowerStr (suffixOf n) = ".cr3"
          · rw [if_pos h2]
            constructor
            · intro h; simp at h
            · rintro ⟨-, h⟩; exact absurd h h1
          · rw [if_neg h2]
            constructor
            · intro h; simp at h
            · rintro ⟨-, h⟩; exact absurd h h1
      · intro n2 hsame
        rw [hshow, hshow, classifyName, classifyName, hsame]

theorem c6_witness :
    classify (Node.link (LinkTarget.abs "/arch/x")) "DSC_0001.NeF" = some SKind.raw ∧
    classify (Node.file 3) "DSC_0001.jpg" = none := by
  constructor
  · exact (c6_classify_totality (Node.link (LinkTarget.abs "/arch/x")) "DSC_0001.NeF").1.mpr
      ⟨⟨_, rfl⟩, Or.inl (by decide)⟩
  · exact (c6_classify_totality (Node.file 3) "DSC_0001.jpg").2.2.1.1 3 rfl

/-- C7: for raw sources, large is the first existing sibling among
stem.JPG then stem.jpg, defaulting to stem.JPG; for jpeg sources, large is
the first existing sibling stem_processed.ext over jpg, JPG, jpeg, JPEG in
that order (first match wins), defaulting to the source path itself; small
is the sibling stem_small.jpg for both variants. -/
theorem c7_large_small_paths (fs : FS) (n : String) :
    (existsRoot fs (stemOf n ++ ".JPG") = true →
      rawLargeName fs n = stemOf n ++ ".JPG") ∧
    (existsRoot fs (stemOf n ++ ".JPG") = false →
      existsRoot fs (stemOf n ++ ".jpg") = true →
      rawLargeName fs n = stemOf n ++ ".jpg") ∧
    (existsRoot fs (stemOf n ++ ".JPG") = false →
      existsRoot fs (stemOf n ++ ".jpg") = false →
      rawLargeName fs n = stemOf n ++ ".JPG") ∧
    (existsRoot fs (stemOf n ++ "_processed." ++ "jpg") = true →
      jpegLargeName fs n = stemOf n ++ "_processed." ++ "jpg") ∧
    (existsRoot fs (stemOf n ++ "_processed." ++ "jpg") = false →
      existsRoot fs (stemOf n ++ "_processed." ++ "JPG") = true →
      jpegLargeName fs n = stemOf n ++ "_processed." ++ "JPG") ∧
    (existsRoot fs (stemOf n ++ "_processed." ++ "jpg") = false →
      existsRoot fs (stemOf n ++ "_processed." ++ "JPG") = false →
      existsRoot fs (stemOf n ++ "_processed." ++ "jpeg") = true →
      jpegLargeName fs n = stemOf n ++ "_processed." ++ "jpeg") ∧
    (existsRoot fs (stemOf n ++ "_processed." ++ "jpg") = false →
      existsRoot fs (stemOf n ++ "_processed." ++ "JPG") = false →
      existsRoot fs (stemOf n ++ "_processed." ++ "jpeg") = false →
      existsRoot fs (stemOf n ++ "_processed." ++ "JPEG") = true →
      jpegLargeName fs n = stemOf n ++ "_processed." ++ "JPEG") ∧
    (existsRoot fs (stemOf n ++ "_processed." ++ "jpg") = false →
      existsRoot fs (stemOf n ++ "_processed." ++ "JPG") = false →
      existsRoot fs (stemOf n ++ "_processed." ++ "jpeg") = false →
      existsRoot fs (stemOf n ++ "_processed." ++ "JPEG") = false →
      jpegLargeName fs n = n) ∧
    smallNameOf n = stemOf n ++ "_small.jpg" := by
  refine ⟨?_, ?_, ?_, ?_, ?_, ?_, ?_, ?_, rfl⟩
  · intro h1; rw [rawLargeName, if_pos h1]
  · intro h1 h2; rw [rawLargeName, if_neg (by simp [h1]), if_pos h2]
  · intro h1 h2; rw [rawLargeName, if_neg (by simp [h1]), if_neg (by simp [h2])]
  · intro h1
    simp [jpegLargeName, processedExts, List.find?, h1]
  · intro h1 h2
    simp [jpegLargeName, processedExts, List.find?, h1, h2]
  · intro h1 h2 h3
    simp [jpegLargeName, processedExts, List.find?, h1, h2, h3]
  · intro h1 h2 h3 h4
    simp [jpegLargeName, processedExts, List.find?, h1, h2, h3, h4]
  · intro h1 h2 h3 h4
    simp [jpegLargeName, processedExts, List.find?, h1, h2, h3, h4]

theorem c7_witness :
    rawLargeName exC7 "a.NEF" = "a.JPG" ∧ jpegLargeName exC7 "b.jpg" = "b_processed.JPG" := by
  constructor
  · have h := (c7_large_small_paths exC7 "a.NEF").2.2.1 (by decide) (by decide)
    rw [h]; decide
  · have h := ((c7_large_small_paths exC7 "b.jpg").2.2.2.2.1) (by decide) (by decide)
    rw [h]; decide

/-- C5: in the preview-materialization step, a source whose large artifact
exists gets CREATE when the small preview is absent, UPDATE when the small
preview is strictly older than the large artifact, and no action (the
state is left untouched) when the small preview is at least as new. -/
theorem c5_preview_freshness (fs : FS) (now : Nat) (n : String) (k : SKind) (lm : Nat)
    (hl : statRoot fs (largeName fs n k) = some lm) :
    (statRoot fs (smallNameOf n) = none → smallAction fs n k = some 1) ∧
    (∀ sm, statRoot fs (smallNameOf n) = some sm → sm < lm →
      smallAction fs n k = some 2) ∧
    (∀ sm, statRoot fs (smallNameOf n) = some sm → lm ≤ sm →
      smallAction fs n k = none ∧ createSmallStep now fs (n, k) = fs) := by
  refine ⟨?_, ?_, ?_⟩
  · intro hs
    rw [smallAction, hl, hs]
  · intro sm hs hlt
    rw [smallAction, hl, hs]
    simp [hlt]
  · intro sm hs hge
    have hact : smallAction fs n k = none := by
      rw [smallAction, hl, hs]
      simp [Nat.not_lt.mpr hge]
    exact ⟨hact, by rw [createSmallStep]; rw [show (n, k).1 = n from rfl, show (n, k).2 = k from rfl, hact]⟩

theorem c5_witness :
    smallAction exC5 "a.NEF" SKind.raw = some 2 :=
  (c5_preview_freshness exC5 10 "a.NEF" SKind.raw 6 (by decide)).2.1 3 (by decide) (by decide)

/-- C10: the list-unpublished action for a service whose directory is
absent yields nothing (no error); when the directory exists it yields
exactly the symlinked direct children of that directory, the published
child and everything beneath it excluded. -/
theorem c10_not_published (fs : FS) (service : String) :
    (alookup service fs.services = none → actionNotPublished fs service = []) ∧
    (∀ sd, alookup service fs.services = some sd →
      actionNotPublished fs service =
        ((sd.entries.filter (fun e => isLinkNode e.2)).map (·.1))) := by
  constructor
  · intro h; rw [actionNotPublished, h]
  · intro sd h
    rw [actionNotPublished, h]
    dsimp only
    cases hp : sd.published with
    | none => simp
    | some pub => simp [List.filter_append, isLinkNode]

theorem c10_witness :
    actionNotPublished exC10 "flickr" = ["DSC_0001_small.jpg", "DSC_0004_small.jpg"] ∧
    actionNotPublished exC10 "px500" = [] := by
  constructor
  · rw [(c10_not_published exC10 "flickr").2 exC10sd (by decide)]; decide
  · exact (c10_not_published exC10 "px500").1 (by decide)

/-! ### Lookup and scan lemmas -/

theorem alookup_of_mem_nodup {l : List (String × α)} (hnd : (akeys l).Nodup)
    {n : String} {v : α} (h : (n, v) ∈ l) : alookup n l = some v := by
  induction l with
  | nil => simp at h
  | cons e rest ih =>
      obtain ⟨k, w⟩ := e
      rcases List.mem_cons.mp h with he | he
      · obtain ⟨h1, h2⟩ := Prod.mk.injEq .. ▸ he
        subst h1; subst h2
        simp [alookup]
      · have hk : ¬ k = n := by
          intro hkn
          subst hkn
          have : k ∈ akeys rest := List.mem_map.mpr ⟨(k, v), he, rfl⟩
          exact (List.nodup_cons.mp (by simpa [akeys] using hnd)).1 this
        have hnd' : (akeys rest).Nodup := (List.nodup_cons.mp (by simpa [akeys] using hnd)).2
        simp [alookup, hk, ih hnd' he]

theorem scanSources_entry {fs : FS} (hnd : (akeys fs.rootEntries).Nodup)
    {n : String} {k : SKind} (h : (n, k) ∈ scanSources fs) :
    ∃ t, alookup n fs.rootEntries = some (Node.link t) ∧ classifyName n = some k := by
  rw [scanSources] at h
  obtain ⟨e, he, hcl⟩ := List.mem_filterMap.mp h
  obtain ⟨a, ha, hpair⟩ := Option.map_eq_some'.mp hcl
  obtain ⟨h1, h2⟩ := Prod.mk.injEq .. ▸ hpair
  subst h1; subst h2
  cases hnode : e.2 with
  | link t =>
      refine ⟨t, ?_, ?_⟩
      · have : (e.1, Node.link t) ∈ fs.rootEntries := by
          have := he
          rw [show e = (e.1, e.2) from rfl, hnode] at this
          exact this
        exact alookup_of_mem_nodup hnd this
      · rw [hnode] at ha
        exact ha
  | file m => rw [hnode] at ha; simp [classify] at ha
  | dir => rw [hnode] at ha; simp [classify] at ha

/-! ### Step 4 specification -/

theorem fixupSourcePhotosLinks_spec (srcs : List (String × SKind)) :
    ∀ (fs : FS),
    (∀ e ∈ srcs, ∃ t, alookup e.1 fs.rootEntries = some (Node.link t)) →
    ∃ fs', fixupSourcePhotosLinks fs srcs = .ok fs' ∧
      fs'.parentFiles = fs.parentFiles ∧ fs'.absFiles = fs.absFiles ∧
      fs'.services = fs.services ∧
      (∀ m p, (∃ k, (m, k) ∈ srcs) →
        alookup m fs.rootEntries = some (Node.link (LinkTarget.abs p)) →
        alookup m fs'.rootEntries = some (Node.link (LinkTarget.rel 1 m))) ∧
      (∀ m u q, alookup m fs.rootEntries = some (Node.link (LinkTarget.rel u q)) →
        alookup m fs'.rootEntries = some (Node.link (LinkTarget.rel u q))) ∧
      (∀ m, (∀ k, (m, k) ∉ srcs) →
        alookup m fs'.rootEntries = alookup m fs.rootEntries) ∧
      (∀ m, alookup m fs'.rootEntries = alookup m fs.rootEntries ∨
        alookup m fs'.rootEntries = some (Node.link (LinkTarget.rel 1 m))) := by
  induction srcs with
  | nil =>
      intro fs _
      exact ⟨fs, rfl, rfl, rfl, rfl, by simp, fun m u q h => h, fun m _ => rfl,
        fun m => Or.inl rfl⟩
  | cons src rest ih =>
      intro fs hlinks
      obtain ⟨t, ht⟩ := hlinks src (List.mem_cons_self _ _)
      cases t with
      | abs p0 =>
          have hstep : fixupOneSource fs src =
              .ok (upsertRoot fs src.1 (Node.link (LinkTarget.rel 1 src.1))) := by
            rw [fixupOneSource, ht]
          have hlook1 : ∀ m, alookup m (upsertRoot fs src.1
              (Node.link (LinkTarget.rel 1 src.1))).rootEntries =
              if src.1 = m then some (Node.link (LinkTarget.rel 1 src.1))
              else alookup m fs.rootEntries := by
            intro m
            exact alookup_aset src.1 _ fs.rootEntries m
          have hlinks1 : ∀ e ∈ rest, ∃ t2, alookup e.1 (upsertRoot fs src.1
              (Node.link (LinkTarget.rel 1 src.1))).rootEntries = some (Node.link t2) := by
            intro e he
            obtain ⟨t2, ht2⟩ := hlinks e (List.mem_cons_of_mem _ he)
            by_cases hm : src.1 = e.1
            · exact ⟨LinkTarget.rel 1 src.1, by rw [hlook1, if_pos hm]⟩
            · exact ⟨t2, by rw [hlook1, if_neg hm]; exact ht2⟩
          obtain ⟨fs', hrun, hp, ha, hs, habs, hrel, hfr, hall⟩ :=
            ih (upsertRoot fs src.1 (Node.link (LinkTarget.rel 1 src.1))) hlinks1
          refine ⟨fs', ?_, hp, ha, hs, ?_, ?_, ?_, ?_⟩
          · rw [fixupSourcePhotosLinks, List.foldlM_cons, hstep]
            exact hrun
          · intro m p ⟨k, hk⟩ hm
            rcases List.mem_cons.mp hk with hk0 | hk0
            · have hm1 : m = src.1 := by
                have := congrArg Prod.fst hk0
                simpa using this
              subst hm1
              have hx : alookup src.1 (upsertRoot fs src.1
                  (Node.link (LinkTarget.rel 1 src.1))).rootEntries =
                  some (Node.link (LinkTarget.rel 1 src.1)) := by rw [hlook1, if_pos rfl]
              exact hrel src.1 1 src.1 hx
            · by_cases hm1 : src.1 = m
              · subst hm1
                have : alookup src.1 (upsertRoot fs src.1
                    (Node.link (LinkTarget.rel 1 src.1))).rootEntries =
                    some (Node.link (LinkTarget.rel 1 src.1)) := by rw [hlook1, if_pos rfl]
                exact hrel src.1 1 src.1 this
              · apply habs m p ⟨k, hk0⟩
                rw [hlook1, if_neg hm1]
                exact hm
          · intro m u q hm
            by_cases hm1 : src.1 = m
            · subst hm1
              rw [ht] at hm
              simp at hm
            · apply hrel m u q
              rw [hlook1, if_neg hm1]
              exact hm
          · intro m hm
            have hm1 : ¬ src.1 = m := by
              intro hsm
              subst hsm
              exact hm src.2 (by simp)
            have := hfr m (fun k hk => hm k (List.mem_cons_of_mem _ hk))
            rw [this, hlook1, if_neg hm1]
          · intro m
            rcases hall m with h | h
            · rw [h, hlook1]
              by_cases hm1 : src.1 = m
              · subst hm1
                rw [if_pos rfl]
                exact Or.inr rfl
              · rw [if_neg hm1]
                exact Or.inl rfl
            · exact Or.inr h
      | rel u0 q0 =>
          have hstep : fixupOneSource fs src = .ok fs := by
            rw [fixupOneSource, ht]
          obtain ⟨fs', hrun, hp, ha, hs, habs, hrel, hfr, hall⟩ :=
            ih fs (fun e he => hlinks e (List.mem_cons_of_mem _ he))
          refine ⟨fs', ?_, hp, ha, hs, ?_, hrel, ?_, hall⟩
          · rw [fixupSourcePhotosLinks, List.foldlM_cons, hstep]
            exact hrun
          · intro m p ⟨k, hk⟩ hm
            rcases List.mem_cons.mp hk with hk0 | hk0
            · have hm1 : m = src.1 := by
                have := congrArg Prod.fst hk0
                simpa using this
              subst hm1
              rw [ht] at hm
              simp at hm
            · exact habs m p ⟨k, hk0⟩ hm
          · intro m hm
            exact hfr m (fun k hk => hm k (List.mem_cons_of_mem _ hk))

/-- C8: the source-link repair step succeeds on every scanned directory;
a source link with an absolute target is replaced by the one-level-up
relative link of the same name, a source link whose target is already
relative is left exactly as it is (no validation of its value), and no
other root entry, service entry, parent file or absolute file changes. -/
theorem c8_source_link_repair (fs : FS) (hnd : (akeys fs.rootEntries).Nodup) :
    ∃ fs', fixupSourcePhotosLinks fs (scanSources fs) = .ok fs' ∧
      fs'.parentFiles = fs.parentFiles ∧ fs'.absFiles = fs.absFiles ∧
      fs'.services = fs.services ∧
      (∀ n k p, (n, k) ∈ scanSources fs →
        alookup n fs.rootEntries = some (Node.link (LinkTarget.abs p)) →
        alookup n fs'.rootEntries = some (Node.link (LinkTarget.rel 1 n))) ∧
      (∀ n u q, alookup n fs.rootEntries = some (Node.link (LinkTarget.rel u q)) →
        alookup n fs'.rootEntries = some (Node.link (LinkTarget.rel u q))) ∧
      (∀ n, (∀ k, (n, k) ∉ scanSources fs) →
        alookup n fs'.rootEntries = alookup n fs.rootEntries) := by
  have hlinks : ∀ e ∈ scanSources fs, ∃ t, alookup e.1 fs.rootEntries = some (Node.link t) := by
    intro e he
    obtain ⟨t, ht, _⟩ := scanSources_entry hnd (show (e.1, e.2) ∈ scanSources fs from he)
    exact ⟨t, ht⟩
  obtain ⟨fs', hrun, hp, ha, hs, habs, hrel, hfr, _⟩ := fixupSourcePhotosLinks_spec _ fs hlinks
  exact ⟨fs', hrun, hp, ha, hs, fun n k p hk hm => habs n p ⟨k, hk⟩ hm, hrel, hfr⟩

theorem c8_witness :
    ∃ fs', fixupSourcePhotosLinks exC8 (scanSources exC8) = .ok fs' ∧
      alookup "a.NEF" fs'.rootEntries = some (Node.link (LinkTarget.rel 1 "a.NEF")) ∧
      alookup "b.CR3" fs'.rootEntries = some (Node.link (LinkTarget.rel 1 "b.CR3")) ∧
      alookup "c.txt" fs'.rootEntries = some (Node.file 9) := by
  obtain ⟨fs', hrun, _, _, _, habs, hrel, hfr⟩ := c8_source_link_repair exC8 (by decide)
  refine ⟨fs', hrun, ?_, ?_, ?_⟩
  · exact habs "a.NEF" SKind.raw "/mnt/old/a.NEF" (by decide) (by decide)
  · exact hrel "b.CR3" 1 "b.CR3" (by decide)
  · rw [hfr "c.txt" (by intro k; cases k <;> decide)]
    decide

/-! ### Distribution dedup -/

theorem smallGlob_of_mem_allSmall {fs : FS} {srcs : List (String × SKind)} {n : String}
    (h : n ∈ allSmallNames fs srcs) : smallGlob n = true := by
  rw [allSmallNames, List.mem_dedup] at h
  obtain ⟨src, _, hif⟩ := List.mem_filterMap.mp h
  by_cases hex : existsRoot fs (smallNameOf src.1)
  · rw [if_pos hex] at hif
    cases hif
    exact smallGlob_smallNameOf _
  · rw [if_neg hex] at hif
    cases hif

theorem mem_managed_of_key {fs : FS} {s n : String} {sd : SvcDir}
    (hsd : alookup s fs.services = some sd) (hglob : smallGlob n = true) :
    (∀ nd, alookup n sd.entries = some nd → n ∈ managedNames fs s) ∧
    (∀ pub nd, sd.published = some pub → alookup n pub = some nd → n ∈ managedNames fs s) := by
  constructor
  · intro nd hlook
    rw [managedNames, hsd]
    dsimp only
    apply List.mem_append_left
    exact List.mem_map.mpr ⟨(n, nd), List.mem_filter.mpr ⟨mem_of_alookup hlook, hglob⟩, rfl⟩
  · intro pub nd hpub hlook
    rw [managedNames, hsd]
    dsimp only
    rw [hpub]
    dsimp only
    apply List.mem_append_right
    exact List.mem_map.mpr ⟨(n, nd), List.mem_filter.mpr ⟨mem_of_alookup hlook, hglob⟩, rfl⟩

/-- C4: newSmallImages yields a pair only for an existing service
directory and only with a non-empty name set, that set being exactly the
existing small previews minus the ones already managed by that service
(directly or under published); consequently no yielded name is already
present in the service directory or its published child. -/
theorem c4_distribution_dedup (cfg : List String) (fs : FS) (srcs : List (String × SKind)) :
    ∀ pr ∈ newSmallImages cfg fs srcs,
      svcExists fs pr.1 = true ∧ pr.2 ≠ [] ∧
      (∀ n, n ∈ pr.2 ↔ (n ∈ allSmallNames fs srcs ∧ n ∉ managedNames fs pr.1)) ∧
      (∀ n ∈ pr.2, ∀ sd, alookup pr.1 fs.services = some sd →
        alookup n sd.entries = none ∧
        ∀ pub, sd.published = some pub → alookup n pub = none) := by
  intro pr hpr
  rw [newSmallImages] at hpr
  obtain ⟨s, _, heq⟩ := List.mem_filterMap.mp hpr
  by_cases hex : svcExists fs s
  · rw [if_pos hex] at heq
    by_cases hne : (allSmallNames fs srcs).filter (fun n => decide (n ∉ managedNames fs s)) = []
    · rw [if_pos hne] at heq
      cases heq
    · rw [if_neg hne] at heq
      cases heq
      refine ⟨hex, hne, ?_, ?_⟩
      · intro n
        constructor
        · intro hn
          have := List.mem_filter.mp hn
          exact ⟨this.1, by simpa using this.2⟩
        · intro ⟨h1, h2⟩
          exact List.mem_filter.mpr ⟨h1, by simpa using h2⟩
      · intro n hn sd hsd
        have hmem := List.mem_filter.mp hn
        have hglob : smallGlob n = true := smallGlob_of_mem_allSmall hmem.1
        have hnotm : n ∉ managedNames fs s := by simpa using hmem.2
        constructor
        · cases hlook : alookup n sd.entries with
          | none => rfl
          | some nd => exact absurd ((mem_managed_of_key hsd hglob).1 nd hlook) hnotm
        · intro pub hpub
          cases hlook : alookup n pub with
          | none => rfl
          | some nd =>
              exact absurd ((mem_managed_of_key hsd hglob).2 pub nd hpub hlook) hnotm
  · rw [if_neg hex] at heq
    cases heq

theorem c4_witness :
    alookup "b_small.jpg" exC4s1.entries = none ∧
    (∀ pub, exC4s1.published = some pub → alookup "b_small.jpg" pub = none) ∧
    alookup "a_small.jpg" exC4s2.entries = none := by
  have h1 := c4_distribution_dedup ["s1", "s2"] exC4 (scanSources exC4)
    ("s1", ["b_small.jpg"]) (by decide)
  have h2 := (h1.2.2.2 "b_small.jpg" (by decide) exC4s1 (by decide))
  have h3 := c4_distribution_dedup ["s1", "s2"] exC4 (scanSources exC4)
    ("s2", ["a_small.jpg"]) (by decide)
  exact ⟨h2.1, h2.2, (h3.2.2.2 "a_small.jpg" (by decide) exC4s2 (by decide)).1⟩


/-! ### Step 1 specification -/

theorem ensurePub_frame (fs : FS) (s : String) :
    (ensurePub fs s).parentFiles = fs.parentFiles ∧
    (ensurePub fs s).absFiles = fs.absFiles ∧
    (ensurePub fs s).rootEntries = fs.rootEntries := by
  rw [ensurePub]
  split
  · exact ⟨rfl, rfl, rfl⟩
  · rw [mkPub]
    split <;> exact ⟨rfl, rfl, rfl⟩

theorem ensureService_frame (fs : FS) (s : String) :
    (ensureService fs s).parentFiles = fs.parentFiles ∧
    (ensureService fs s).absFiles = fs.absFiles ∧
    (ensureService fs s).rootEntries = fs.rootEntries := by
  rw [ensureService]
  by_cases h1 : svcExists fs s
  · rw [if_pos h1]
    exact ensurePub_frame fs s
  · rw [if_neg h1]
    exact ensurePub_frame _ s

theorem ensureService_lookup (fs : FS) (s u : String) :
    alookup u (ensureService fs s).services =
      if s = u then
        (match alookup s fs.services with
         | none => some ⟨[], some []⟩
         | some sd => some { sd with
             published := some (match sd.published with | some p => p | none => []) })
      else alookup u fs.services := by
  rw [ensureService]
  cases hsv : alookup s fs.services with
  | some sd =>
      obtain ⟨ents, spub⟩ := sd
      rw [if_pos (show svcExists fs s = true by rw [svcExists, hsv]; rfl)]
      rw [ensurePub]
      cases spub with
      | some p =>
          rw [if_pos (show pubExists fs s = true by simp [pubExists, hsv])]
          by_cases hu : s = u
          · subst hu
            rw [if_pos rfl, hsv]
          · rw [if_neg hu]
      | none =>
          rw [if_neg (show ¬ pubExists fs s = true by simp [pubExists, hsv])]
          rw [mkPub, hsv]
          dsimp only
          rw [alookup_aset]
  | none =>
      rw [if_neg (show ¬ svcExists fs s = true by simp [svcExists, hsv])]
      rw [ensurePub]
      have hl1 : ∀ w, alookup w (fs.services ++ [(s, (⟨[], none⟩ : SvcDir))]) =
          if s = w then some (⟨[], none⟩ : SvcDir) else alookup w fs.services := by
        intro w
        rw [alookup_append]
        by_cases hw : s = w
        · rw [if_pos hw, ← hw, hsv]
          simp [alookup]
        · rw [if_neg hw]
          cases hv : alookup w fs.services with
          | some v => rfl
          | none => simp [alookup, hw]
      rw [if_neg (show ¬ pubExists { fs with
            services := fs.services ++ [(s, ⟨[], none⟩)] } s = true by
          simp only [pubExists]
          rw [hl1 s, if_pos rfl]
          simp)]
      rw [mkPub]
      dsimp only
      rw [hl1 s, if_pos rfl]
      dsimp only
      rw [alookup_aset]
      by_cases hu : s = u
      · rw [if_pos hu, if_pos hu]
      · rw [if_neg hu, if_neg hu, hl1 u, if_neg hu]

theorem addMissingSubdirs_frame (cfg : List String) (fs : FS) :
    (addMissingSubdirs cfg fs).parentFiles = fs.parentFiles ∧
    (addMissingSubdirs cfg fs).absFiles = fs.absFiles ∧
    (addMissingSubdirs cfg fs).rootEntries = fs.rootEntries := by
  induction cfg generalizing fs with
  | nil => exact ⟨rfl, rfl, rfl⟩
  | cons s rest ih =>
      have h1 := ensureService_frame fs s
      have h2 := ih (ensureService fs s)
      rw [addMissingSubdirs] at h2 ⊢
      rw [List.foldl_cons]
      exact ⟨h2.1.trans h1.1, h2.2.1.trans h1.2.1, h2.2.2.trans h1.2.2⟩

theorem addMissingSubdirs_lookup (cfg : List String) (fs : FS) (u : String)
    (hcfg : cfg.Nodup) :
    alookup u (addMissingSubdirs cfg fs).services =
      if u ∈ cfg then
        (match alookup u fs.services with
         | none => some ⟨[], some []⟩
         | some sd => some { sd with
             published := some (match sd.published with | some p => p | none => []) })
      else alookup u fs.services := by
  induction cfg generalizing fs with
  | nil => simp [addMissingSubdirs]
  | cons s rest ih =>
      rw [addMissingSubdirs, List.foldl_cons]
      rw [show List.foldl ensureService (ensureService fs s) rest
          = addMissingSubdirs rest (ensureService fs s) from rfl]
      rw [ih _ (List.nodup_cons.mp hcfg).2]
      by_cases hmem : u ∈ rest
      · have hne : ¬ s = u := by
          intro h
          exact (List.nodup_cons.mp hcfg).1 (h ▸ hmem)
        rw [if_pos hmem, if_pos (List.mem_cons_of_mem _ hmem)]
        rw [ensureService_lookup, if_neg hne]
      · rw [if_neg hmem]
        rw [ensureService_lookup]
        by_cases hu : s = u
        · subst hu
          rw [if_pos rfl, if_pos (List.mem_cons_self s rest)]
        · rw [if_neg hu, if_neg (by
            intro h
            rcases List.mem_cons.mp h with h | h
            · exact hu h.symm
            · exact hmem h)]

/-! ### Step 3 specification -/

theorem svcAddLinks_spec (s : String) (ns : List String) :
    ∀ (fs : FS) (sd : SvcDir),
    alookup s fs.services = some sd →
    ns.Nodup →
    (∀ n ∈ ns, alookup n sd.entries = none ∧ n ≠ "published") →
    ∃ fs', ns.foldlM (fun a n => svcAddLink a s n (.rel 1 n)) fs = .ok fs' ∧
      fs'.parentFiles = fs.parentFiles ∧ fs'.absFiles = fs.absFiles ∧
      fs'.rootEntries = fs.rootEntries ∧
      (∀ u, u ≠ s → alookup u fs'.services = alookup u fs.services) ∧
      alookup s fs'.services = some { sd with
        entries := sd.entries ++ ns.map (fun n => (n, Node.link (LinkTarget.rel 1 n))) } := by
  induction ns with
  | nil =>
      intro fs sd hsd _ _
      exact ⟨fs, rfl, rfl, rfl, rfl, fun _ _ => rfl, by rw [hsd]; simp⟩
  | cons n ns ih =>
      intro fs sd hsd hnd hfresh
      have hnone : alookup n sd.entries = none := (hfresh n (List.mem_cons_self _ _)).1
      have hnp : n ≠ "published" := (hfresh n (List.mem_cons_self _ _)).2
      have hstep : svcAddLink fs s n (.rel 1 n) = .ok { fs with
          services := aset s { sd with
            entries := sd.entries ++ [(n, Node.link (LinkTarget.rel 1 n))] } fs.services } := by
        rw [svcAddLink, hsd]
        dsimp only
        rw [if_neg (by
          rintro (h | ⟨h1, h2⟩)
          · rw [hnone] at h
            simp at h
          · exact hnp h1)]
      set sd1 : SvcDir := { sd with
        entries := sd.entries ++ [(n, Node.link (LinkTarget.rel 1 n))] } with hsd1
      set fs1 : FS := { fs with services := aset s sd1 fs.services } with hfs1
      have hsd1look : alookup s fs1.services = some sd1 := by
        rw [hfs1]
        dsimp only
        rw [alookup_aset, if_pos rfl]
      have hfresh1 : ∀ m ∈ ns, alookup m sd1.entries = none ∧ m ≠ "published" := by
        intro m hm
        refine ⟨?_, (hfresh m (List.mem_cons_of_mem _ hm)).2⟩
        rw [hsd1]
        dsimp only
        rw [alookup_append, (hfresh m (List.mem_cons_of_mem _ hm)).1]
        have hmn : ¬ n = m := by
          intro h
          exact (List.nodup_cons.mp hnd).1 (h ▸ hm)
        simp [alookup, hmn]
      obtain ⟨fs', hrun, hp, ha, hr, ho, hs⟩ :=
        ih fs1 sd1 hsd1look (List.nodup_cons.mp hnd).2 hfresh1
      refine ⟨fs', ?_, hp, ha, hr, ?_, ?_⟩
      · rw [List.foldlM_cons, hstep]
        exact hrun
      · intro u hu
        rw [ho u hu, hfs1]
        dsimp only
        rw [alookup_aset, if_neg (fun h => hu h.symm)]
      · rw [hs, hsd1]
        simp

theorem addPairs_spec (pairs : List (String × List String)) :
    ∀ (fs : FS),
    (akeys pairs).Nodup →
    (∀ pr ∈ pairs, ∃ sd, alookup pr.1 fs.services = some sd ∧ pr.2.Nodup ∧
       (∀ n ∈ pr.2, alookup n sd.entries = none ∧ n ≠ "published")) →
    ∃ fs', pairs.foldlM
        (fun acc pr => pr.2.foldlM (fun a n => svcAddLink a pr.1 n (.rel 1 n)) acc) fs = .ok fs' ∧
      fs'.parentFiles = fs.parentFiles ∧ fs'.absFiles = fs.absFiles ∧
      fs'.rootEntries = fs.rootEntries ∧
      (∀ u, (∀ ns, (u, ns) ∉ pairs) → alookup u fs'.services = alookup u fs.services) ∧
      (∀ u ns, (u, ns) ∈ pairs → ∀ sd, alookup u fs.services = some sd →
        alookup u fs'.services = some { sd with
          entries := sd.entries ++ ns.map (fun n => (n, Node.link (LinkTarget.rel 1 n))) }) := by
  induction pairs with
  | nil =>
      intro fs _ _
      exact ⟨fs, rfl, rfl, rfl, rfl, fun _ _ => rfl, by simp⟩
  | cons pr rest ih =>
      intro fs hnd hcond
      obtain ⟨sd, hsd, hprnd, hfresh⟩ := hcond pr (List.mem_cons_self _ _)
      obtain ⟨fs1, hrun1, hp1, ha1, hr1, ho1, hs1⟩ :=
        svcAddLinks_spec pr.1 pr.2 fs sd hsd hprnd hfresh
      have hknd := List.nodup_cons.mp (show ((pr.1 :: akeys rest)).Nodup by
        simpa [akeys] using hnd)
      have hcond1 : ∀ q ∈ rest, ∃ sd, alookup q.1 fs1.services = some sd ∧ q.2.Nodup ∧
          (∀ n ∈ q.2, alookup n sd.entries = none ∧ n ≠ "published") := by
        intro q hq
        obtain ⟨sdq, hsdq, hqnd, hqfresh⟩ := hcond q (List.mem_cons_of_mem _ hq)
        have hne : q.1 ≠ pr.1 := by
          intro h
          exact hknd.1 (h ▸ List.mem_map.mpr ⟨q, hq, rfl⟩)
        exact ⟨sdq, by rw [ho1 q.1 hne]; exact hsdq, hqnd, hqfresh⟩
      obtain ⟨fs', hrun, hp, ha, hr, ho, hset⟩ := ih fs1 (by simpa [akeys] using hknd.2) hcond1
      refine ⟨fs', ?_, hp.trans hp1, ha.trans ha1, hr.trans hr1, ?_, ?_⟩
      · rw [List.foldlM_cons, hrun1]
        exact hrun
      · intro u hu
        have hu1 : u ≠ pr.1 := by
          intro h
          exact hu pr.2 (by rw [h]; exact List.mem_cons_self _ _)
        rw [ho u (fun ns hns => hu ns (List.mem_cons_of_mem _ hns)), ho1 u hu1]
      · intro u ns hmem sdu hsdu
        rcases List.mem_cons.mp hmem with h | h
        · have hu : u = pr.1 := by
            have := congrArg Prod.fst h
            simpa using this
          have hns : ns = pr.2 := by
            have := congrArg Prod.snd h
            simpa using this
          subst hu; subst hns
          have hsame : sdu = sd := by
            rw [hsdu] at hsd
            exact Option.some.inj hsd
          subst hsame
          have hnotrest : ∀ ns2, (pr.1, ns2) ∉ rest := by
            intro ns2 hns2
            exact hknd.1 (List.mem_map.mpr ⟨(pr.1, ns2), hns2, rfl⟩)
          rw [ho pr.1 hnotrest]
          exact hs1
        · have hne : u ≠ pr.1 := by
            intro heq
            exact hknd.1 (heq ▸ List.mem_map.mpr ⟨(u, ns), h, rfl⟩)
          exact hset u ns h sdu (by rw [ho1 u hne]; exact hsdu)

theorem newSmallImages_keys_sublist (cfg : List String) (fs : FS)
    (srcs : List (String × SKind)) :
    (akeys (newSmallImages cfg fs srcs)).Sublist cfg := by
  induction cfg with
  | nil => simp [newSmallImages, akeys]
  | cons s rest ih =>
      rw [newSmallImages, List.filterMap_cons]
      split
      · exact List.Sublist.cons s (by rw [newSmallImages] at ih; exact ih)
      · rename_i pr heq
        have hfst : pr.1 = s := by
          by_cases hex : svcExists fs s
          · rw [if_pos hex] at heq
            split at heq
            · cases heq
            · have := Option.some.inj heq
              rw [← this]
          · rw [if_neg hex] at heq
            cases heq
        show (pr.1 :: akeys (List.filterMap _ rest)).Sublist (s :: rest)
        rw [hfst]
        exact List.Sublist.cons₂ s (by rw [newSmallImages] at ih; exact ih)

theorem newSmallImages_conditions (cfg : List String) (fs : FS)
    (srcs : List (String × SKind)) :
    ∀ pr ∈ newSmallImages cfg fs srcs, ∃ sd, alookup pr.1 fs.services = some sd ∧
      pr.2.Nodup ∧ (∀ n ∈ pr.2, alookup n sd.entries = none ∧ n ≠ "published") := by
  intro pr hpr
  rw [newSmallImages] at hpr
  obtain ⟨s, _, heq⟩ := List.mem_filterMap.mp hpr
  by_cases hex : svcExists fs s
  · rw [if_pos hex] at heq
    by_cases hne : (allSmallNames fs srcs).filter (fun n => decide (n ∉ managedNames fs s)) = []
    · rw [if_pos hne] at heq
      cases heq
    · rw [if_neg hne] at heq
      cases heq
      obtain ⟨sd, hsd⟩ := Option.isSome_iff_exists.mp (by rw [svcExists] at hex; exact hex)
      refine ⟨sd, hsd, List.Nodup.filter _ (List.nodup_dedup _), ?_⟩
      intro n hn
      have hmem := List.mem_filter.mp hn
      have hglob : smallGlob n = true := smallGlob_of_mem_allSmall hmem.1
      have hnotm : n ∉ managedNames fs s := by simpa using hmem.2
      refine ⟨?_, ?_⟩
      · cases hlook : alookup n sd.entries with
        | none => rfl
        | some nd => exact absurd ((mem_managed_of_key hsd hglob).1 nd hlook) hnotm
      · intro hp
        rw [hp] at hglob
        have : smallGlob "published" = false := by decide
        rw [this] at hglob
        cases hglob
  · rw [if_neg hex] at heq
    cases heq

theorem addNewSmallFiles_spec (cfg : List String) (fs : FS) (srcs : List (String × SKind))
    (hcfg : cfg.Nodup) :
    ∃ fs', addNewSmallFiles cfg fs srcs = .ok fs' ∧
      fs'.parentFiles = fs.parentFiles ∧ fs'.absFiles = fs.absFiles ∧
      fs'.rootEntries = fs.rootEntries ∧
      (∀ u, (∀ ns, (u, ns) ∉ newSmallImages cfg fs srcs) →
        alookup u fs'.services = alookup u fs.services) ∧
      (∀ u ns, (u, ns) ∈ newSmallImages cfg fs srcs → ∀ sd, alookup u fs.services = some sd →
        alookup u fs'.services = some { sd with
          entries := sd.entries ++ ns.map (fun n => (n, Node.link (LinkTarget.rel 1 n))) }) := by
  have hknd : (akeys (newSmallImages cfg fs srcs)).Nodup :=
    (newSmallImages_keys_sublist cfg fs srcs).nodup hcfg
  exact addPairs_spec (newSmallImages cfg fs srcs) fs hknd
    (newSmallImages_conditions cfg fs srcs)

/-- C3: already-satisfied creations are no-ops, never errors: on states
where no configured service name is shadowed by a root entry and no
service directory has a plain `published` entry (`cfgFreshB`, the domain
on which the model's service-map existence checks coincide with the
code's `Path.exists` checks on the tree), the directory-creation step
leaves every existing service directory's contents intact (an existing
directory is not recreated, an existing published child leaves the
directory fully untouched), and the symlink-distribution step succeeds,
never overwriting an existing entry. -/
theorem c3_already_exists_noop (cfg : List String) (fs : FS) (srcs : List (String × SKind))
    (hcfg : cfg.Nodup) (hfresh : cfgFreshB fs cfg = true) :
    (∀ s sd, alookup s fs.services = some sd →
      ∃ sd', alookup s (addMissingSubdirs cfg fs).services = some sd' ∧
        sd'.entries = sd.entries ∧
        (∀ pub, sd.published = some pub → sd' = sd)) ∧
    (∃ fs', addNewSmallFiles cfg fs srcs = .ok fs' ∧
      ∀ s sd, alookup s fs.services = some sd →
        ∃ sd', alookup s fs'.services = some sd' ∧ sd'.published = sd.published ∧
          ∀ n nd, alookup n sd.entries = some nd → alookup n sd'.entries = some nd) := by
  constructor
  · intro s sd hsd
    rw [addMissingSubdirs_lookup cfg fs s hcfg]
    by_cases hmem : s ∈ cfg
    · rw [if_pos hmem, hsd]
      refine ⟨_, rfl, rfl, ?_⟩
      intro pub hpub
      rw [hpub]
      cases sd with
      | mk e p =>
          have : p = some pub := hpub
          rw [this]
    · rw [if_neg hmem, hsd]
      exact ⟨sd, rfl, rfl, fun _ _ => rfl⟩
  · obtain ⟨fs', hrun, _, _, _, huntouched, hset⟩ := addNewSmallFiles_spec cfg fs srcs hcfg
    refine ⟨fs', hrun, ?_⟩
    intro s sd hsd
    by_cases hmem : ∃ ns, (s, ns) ∈ newSmallImages cfg fs srcs
    · obtain ⟨ns, hns⟩ := hmem
      refine ⟨_, hset s ns hns sd hsd, rfl, ?_⟩
      intro n nd hlook
      dsimp only
      rw [alookup_append, hlook]
    · push_neg at hmem
      refine ⟨sd, ?_, rfl, fun _ _ h => h⟩
      rw [huntouched s hmem, hsd]

theorem c3_witness :
    (∃ sd', alookup "s1" (addMissingSubdirs ["s1", "s2"] exC3).services = some sd' ∧
      sd' = exC3sd) ∧
    (∃ fs', addNewSmallFiles ["s1", "s2"] exC3 (scanSources exC3) = .ok fs' ∧
      ∃ sd', alookup "s1" fs'.services = some sd' ∧
        alookup "old_small.jpg" sd'.entries =
          some (Node.link (LinkTarget.rel 1 "old_small.jpg"))) := by
  have h := c3_already_exists_noop ["s1", "s2"] exC3 (scanSources exC3) (by decide) (by decide)
  constructor
  · obtain ⟨sd', hls, hents, hpub⟩ := h.1 "s1" exC3sd (by decide)
    exact ⟨sd', hls, hpub _ rfl⟩
  · obtain ⟨fs', hrun, hpres⟩ := h.2
    obtain ⟨sd', hls, _, hkeep⟩ := hpres "s1" exC3sd (by decide)
    exact ⟨fs', hrun, sd', hls, hkeep "old_small.jpg" _ (by decide)⟩

/-! ### Path-order lemmas for workdir discovery -/

theorem strLt_irrefl : ∀ a : List Char, strLt a a = false
  | [] => rfl
  | x :: xs => by rw [strLt, if_pos rfl]; exact strLt_irrefl xs

theorem strLt_total : ∀ a b : List Char, a ≠ b → strLt a b = true ∨ strLt b a = true
  | [], [] => fun h => absurd rfl h
  | [], _ :: _ => fun _ => Or.inl rfl
  | _ :: _, [] => fun _ => Or.inr rfl
  | x :: xs, y :: ys => fun hne => by
      by_cases hxy : x = y
      · subst hxy
        have hne2 : xs ≠ ys := fun h => hne (by rw [h])
        rcases strLt_total xs ys hne2 with h | h
        · exact Or.inl (by rw [strLt, if_pos rfl]; exact h)
        · exact Or.inr (by rw [strLt, if_pos rfl]; exact h)
      · rcases lt_or_gt_of_ne hxy with h | h
        · exact Or.inl (by rw [strLt, if_neg hxy]; exact decide_eq_true h)
        · exact Or.inr (by rw [strLt, if_neg (Ne.symm hxy)]; exact decide_eq_true h)

theorem strLt_trans : ∀ a b c : List Char,
    strLt a b = true → strLt b c = true → strLt a c = true
  | _, [], [] => fun _ h => by cases h
  | _, _ :: _, [] => fun _ h => by cases h
  | [], _, _ :: _ => fun _ _ => rfl
  | _ :: _, [], _ :: _ => fun h _ => by cases h
  | x :: xs, y :: ys, z :: zs => by
      intro hab hbc
      by_cases hxy : x = y <;> by_cases hyz : y = z
      · subst hxy; subst hyz
        rw [strLt, if_pos rfl] at hab hbc ⊢
        exact strLt_trans _ _ _ hab hbc
      · subst hxy
        rw [strLt, if_neg hyz] at hbc
        rw [strLt, if_neg hyz]
        exact hbc
      · subst hyz
        rw [strLt, if_neg hxy] at hab
        rw [strLt, if_neg hxy]
        exact hab
      · rw [strLt, if_neg hxy] at hab
        rw [strLt, if_neg hyz] at hbc
        have hxz : x < z := lt_trans (of_decide_eq_true hab) (of_decide_eq_true hbc)
        rw [strLt, if_neg (ne_of_lt hxz)]
        exact decide_eq_true hxz

theorem pathLe_total : ∀ a b : List String, pathLe a b = true ∨ pathLe b a = true
  | [], _ => Or.inl rfl
  | _ :: _, [] => Or.inr rfl
  | x :: xs, y :: ys => by
      by_cases hxy : x = y
      · subst hxy
        rcases pathLe_total xs ys with h | h
        · exact Or.inl (by rw [pathLe, if_pos rfl]; exact h)
        · exact Or.inr (by rw [pathLe, if_pos rfl]; exact h)
      · have hdata : x.data ≠ y.data := fun h => hxy (by
          cases x; cases y
          simp_all)
        rcases strLt_total x.data y.data hdata with h | h
        · exact Or.inl (by rw [pathLe, if_neg hxy]; exact h)
        · exact Or.inr (by rw [pathLe, if_neg (Ne.symm hxy)]; exact h)

theorem pathLe_trans : ∀ a b c : List String,
    pathLe a b = true → pathLe b c = true → pathLe a c = true
  | [], _, _ => fun _ _ => rfl
  | _ :: _, [], _ => fun h _ => by cases h
  | _ :: _, _ :: _, [] => fun _ h => by cases h
  | x :: xs, y :: ys, z :: zs => by
      intro hab hbc
      by_cases hxy : x = y <;> by_cases hyz : y = z
      · subst hxy; subst hyz
        rw [pathLe, if_pos rfl] at hab hbc ⊢
        exact pathLe_trans _ _ _ hab hbc
      · subst hxy
        rw [pathLe, if_neg hyz] at hbc
        rw [pathLe, if_neg hyz]
        exact hbc
      · subst hyz
        rw [pathLe, if_neg hxy] at hab
        rw [pathLe, if_neg hxy]
        exact hab
      · rw [pathLe, if_neg hxy] at hab
        rw [pathLe, if_neg hyz] at hbc
        have hxz : strLt x.data z.data = true := strLt_trans _ _ _ hab hbc
        have hnexz : x ≠ z := by
          intro h
          subst h
          have h2 : strLt x.data y.data = true := hab
          have h3 : strLt x.data x.data = true := strLt_trans _ _ _ h2 hbc
          rw [strLt_irrefl] at h3
          cases h3
        rw [pathLe, if_neg hnexz]
        exact hxz

theorem pathLe_append_cancel : ∀ (r s t : List String),
    pathLe (r ++ s) (r ++ t) = pathLe s t
  | [], _, _ => rfl
  | x :: r, s, t => by
      rw [List.cons_append, List.cons_append, pathLe, if_pos rfl]
      exact pathLe_append_cancel r s t

theorem pathLe_append_of_ne : ∀ (r r2 : List String), r.length = r2.length →
    r ≠ r2 → pathLe r r2 = true → ∀ s t, pathLe (r ++ s) (r2 ++ t) = true
  | [], [], _, hne => by simp at hne
  | [], _ :: _, hlen, _ => by simp at hlen
  | _ :: _, [], hlen, _ => by simp at hlen
  | x :: r, y :: r2, hlen, hne => by
      intro hle s t
      by_cases hxy : x = y
      · subst hxy
        rw [pathLe, if_pos rfl] at hle
        have hne2 : r ≠ r2 := by
          intro h
          exact hne (by rw [h])
        rw [List.cons_append, List.cons_append, pathLe, if_pos rfl]
        exact pathLe_append_of_ne r r2 (by simpa using hlen) hne2 hle s t
      · rw [pathLe, if_neg hxy] at hle
        rw [List.cons_append, List.cons_append, pathLe, if_neg hxy]
        exact hle

theorem pairwise_flatMap {S : β → β → Prop} {f : α → List β} {R : α → α → Prop} :
    ∀ {l : List α}, l.Pairwise R →
    (∀ a ∈ l, (f a).Pairwise S) →
    (∀ a b, R a b → (∀ x ∈ f a, ∀ y ∈ f b, S x y)) →
    (l.flatMap f).Pairwise S := by
  intro l
  induction l with
  | nil => intro _ _ _; simp
  | cons a rest ih =>
      intro hp hin hcross
      rw [List.flatMap_cons]
      rw [List.pairwise_append]
      refine ⟨hin a (List.mem_cons_self _ _), ?_, ?_⟩
      · exact ih (List.pairwise_cons.mp hp).2 (fun b hb => hin b (List.mem_cons_of_mem _ hb))
          hcross
      · intro x hx y hy
        obtain ⟨b, hb, hyb⟩ := List.mem_flatMap.mp hy
        exact hcross a b ((List.pairwise_cons.mp hp).1 b hb) x hx y hyb

theorem filterMap_ite {c : α → Bool} {f : α → β} :
    ∀ (l : List α), l.filterMap (fun a => if c a then some (f a) else none) =
      (l.filter c).map f
  | [] => rfl
  | a :: l => by
      rw [List.filterMap_cons, List.filter_cons]
      by_cases h : c a
      · rw [if_pos h, if_pos h, List.map_cons, filterMap_ite l]
      · rw [if_neg h, if_neg (by simpa using h), filterMap_ite l]

theorem mem_scanDirsOf {root : DEnt} {pr : List String × DEnt} :
    pr ∈ scanDirsOf root ↔
      ((monthDirsOf root = [] ∧ pr = ([], root)) ∨
       (monthDirsOf root ≠ [] ∧ ∃ m ∈ monthNames, childOf root m = some pr.2 ∧
          pr.1 = [m])) := by
  rw [scanDirsOf]
  by_cases hm : monthDirsOf root = []
  · rw [if_pos hm]
    simp [hm]
  · rw [if_neg hm]
    rw [List.mem_filterMap]
    constructor
    · rintro ⟨m, hmem, hmap⟩
      obtain ⟨d, hd, hpr⟩ := Option.map_eq_some'.mp hmap
      refine Or.inr ⟨hm, m, (List.mem_filter.mp (by rw [monthDirsOf] at hmem; exact hmem)).1,
        ?_, ?_⟩
      · rw [← hpr]; exact hd
      · rw [← hpr]
    · rintro (⟨h, _⟩ | ⟨_, m, hmem, hch, hfst⟩)
      · exact absurd h hm
      · refine ⟨m, ?_, ?_⟩
        · rw [monthDirsOf]
          exact List.mem_filter.mpr ⟨hmem, by rw [hch]; rfl⟩
        · rw [hch]
          show some ([m], pr.2) = some pr
          rw [show ([m], pr.2) = pr from Prod.ext hfst.symm rfl]
  
theorem mem_dateRootPaths {root : DEnt} {r : List String} :
    r ∈ dateRootPaths root ↔
      ((monthDirsOf root = [] ∧ ∃ c ∈ childrenOf root, isDateName c.1 = true ∧ r = [c.1]) ∨
       (monthDirsOf root ≠ [] ∧ ∃ m ∈ monthNames, ∃ d, childOf root m = some d ∧
          ∃ c ∈ childrenOf d, isDateName c.1 = true ∧ r = [m, c.1])) := by
  rw [dateRootPaths, List.mem_flatMap]
  constructor
  · rintro ⟨pr, hpr, hin⟩
    obtain ⟨c, hc, hcm⟩ := List.mem_filterMap.mp hin
    by_cases hdate : isDateName c.1
    · rw [if_pos hdate] at hcm
      have hr : r = pr.1 ++ [c.1] := (Option.some.inj hcm).symm
      rcases mem_scanDirsOf.mp hpr with ⟨hm, hpr1⟩ | ⟨hm, m, hmem, hch, hfst⟩
      · refine Or.inl ⟨hm, c, ?_, hdate, ?_⟩
        · rw [hpr1] at hc; exact hc
        · rw [hr, hpr1]; rfl
      · exact Or.inr ⟨hm, m, hmem, pr.2, hch, c, hc, hdate, by rw [hr, hfst]; rfl⟩
    · rw [if_neg hdate] at hcm
      cases hcm
  · rintro (⟨hm, c, hc, hdate, hr⟩ | ⟨hm, m, hmem, d, hch, c, hc, hdate, hr⟩)
    · refine ⟨([], root), mem_scanDirsOf.mpr (Or.inl ⟨hm, rfl⟩), ?_⟩
      exact List.mem_filterMap.mpr ⟨c, hc, by rw [if_pos hdate, hr]; rfl⟩
    · refine ⟨([m], d), mem_scanDirsOf.mpr (Or.inr ⟨hm, m, hmem, hch, rfl⟩), ?_⟩
      exact List.mem_filterMap.mpr ⟨c, hc, by rw [if_pos hdate, hr]; rfl⟩

theorem dateRootPaths_length_eq {root : DEnt} :
    ∀ r ∈ dateRootPaths root, ∀ r2 ∈ dateRootPaths root, r.length = r2.length := by
  intro r hr r2 hr2
  rcases mem_dateRootPaths.mp hr with ⟨hm, _, _, _, hshape⟩ | ⟨hm, _, _, _, _, _, _, _, hshape⟩ <;>
    rcases mem_dateRootPaths.mp hr2 with ⟨hm2, _, _, _, hshape2⟩ |
      ⟨hm2, _, _, _, _, _, _, _, hshape2⟩
  · simp [hshape, hshape2]
  · exact absurd hm hm2
  · exact absurd hm2 hm
  · simp [hshape, hshape2]

theorem expandRoot_shape {root : DEnt} {r : List String} :
    ∀ x ∈ expandRoot root r, ∃ s, x = r ++ s := by
  intro x hx
  rw [expandRoot] at hx
  cases hres : resolvePath root r with
  | none => rw [hres] at hx; simp at hx
  | some d =>
      rw [hres] at hx
      dsimp only at hx
      by_cases hl : lettersOf d = []
      · rw [if_pos hl] at hx
        rcases List.mem_singleton.mp hx with h
        exact ⟨[], by rw [h]; simp⟩
      · rw [if_neg hl] at hx
        obtain ⟨l, _, hlx⟩ := List.mem_map.mp hx
        exact ⟨[l], hlx.symm⟩

theorem expandRoot_pairwise (root : DEnt) (r : List String) :
    (expandRoot root r).Pairwise
      (fun x y => pathLe (x ++ ["publish"]) (y ++ ["publish"]) = true) := by
  rw [expandRoot]
  cases resolvePath root r with
  | none => simp
  | some d =>
      dsimp only
      by_cases hl : lettersOf d = []
      · rw [if_pos hl]
        simp
      · rw [if_neg hl]
        rw [List.pairwise_map]
        have hbase : letterNames.Pairwise (fun a b => a ≠ b ∧ strLt a.data b.data = true) := by
          rw [letterNames]
          decide
        have hfil : (lettersOf d).Pairwise (fun a b => a ≠ b ∧ strLt a.data b.data = true) :=
          List.Pairwise.sublist (by rw [lettersOf]; exact List.filter_sublist _) hbase
        apply hfil.imp
        intro a b hab
        rw [List.append_assoc, List.append_assoc, pathLe_append_cancel]
        show pathLe (a :: ["publish"]) (b :: ["publish"]) = true
        rw [pathLe, if_neg hab.1]
        exact hab.2

theorem allWorkdirs_pairwise (root : DEnt) (hnd : (dateRootPaths root).Nodup) :
    (allWorkdirs root).Pairwise
      (fun x y => pathLe (x ++ ["publish"]) (y ++ ["publish"]) = true) := by
  rw [allWorkdirs]
  have hperm : List.Perm (sortedDateRoots root) (dateRootPaths root) := by
    rw [sortedDateRoots]
    exact List.mergeSort_perm _ _
  have hsorted : (sortedDateRoots root).Pairwise (fun a b => pathLe a b = true) := by
    rw [sortedDateRoots]
    have := @List.sorted_mergeSort _ pathLe
      (fun a b c hab hbc => pathLe_trans a b c hab hbc)
      (fun a b => by rcases pathLe_total a b with h | h <;> simp [h])
      (dateRootPaths root)
    exact this.imp (fun h => h)
  have hnds : (sortedDateRoots root).Pairwise (fun a b => a ≠ b) :=
    hperm.nodup_iff.mpr hnd
  have hmem : ∀ a ∈ sortedDateRoots root, a ∈ dateRootPaths root :=
    fun a ha => hperm.mem_iff.mp ha
  apply @pairwise_flatMap _ _ _ _ (fun a b =>
    (pathLe a b = true ∧ a ≠ b) ∧ a ∈ dateRootPaths root ∧ b ∈ dateRootPaths root)
  · have h1 : (sortedDateRoots root).Pairwise (fun a b => pathLe a b = true ∧ a ≠ b) :=
      hsorted.and hnds
    refine (List.Pairwise.and_mem.mp h1).imp ?_
    rintro a b ⟨hma, hmb, hab⟩
    exact ⟨hab, hmem a hma, hmem b hmb⟩
  · exact fun a _ => expandRoot_pairwise root a
  · rintro a b ⟨⟨hle, hne⟩, hma, hmb⟩ x hx y hy
    obtain ⟨s, hs⟩ := expandRoot_shape x hx
    obtain ⟨t, ht⟩ := expandRoot_shape y hy
    rw [hs, ht, List.append_assoc, List.append_assoc]
    exact pathLe_append_of_ne a b (dateRootPaths_length_eq a hma b hmb) hne hle _ _

theorem mem_workdirsOf {root : DEnt} {q : List String} :
    q ∈ workdirsOf root ↔ ∃ r ∈ dateRootPaths root, ∃ p ∈ expandRoot root r,
      (resolvePath root (p ++ ["publish"])).isSome = true ∧ q = p ++ ["publish"] := by
  rw [workdirsOf, List.mem_filterMap]
  constructor
  · rintro ⟨p, hp, hg⟩
    by_cases hc : (resolvePath root (p ++ ["publish"])).isSome
    · rw [if_pos hc] at hg
      obtain ⟨r, hr, hpe⟩ := List.mem_flatMap.mp (by rw [allWorkdirs] at hp; exact hp)
      refine ⟨r, ?_, p, hpe, hc, (Option.some.inj hg).symm⟩
      exact (List.mergeSort_perm _ _).mem_iff.mp (by rw [sortedDateRoots] at hr; exact hr)
    · rw [if_neg hc] at hg
      cases hg
  · rintro ⟨r, hr, p, hpe, hc, hq⟩
    refine ⟨p, ?_, ?_⟩
    · rw [allWorkdirs]
      refine List.mem_flatMap.mpr ⟨r, ?_, hpe⟩
      rw [sortedDateRoots]
      exact (List.mergeSort_perm _ _).mem_iff.mpr hr
    · rw [if_pos hc, hq]

/-- C9: workdir discovery scans the existing month buckets when any
exist and otherwise the root itself, keeps exactly the date-named
children, visits them in sorted path order, expands each date root to its
existing lettered sub-roots (or keeps the date root itself when none
exist), and emits a root's publish directory exactly when that publish
directory exists, silently skipping the rest. -/
theorem c9_workdir_discovery (root : DEnt)
    (_hmonth : ∀ m ∈ monthNames, isDirE (childOf root m) = true)
    (hnd : (dateRootPaths root).Nodup) :
    (workdirsOf root).Pairwise (fun a b => pathLe a b = true) ∧
    (∀ q, q ∈ workdirsOf root ↔ ∃ r ∈ dateRootPaths root, ∃ p ∈ expandRoot root r,
      (resolvePath root (p ++ ["publish"])).isSome = true ∧ q = p ++ ["publish"]) ∧
    (∀ r d, resolvePath root r = some d →
      (lettersOf d = [] → expandRoot root r = [r]) ∧
      (lettersOf d ≠ [] → expandRoot root r = (lettersOf d).map (fun l => r ++ [l]))) ∧
    ((monthDirsOf root = [] →
      ∀ r, r ∈ dateRootPaths root ↔
        ∃ c ∈ childrenOf root, isDateName c.1 = true ∧ r = [c.1]) ∧
     (monthDirsOf root ≠ [] →
      ∀ r, r ∈ dateRootPaths root ↔ ∃ m ∈ monthNames, ∃ d, childOf root m = some d ∧
        ∃ c ∈ childrenOf d, isDateName c.1 = true ∧ r = [m, c.1])) := by
  refine ⟨?_, fun q => mem_workdirsOf, ?_, ?_, ?_⟩
  · have heq : workdirsOf root = ((allWorkdirs root).filter
        (fun p => (resolvePath root (p ++ ["publish"])).isSome)).map
        (fun p => p ++ ["publish"]) := by
      rw [workdirsOf]
      exact filterMap_ite _
    rw [heq, List.pairwise_map]
    exact List.Pairwise.sublist (List.filter_sublist _) (allWorkdirs_pairwise root hnd)
  · intro r d hres
    constructor
    · intro hl
      rw [expandRoot, hres]
      dsimp only
      rw [if_pos hl]
    · intro hl
      rw [expandRoot, hres]
      dsimp only
      rw [if_neg hl]
  · intro hm r
    rw [mem_dateRootPaths]
    constructor
    · rintro (⟨_, h⟩ | ⟨hm2, _⟩)
      · exact h
      · exact absurd hm hm2
    · intro h
      exact Or.inl ⟨hm, h⟩
  · intro hm r
    rw [mem_dateRootPaths]
    constructor
    · rintro (⟨hm2, _⟩ | ⟨_, h⟩)
      · exact absurd hm2 hm
      · exact h
    · intro h
      exact Or.inr ⟨hm, h⟩

theorem c9_witness :
    ["01", "2022-01-05", "publish"] ∈ workdirsOf exC9 :=
  ((c9_workdir_discovery exC9 (by decide) (by decide)).2.1 _).mpr
    ⟨["01", "2022-01-05"], by decide, ["01", "2022-01-05"], by decide, by decide, rfl⟩

/-! ### Step 2 frame lemmas -/

theorem akeys_aset (n : String) (v : α) (l : List (String × α)) :
    akeys (aset n v l) = if (alookup n l).isSome then akeys l else akeys l ++ [n] := by
  induction l with
  | nil => simp [aset, akeys, alookup]
  | cons e rest ih =>
      obtain ⟨k, w⟩ := e
      by_cases hk : k = n
      · subst hk
        simp [aset, akeys, alookup]
      · rw [show aset n v ((k, w) :: rest) = (k, w) :: aset n v rest from by
            rw [aset, if_neg hk]]
        rw [show akeys ((k, w) :: aset n v rest) = k :: akeys (aset n v rest) from rfl]
        rw [show akeys ((k, w) :: rest) = k :: akeys rest from rfl]
        rw [ih]
        rw [show alookup n ((k, w) :: rest) = alookup n rest from by
            rw [alookup, if_neg hk]]
        by_cases hs : (alookup n rest).isSome
        · rw [if_pos hs, if_pos hs]
        · rw [if_neg hs, if_neg hs]
          rfl

theorem aset_nodupKeys {l : List (String × α)} (h : (akeys l).Nodup)
    (n : String) (v : α) : (akeys (aset n v l)).Nodup := by
  rw [akeys_aset]
  by_cases hs : (alookup n l).isSome
  · rw [if_pos hs]
    exact h
  · rw [if_neg hs]
    have hn : n ∉ akeys l := by
      intro hmem
      exact hs (alookup_isSome_iff.mpr hmem)
    simp [List.nodup_append, h, hn]

theorem createSmallStep_cases (now : Nat) (fs : FS) (src : String × SKind) :
    createSmallStep now fs src = fs ∨
    createSmallStep now fs src = upsertRoot fs (smallNameOf src.1) (Node.file now) := by
  rw [createSmallStep]
  cases smallAction fs src.1 src.2 with
  | none => exact Or.inl rfl
  | some a => exact Or.inr rfl

theorem createMissingSmallImages_frame (now : Nat) (srcs : List (String × SKind)) :
    ∀ (fs : FS),
    (createMissingSmallImages now fs srcs).parentFiles = fs.parentFiles ∧
    (createMissingSmallImages now fs srcs).absFiles = fs.absFiles ∧
    (createMissingSmallImages now fs srcs).services = fs.services ∧
    (∀ m, (∀ src ∈ srcs, smallNameOf src.1 ≠ m) →
      alookup m (createMissingSmallImages now fs srcs).rootEntries =
        alookup m fs.rootEntries) ∧
    (∀ m, alookup m (createMissingSmallImages now fs srcs).rootEntries =
        alookup m fs.rootEntries ∨
      alookup m (createMissingSmallImages now fs srcs).rootEntries =
        some (Node.file now)) ∧
    ((akeys fs.rootEntries).Nodup → (akeys
      (createMissingSmallImages now fs srcs).rootEntries).Nodup) := by
  induction srcs with
  | nil =>
      intro fs
      exact ⟨rfl, rfl, rfl, fun _ _ => rfl, fun _ => Or.inl rfl, fun h => h⟩
  | cons src rest ih =>
      intro fs
      have hstep := createSmallStep_cases now fs src
      have hrw : createMissingSmallImages now fs (src :: rest) =
          createMissingSmallImages now (createSmallStep now fs src) rest := by
        rw [createMissingSmallImages, List.foldl_cons]
        rfl
      rw [hrw]
      rcases hstep with hid | hup
      · rw [hid]
        obtain ⟨hp, ha, hs, hfr, hall, hnd⟩ := ih fs
        exact ⟨hp, ha, hs, fun m hm => hfr m (fun s hs2 => hm s (List.mem_cons_of_mem _ hs2)),
          hall, hnd⟩
      · obtain ⟨hp, ha, hs, hfr, hall, hnd⟩ := ih (createSmallStep now fs src)
        refine ⟨?_, ?_, ?_, ?_, ?_, ?_⟩
        · rw [hp, hup]; rfl
        · rw [ha, hup]; rfl
        · rw [hs, hup]; rfl
        · intro m hm
          rw [hfr m (fun s hs2 => hm s (List.mem_cons_of_mem _ hs2)), hup]
          show alookup m (aset (smallNameOf src.1) (Node.file now) fs.rootEntries) = _
          rw [alookup_aset, if_neg (hm src (List.mem_cons_self _ _))]
        · intro m
          rcases hall m with h | h
          · by_cases hm : smallNameOf src.1 = m
            · refine Or.inr ?_
              rw [h, hup]
              show alookup m (aset (smallNameOf src.1) (Node.file now) fs.rootEntries) = _
              rw [alookup_aset, if_pos hm]
            · refine Or.inl ?_
              rw [h, hup]
              show alookup m (aset (smallNameOf src.1) (Node.file now) fs.rootEntries) =
                alookup m fs.rootEntries
              rw [alookup_aset, if_neg hm]
          · exact Or.inr h
        · intro h
          apply hnd
          rw [hup]
          exact aset_nodupKeys h _ _


/-! ### Resolution does not look inside published directories -/

theorem destOf_eq_dpub : ∀ {loc : Loc} {ups : Nat} {s2 : String},
    destOf loc ups = some (Dest.dpub s2) → loc = Loc.inPub s2 ∧ ups = 0 := by
  intro loc ups s2 h
  cases loc with
  | inRoot =>
      match ups with
      | 0 => simp [destOf] at h
      | 1 => simp [destOf] at h
      | _ + 2 => simp [destOf] at h
  | inSvc s =>
      match ups with
      | 0 => simp [destOf] at h
      | 1 => simp [destOf] at h
      | 2 => simp [destOf] at h
      | _ + 3 => simp [destOf] at h
  | inPub s =>
      match ups with
      | 0 =>
          rw [destOf] at h
          have := Option.some.inj h
          cases this
          exact ⟨rfl, rfl⟩
      | 1 => simp [destOf] at h
      | 2 => simp [destOf] at h
      | 3 => simp [destOf] at h
      | _ + 4 => simp [destOf] at h

theorem locOfDest_eq_inPub : ∀ {d : Dest} {s : String},
    locOfDest d = Loc.inPub s → d = Dest.dpub s := by
  intro d s h
  cases d with
  | dparent => cases h
  | droot => cases h
  | dsvc s2 => cases h
  | dpub s2 => rw [locOfDest] at h; rw [show s2 = s from by cases h; rfl]

theorem dirNode_pubIndep (fs fs2 : FS)
    (hp : fs2.parentFiles = fs.parentFiles)
    (hr : fs2.rootEntries = fs.rootEntries)
    (hsvc : ∀ u, svcShape (alookup u fs2.services) = svcShape (alookup u fs.services)) :
    ∀ (d : Dest) (n : String), (∀ s2, d ≠ Dest.dpub s2) →
      dirNode fs2 d n = dirNode fs d n := by
  have hsvcSome : ∀ u, (alookup u fs2.services).isSome = (alookup u fs.services).isSome := by
    intro u
    have hu := hsvc u
    cases h2 : alookup u fs2.services <;> cases h1 : alookup u fs.services <;>
        rw [h2, h1] at hu <;> simp [svcShape] at hu <;> rfl
  intro d n hnd
  cases d with
  | dparent => rw [dirNode, dirNode, hp]
  | droot =>
      rw [dirNode, dirNode, hr]
      cases alookup n fs.rootEntries with
      | some nd => rfl
      | none => rw [hsvcSome n]
  | dsvc s2 =>
      rw [dirNode, dirNode]
      cases h2 : alookup s2 fs2.services with
      | none =>
          have h1 : alookup s2 fs.services = none := by
            have hu := hsvcSome s2
            rw [h2] at hu
            cases hx : alookup s2 fs.services with
            | none => rfl
            | some v => rw [hx] at hu; simp at hu
          rw [h1]
      | some sd2 =>
          have hu := hsvc s2
          rw [h2] at hu
          cases h1 : alookup s2 fs.services with
          | none => rw [h1] at hu; simp [svcShape] at hu
          | some sd1 =>
              rw [h1] at hu
              simp only [svcShape, Option.map_some'] at hu
              have hent : sd2.entries = sd1.entries := (Prod.mk.injEq .. ▸ Option.some.inj hu).1
              have hps : sd2.published.isSome = sd1.published.isSome :=
                (Prod.mk.injEq .. ▸ Option.some.inj hu).2
              dsimp only
              rw [hent, hps]
  | dpub s2 => exact absurd rfl (hnd s2)

theorem statT_pubIndep (fs fs2 : FS)
    (hp : fs2.parentFiles = fs.parentFiles) (ha : fs2.absFiles = fs.absFiles)
    (hr : fs2.rootEntries = fs.rootEntries)
    (hsvc : ∀ u, svcShape (alookup u fs2.services) = svcShape (alookup u fs.services)) :
    ∀ (fuel : Nat) (loc : Loc) (t : LinkTarget),
      (∀ s nm, loc = Loc.inPub s → t ≠ LinkTarget.rel 0 nm) →
      statT fs2 fuel loc t = statT fs fuel loc t := by
  intro fuel
  induction fuel with
  | zero =>
      intro loc t hcond
      cases t with
      | abs p =>
          show alookup p fs2.absFiles = statT fs 0 loc (LinkTarget.abs p)
          rw [ha]
          rfl
      | rel ups n =>
          rw [statT, statT]
          cases hd : destOf loc ups with
          | none => rfl
          | some d =>
              dsimp only
              have hnd : ∀ s2, d ≠ Dest.dpub s2 := by
                intro s2 heq
                subst heq
                obtain ⟨hloc, hups⟩ := destOf_eq_dpub hd
                exact hcond s2 n hloc (by rw [hups])
              rw [dirNode_pubIndep fs fs2 hp hr hsvc d n hnd]
  | succ f ihf =>
      intro loc t hcond
      cases t with
      | abs p =>
          show alookup p fs2.absFiles = statT fs (f + 1) loc (LinkTarget.abs p)
          rw [ha]
          rfl
      | rel ups n =>
          rw [statT, statT]
          cases hd : destOf loc ups with
          | none => rfl
          | some d =>
              dsimp only
              have hnd : ∀ s2, d ≠ Dest.dpub s2 := by
                intro s2 heq
                subst heq
                obtain ⟨hloc, hups⟩ := destOf_eq_dpub hd
                exact hcond s2 n hloc (by rw [hups])
              rw [dirNode_pubIndep fs fs2 hp hr hsvc d n hnd]
              cases hdn : dirNode fs d n with
              | none => rfl
              | some nd =>
                  cases nd with
                  | file m => rfl
                  | dir => rfl
                  | link t2 =>
                      exact ihf (locOfDest d) t2 (by
                        intro s nm heq
                        exact absurd (locOfDest_eq_inPub heq) (hnd s))

/-! ### Step 5 specification -/

theorem nodeLinkOk_not_rel0 {t : LinkTarget} (h : nodeLinkOk (Node.link t) = true) :
    ∀ nm, t ≠ LinkTarget.rel 0 nm := by
  intro nm heq
  subst heq
  rw [nodeLinkOk] at h
  cases h

theorem pubNodeOf_eq_pubList (fs : FS) (s n : String) :
    pubNodeOf fs s n = match pubList fs s with
      | some pub => alookup n pub
      | none => none := by
  rw [pubNodeOf, pubList]
  cases alookup s fs.services with
  | none => rfl
  | some sd => cases sd.published <;> rfl

theorem setPubEntry_pubList (fs : FS) (s n : String) (nd : Node) (u : String) :
    pubList (setPubEntry fs s n nd) u =
      if s = u then (pubList fs s).map (aset n nd) else pubList fs u := by
  rw [setPubEntry]
  cases hs : alookup s fs.services with
  | none =>
      dsimp only
      by_cases hu : s = u
      · rw [if_pos hu, ← hu]
        simp [pubList, hs]
      · rw [if_neg hu]
  | some sd =>
      dsimp only
      cases hpub : sd.published with
      | none =>
          by_cases hu : s = u
          · rw [if_pos hu, ← hu]
            simp [pubList, hs, hpub]
          · rw [if_neg hu]
      | some pub =>
          dsimp only
          rw [pubList]
          dsimp only
          rw [alookup_aset]
          by_cases hu : s = u
          · rw [if_pos hu, if_pos hu]
            simp [pubList, hs, hpub]
          · rw [if_neg hu, if_neg hu, pubList]

theorem setPubEntry_frame (fs : FS) (s n : String) (nd : Node) :
    (setPubEntry fs s n nd).parentFiles = fs.parentFiles ∧
    (setPubEntry fs s n nd).absFiles = fs.absFiles ∧
    (setPubEntry fs s n nd).rootEntries = fs.rootEntries ∧
    (∀ u, svcShape (alookup u (setPubEntry fs s n nd).services) =
      svcShape (alookup u fs.services)) := by
  rw [setPubEntry]
  cases hs : alookup s fs.services with
  | none => exact ⟨rfl, rfl, rfl, fun _ => rfl⟩
  | some sd =>
      dsimp only
      cases hpub : sd.published with
      | none =>
          exact ⟨rfl, rfl, rfl, fun _ => rfl⟩
      | some pub =>
          dsimp only
          refine ⟨rfl, rfl, rfl, ?_⟩
          intro u
          show svcShape (alookup u (aset s _ fs.services)) = _
          rw [alookup_aset]
          by_cases hu : s = u
          · rw [if_pos hu, ← hu, hs]
            simp [svcShape, hpub]
          · rw [if_neg hu]

theorem mem_publishedSmall {cfg : List String} {fs : FS} {s n : String} :
    (s, n) ∈ publishedSmall cfg fs ↔
      s ∈ cfg ∧ ∃ pub, pubList fs s = some pub ∧
        ∃ e ∈ pub, e.1 = n ∧ smallGlob n = true := by
  rw [publishedSmall, List.mem_flatMap]
  constructor
  · rintro ⟨s2, hs2, hin⟩
    cases hsv : alookup s2 fs.services with
    | none => rw [hsv] at hin; cases hin
    | some sd =>
        rw [hsv] at hin
        dsimp only at hin
        cases hpub : sd.published with
        | none =>
            rw [hpub] at hin
            simp at hin
        | some pub =>
            rw [hpub] at hin
            dsimp only at hin
            obtain ⟨e, he, heq⟩ := List.mem_map.mp hin
            have hs2s : s2 = s := congrArg Prod.fst heq
            have hen : e.1 = n := congrArg Prod.snd heq
            subst hs2s
            refine ⟨hs2, pub, by rw [pubList, hsv]; dsimp only; exact hpub, e,
              (List.mem_filter.mp he).1, hen, ?_⟩
            rw [← hen]
            exact (List.mem_filter.mp he).2
  · rintro ⟨hs, pub, hpl, e, he, hen, hglob⟩
    refine ⟨s, hs, ?_⟩
    rw [pubList] at hpl
    cases hsv : alookup s fs.services with
    | none => rw [hsv] at hpl; cases hpl
    | some sd =>
        rw [hsv] at hpl
        dsimp only at hpl
        dsimp only
        rw [hpl]
        dsimp only
        refine List.mem_map.mpr ⟨e, List.mem_filter.mpr ⟨he, by rw [hen]; exact hglob⟩, ?_⟩
        rw [hen]

theorem fixupPubFold_spec (pairs : List (String × String)) :
    ∀ (fsc fs4 : FS),
    fsc.parentFiles = fs4.parentFiles → fsc.absFiles = fs4.absFiles →
    fsc.rootEntries = fs4.rootEntries →
    (∀ u, svcShape (alookup u fsc.services) = svcShape (alookup u fs4.services)) →
    pairs.Nodup →
    (∀ pr ∈ pairs, ∃ t, pubNodeOf fsc pr.1 pr.2 = some (Node.link t) ∧
       pubNodeOf fs4 pr.1 pr.2 = some (Node.link t) ∧ nodeLinkOk (Node.link t) = true) →
    ∃ fs5, pairs.foldlM fixupOnePub fsc = .ok fs5 ∧
      fs5.parentFiles = fs4.parentFiles ∧ fs5.absFiles = fs4.absFiles ∧
      fs5.rootEntries = fs4.rootEntries ∧
      (∀ u, svcShape (alookup u fs5.services) = svcShape (alookup u fs4.services)) ∧
      (∀ pr ∈ pairs, ∃ t, pubNodeOf fs4 pr.1 pr.2 = some (Node.link t) ∧
        (((statT fs4 FUEL (Loc.inPub pr.1) t).isSome = true ∧
            pubNodeOf fs5 pr.1 pr.2 = some (Node.link t)) ∨
         ((statT fs4 FUEL (Loc.inPub pr.1) t).isSome = false ∧
            pubNodeOf fs5 pr.1 pr.2 = some (Node.link (LinkTarget.rel 2 pr.2))))) ∧
      (∀ s n, (s, n) ∉ pairs → pubNodeOf fs5 s n = pubNodeOf fsc s n) ∧
      (∀ u, (pubList fs5 u).map akeys = (pubList fsc u).map akeys) := by
  induction pairs with
  | nil =>
      intro fsc fs4 hp ha hr hsvc _ _
      exact ⟨fsc, rfl, hp, ha, hr, hsvc, by simp, fun _ _ _ => rfl, fun _ => rfl⟩
  | cons pr rest ih =>
      intro fsc fs4 hp ha hr hsvc hnd hpend
      obtain ⟨t, hc, h4, hok⟩ := hpend pr (List.mem_cons_self _ _)
      have hstat : statT fsc FUEL (Loc.inPub pr.1) t = statT fs4 FUEL (Loc.inPub pr.1) t :=
        statT_pubIndep fs4 fsc hp ha hr hsvc FUEL (Loc.inPub pr.1) t
          (fun s nm heq => by
            have := nodeLinkOk_not_rel0 hok nm
            exact this)
      by_cases hres : (statT fs4 FUEL (Loc.inPub pr.1) t).isSome = true
      · have hstep : fixupOnePub fsc pr = .ok fsc := by
          rw [fixupOnePub, hc]
          dsimp only
          rw [if_pos (by rw [hstat]; exact hres)]
        obtain ⟨fs5, hrun, hp5, ha5, hr5, hsvc5, hproc, huntou, hkeys⟩ :=
          ih fsc fs4 hp ha hr hsvc (List.nodup_cons.mp hnd).2
            (fun q hq => hpend q (List.mem_cons_of_mem _ hq))
        refine ⟨fs5, ?_, hp5, ha5, hr5, hsvc5, ?_, ?_, hkeys⟩
        · rw [List.foldlM_cons, hstep]
          exact hrun
        · intro q hq
          rcases List.mem_cons.mp hq with hq0 | hq0
          · subst hq0
            refine ⟨t, h4, Or.inl ⟨hres, ?_⟩⟩
            rw [huntou q.1 q.2 (List.nodup_cons.mp hnd).1]
            exact hc
          · exact hproc q hq0
        · intro s n hsn
          exact huntou s n (fun h => hsn (List.mem_cons_of_mem _ h))
      · have hres4 : (statT fs4 FUEL (Loc.inPub pr.1) t).isSome = false := by
          cases h : (statT fs4 FUEL (Loc.inPub pr.1) t).isSome
          · rfl
          · exact absurd h hres
        have hstep : fixupOnePub fsc pr =
            .ok (setPubEntry fsc pr.1 pr.2 (Node.link (LinkTarget.rel 2 pr.2))) := by
          rw [fixupOnePub, hc]
          dsimp only
          rw [if_neg (by rw [hstat]; simp [hres4])]
        obtain ⟨hfp, hfa, hfr2, hfsvc⟩ :=
          setPubEntry_frame fsc pr.1 pr.2 (Node.link (LinkTarget.rel 2 pr.2))
        have hpub0 : ∃ pub, pubList fsc pr.1 = some pub := by
          have := pubNodeOf_eq_pubList fsc pr.1 pr.2
          rw [hc] at this
          cases hx : pubList fsc pr.1 with
          | none => rw [hx] at this; cases this
          | some pub => exact ⟨pub, rfl⟩
        obtain ⟨pub0, hpub0⟩ := hpub0
        have hnode1 : ∀ s n, pubNodeOf (setPubEntry fsc pr.1 pr.2
            (Node.link (LinkTarget.rel 2 pr.2))) s n =
            if pr.1 = s ∧ pr.2 = n then some (Node.link (LinkTarget.rel 2 pr.2))
            else pubNodeOf fsc s n := by
          intro s n
          rw [pubNodeOf_eq_pubList, pubNodeOf_eq_pubList, setPubEntry_pubList]
          by_cases hs : pr.1 = s
          · rw [if_pos hs, ← hs, hpub0]
            show alookup n (aset pr.2 _ pub0) = _
            rw [alookup_aset]
            by_cases hn : pr.2 = n
            · rw [if_pos hn, if_pos ⟨rfl, hn⟩]
            · rw [if_neg hn, if_neg (fun h => hn h.2)]
          · rw [if_neg hs, if_neg (fun h => hs h.1)]
        have hpend1 : ∀ q ∈ rest, ∃ t2, pubNodeOf (setPubEntry fsc pr.1 pr.2
            (Node.link (LinkTarget.rel 2 pr.2))) q.1 q.2 = some (Node.link t2) ∧
            pubNodeOf fs4 q.1 q.2 = some (Node.link t2) ∧
            nodeLinkOk (Node.link t2) = true := by
          intro q hq
          obtain ⟨t2, hc2, h42, hok2⟩ := hpend q (List.mem_cons_of_mem _ hq)
          refine ⟨t2, ?_, h42, hok2⟩
          rw [hnode1, if_neg ?_]
          · exact hc2
          · rintro ⟨h1, h2⟩
            exact (List.nodup_cons.mp hnd).1 ((Prod.ext h1 h2).symm ▸ hq)
        obtain ⟨fs5, hrun, hp5, ha5, hr5, hsvc5, hproc, huntou, hkeys⟩ :=
          ih (setPubEntry fsc pr.1 pr.2 (Node.link (LinkTarget.rel 2 pr.2))) fs4
            (hfp.trans hp) (hfa.trans ha) (hfr2.trans hr)
            (fun u => (hfsvc u).trans (hsvc u))
            (List.nodup_cons.mp hnd).2 hpend1
        refine ⟨fs5, ?_, hp5, ha5, hr5, hsvc5, ?_, ?_, ?_⟩
        · rw [List.foldlM_cons, hstep]
          exact hrun
        · intro q hq
          rcases List.mem_cons.mp hq with hq0 | hq0
          · subst hq0
            refine ⟨t, h4, Or.inr ⟨hres4, ?_⟩⟩
            rw [huntou q.1 q.2 (List.nodup_cons.mp hnd).1, hnode1, if_pos ⟨rfl, rfl⟩]
          · exact hproc q hq0
        · intro s n hsn
          rw [huntou s n (fun h => hsn (List.mem_cons_of_mem _ h)), hnode1,
            if_neg (fun h => hsn (by
              rw [show (s, n) = pr from Prod.ext h.1.symm h.2.symm]
              exact List.mem_cons_self _ _))]
        · intro u
          rw [hkeys u, setPubEntry_pubList]
          by_cases hu : pr.1 = u
          · rw [if_pos hu, ← hu, hpub0]
            show some (akeys (aset pr.2 _ pub0)) = _
            rw [akeys_aset, if_pos (by
              have hthis := pubNodeOf_eq_pubList fsc pr.1 pr.2
              rw [hpub0] at hthis
              dsimp only at hthis
              rw [hc] at hthis
              rw [← hthis]
              rfl)]
            rfl
          · rw [if_neg hu]

theorem bindOk (a : α) (f : α → Except FsErr β) :
    Bind.bind (Except.ok a) f = f a := rfl

theorem alookup_mapSelf (g : String → α) (ns : List String) (n : String) :
    alookup n (ns.map (fun m => (m, g m))) = if n ∈ ns then some (g n) else none := by
  induction ns with
  | nil => simp [alookup]
  | cons m ms ih =>
      by_cases hm : m = n
      · subst hm
        simp [alookup]
      · rw [List.map_cons]
        show (if m = n then some (g m) else alookup n (ms.map (fun m => (m, g m)))) = _
        rw [if_neg hm, ih]
        by_cases hin : n ∈ ms
        · rw [if_pos hin, if_pos (List.mem_cons_of_mem _ hin)]
        · rw [if_neg hin, if_neg (by
            intro h
            rcases List.mem_cons.mp h with h | h
            · exact hm h.symm
            · exact hin h)]

theorem pubSmallPairs_eq (s : String) (pub : List (String × Node)) :
    (pub.filter (fun e => smallGlob e.1)).map (fun e => (s, e.1)) =
      ((akeys pub).filter (fun n => smallGlob n)).map (fun n => (s, n)) := by
  induction pub with
  | nil => rfl
  | cons e rest ih =>
      rw [show akeys (e :: rest) = e.1 :: akeys rest from rfl]
      cases hg : smallGlob e.1 with
      | true => simp [List.filter_cons, hg, ih]
      | false => simp [List.filter_cons, hg, ih]

theorem publishedSmall_congr {cfg : List String} {fsa fsb : FS}
    (h : ∀ u, Option.map akeys (pubList fsa u) = Option.map akeys (pubList fsb u)) :
    publishedSmall cfg fsa = publishedSmall cfg fsb := by
  have hone : ∀ (fs : FS) (s : String),
      (match alookup s fs.services with
       | some sd =>
           match sd.published with
           | some pub => (pub.filter (fun e => smallGlob e.1)).map (fun e => (s, e.1))
           | none => []
       | none => []) =
      (match Option.map akeys (pubList fs s) with
       | some ks => (ks.filter (fun n => smallGlob n)).map (fun n => (s, n))
       | none => []) := by
    intro fs s
    rw [pubList]
    cases hsv : alookup s fs.services with
    | none => rfl
    | some sd =>
        dsimp only
        cases hpub : sd.published with
        | none => rfl
        | some pub =>
            dsimp only [Option.map]
            exact pubSmallPairs_eq s pub
  rw [publishedSmall, publishedSmall]
  induction cfg with
  | nil => rfl
  | cons s rest ih =>
      simp only [List.flatMap_cons]
      rw [ih, hone fsa s, hone fsb s, h s]

theorem pubList_congr_services {fsa fsb : FS} (h : fsa.services = fsb.services)
    (u : String) : pubList fsa u = pubList fsb u := by
  rw [pubList, pubList, h]

theorem addMissingSubdirs_pubList (cfg : List String) (fs : FS) (u : String)
    (hcfg : cfg.Nodup) :
    pubList (addMissingSubdirs cfg fs) u =
      if u ∈ cfg then some ((pubList fs u).getD []) else pubList fs u := by
  rw [pubList, addMissingSubdirs_lookup cfg fs u hcfg]
  by_cases hm : u ∈ cfg
  · rw [if_pos hm, if_pos hm]
    cases hs : alookup u fs.services with
    | none =>
        dsimp only
        rw [pubList, hs]
        rfl
    | some sd =>
        obtain ⟨ents, spub⟩ := sd
        dsimp only
        rw [pubList, hs]
        cases spub <;> rfl
  · rw [if_neg hm, if_neg hm, pubList]

theorem pubOkB_spec {fs : FS} (h : pubOkB fs = true) {s : String}
    {pub : List (String × Node)} (hs : pubList fs s = some pub) :
    (akeys pub).Nodup ∧ ∀ e ∈ pub, smallGlob e.1 = true → nodeLinkOk e.2 = true := by
  rw [pubList] at hs
  cases hsv : alookup s fs.services with
  | none => rw [hsv] at hs; cases hs
  | some sd =>
      rw [hsv] at hs
      have hmem : (s, sd) ∈ fs.services := mem_of_alookup hsv
      have hall := (List.all_eq_true.mp h) (s, sd) hmem
      dsimp only at hall hs
      rw [hs] at hall
      obtain ⟨hnd, hlinks⟩ := Bool.and_eq_true_iff.mp hall
      refine ⟨of_decide_eq_true hnd, ?_⟩
      intro e he hglob
      have := (List.all_eq_true.mp hlinks) e he
      rcases Bool.or_eq_true_iff.mp this with hbad | hok
      · rw [hglob] at hbad
        cases hbad
      · exact hok

theorem smallsPlainB_spec {fs : FS} {srcs : List (String × SKind)}
    (h : smallsPlainB fs srcs = true) :
    ∀ src ∈ srcs, optFileOrNone (alookup (smallNameOf src.1) fs.rootEntries) = true :=
  fun src hsrc => (List.all_eq_true.mp h) src hsrc

theorem noClashB_spec {srcs : List (String × SKind)} (h : noClashB srcs = true) :
    ∀ src ∈ srcs, ∀ src2 ∈ srcs, smallNameOf src.1 ≠ src2.1 := by
  intro src hsrc src2 hsrc2
  have h1 := (List.all_eq_true.mp h) src hsrc
  have h2 := (List.all_eq_true.mp h1) src2 hsrc2
  exact of_decide_eq_true (Bool.and_eq_true_iff.mp h2).1

theorem mem_allSmallNames {fs : FS} {srcs : List (String × SKind)} {n : String}
    (h : n ∈ allSmallNames fs srcs) :
    (∃ src ∈ srcs, n = smallNameOf src.1) ∧ existsRoot fs n = true := by
  rw [allSmallNames, List.mem_dedup] at h
  obtain ⟨src, hsrc, hif⟩ := List.mem_filterMap.mp h
  by_cases hex : existsRoot fs (smallNameOf src.1)
  · rw [if_pos hex] at hif
    cases hif
    exact ⟨⟨src, hsrc, rfl⟩, hex⟩
  · rw [if_neg hex] at hif
    cases hif

theorem mem_newSmallImages {cfg : List String} {fs : FS} {srcs : List (String × SKind)}
    {u : String} {ns : List String} (h : (u, ns) ∈ newSmallImages cfg fs srcs) :
    u ∈ cfg ∧ svcExists fs u = true ∧
      ns = (allSmallNames fs srcs).filter (fun n => decide (n ∉ managedNames fs u)) := by
  rw [newSmallImages] at h
  obtain ⟨s, hsmem, heq⟩ := List.mem_filterMap.mp h
  by_cases hex : svcExists fs s
  · rw [if_pos hex] at heq
    by_cases hne : (allSmallNames fs srcs).filter (fun n => decide (n ∉ managedNames fs s)) = []
    · rw [if_pos hne] at heq
      cases heq
    · rw [if_neg hne] at heq
      injection heq with heq
      obtain ⟨h1, h2⟩ := Prod.mk.injEq .. ▸ heq.symm
      subst h1
      exact ⟨hsmem, hex, h2⟩
  · rw [if_neg hex] at heq
    cases heq

theorem publishedSmall_nodup {cfg : List String} {fs : FS} (hcfg : cfg.Nodup)
    (hnd : ∀ s pub, pubList fs s = some pub → (akeys pub).Nodup) :
    (publishedSmall cfg fs).Nodup := by
  rw [publishedSmall]
  refine pairwise_flatMap hcfg ?_ ?_
  · intro s _
    cases hsv : alookup s fs.services with
    | none => simp
    | some sd =>
        dsimp only
        cases hpub : sd.published with
        | none => simp
        | some pub =>
            dsimp only
            have hk : (akeys pub).Nodup := by
              refine hnd s pub ?_
              rw [pubList, hsv]
              exact hpub
            have hf : (akeys (pub.filter (fun e => smallGlob e.1))).Nodup := by
              refine List.Sublist.nodup ?_ hk
              exact List.Sublist.map _ (List.filter_sublist pub)
            rw [List.pairwise_map]
            have := List.pairwise_map.mp hf
            refine this.imp ?_
            intro a b hab hcon
            exact hab (congrArg Prod.snd hcon)
  · intro a b hab x hx y hy
    cases hsa : alookup a fs.services with
    | none => rw [hsa] at hx; cases hx
    | some sda =>
        rw [hsa] at hx
        dsimp only at hx
        cases hpa : sda.published with
        | none => rw [hpa] at hx; cases hx
        | some puba =>
            rw [hpa] at hx
            obtain ⟨ea, _, hxa⟩ := List.mem_map.mp hx
            cases hsb : alookup b fs.services with
            | none => rw [hsb] at hy; cases hy
            | some sdb =>
                rw [hsb] at hy
                dsimp only at hy
                cases hpb : sdb.published with
                | none => rw [hpb] at hy; cases hy
                | some pubb =>
                    rw [hpb] at hy
                    obtain ⟨eb, _, hyb⟩ := List.mem_map.mp hy
                    intro hcon
                    apply hab
                    have hxy : x.1 = a := by rw [← hxa]
                    have hyy : y.1 = b := by rw [← hyb]
                    rw [← hxy, ← hyy, hcon]

theorem statT_svc_rel1_file {fs : FS} (u n : String) {m : Nat}
    (h : alookup n fs.rootEntries = some (Node.file m)) :
    statT fs FUEL (Loc.inSvc u) (LinkTarget.rel 1 n) = some m := by
  rw [statT]
  rw [show destOf (Loc.inSvc u) 1 = some Dest.droot from rfl]
  dsimp only
  rw [show dirNode fs Dest.droot n = match alookup n fs.rootEntries with
      | some nd => some nd
      | none => if (alookup n fs.services).isSome then some Node.dir else none from rfl]
  rw [h]

theorem statT_svc_rel1_dir {fs : FS} (u n : String)
    (h : alookup n fs.rootEntries = none) (hs : (alookup n fs.services).isSome = true) :
    statT fs FUEL (Loc.inSvc u) (LinkTarget.rel 1 n) = some 0 := by
  rw [statT]
  rw [show destOf (Loc.inSvc u) 1 = some Dest.droot from rfl]
  dsimp only
  rw [show dirNode fs Dest.droot n = match alookup n fs.rootEntries with
      | some nd => some nd
      | none => if (alookup n fs.services).isSome then some Node.dir else none from rfl]
  rw [h]
  dsimp only
  rw [if_pos hs]

theorem existsRoot_fileOrNone {fs : FS} {n : String}
    (hplain : optFileOrNone (alookup n fs.rootEntries) = true)
    (hex : existsRoot fs n = true) :
    (∃ m, alookup n fs.rootEntries = some (Node.file m)) ∨
      (alookup n fs.rootEntries = none ∧ (alookup n fs.services).isSome = true) := by
  rw [existsRoot, statRoot, statT] at hex
  rw [show destOf Loc.inRoot 0 = some Dest.droot from rfl] at hex
  dsimp only at hex
  rw [show dirNode fs Dest.droot n = match alookup n fs.rootEntries with
      | some nd => some nd
      | none => if (alookup n fs.services).isSome then some Node.dir else none from rfl] at hex
  cases hr : alookup n fs.rootEntries with
  | some nd =>
      cases nd with
      | file m => exact Or.inl ⟨m, rfl⟩
      | dir => rw [hr] at hplain; cases hplain
      | link t => rw [hr] at hplain; cases hplain
  | none =>
      rw [hr] at hex
      dsimp only at hex
      cases hsv : (alookup n fs.services).isSome with
      | true => exact Or.inr ⟨rfl, rfl⟩
      | false =>
          rw [hsv] at hex
          simp at hex

theorem fixupPublishedLinks_spec (cfg : List String) (fs4 : FS)
    (hok : ∀ pr ∈ publishedSmall cfg fs4, ∃ t, pubNodeOf fs4 pr.1 pr.2 = some (Node.link t) ∧
      nodeLinkOk (Node.link t) = true)
    (hnd : (publishedSmall cfg fs4).Nodup) :
    ∃ fs5, fixupPublishedLinks cfg fs4 = .ok fs5 ∧
      fs5.parentFiles = fs4.parentFiles ∧ fs5.absFiles = fs4.absFiles ∧
      fs5.rootEntries = fs4.rootEntries ∧
      (∀ u, svcShape (alookup u fs5.services) = svcShape (alookup u fs4.services)) ∧
      (∀ pr ∈ publishedSmall cfg fs4, ∃ t, pubNodeOf fs4 pr.1 pr.2 = some (Node.link t) ∧
        (((statT fs4 FUEL (Loc.inPub pr.1) t).isSome = true ∧
            pubNodeOf fs5 pr.1 pr.2 = some (Node.link t)) ∨
         ((statT fs4 FUEL (Loc.inPub pr.1) t).isSome = false ∧
            pubNodeOf fs5 pr.1 pr.2 = some (Node.link (LinkTarget.rel 2 pr.2))))) ∧
      (∀ s n, (s, n) ∉ publishedSmall cfg fs4 → pubNodeOf fs5 s n = pubNodeOf fs4 s n) ∧
      (∀ u, Option.map akeys (pubList fs5 u) = Option.map akeys (pubList fs4 u)) := by
  have h := fixupPubFold_spec (publishedSmall cfg fs4) fs4 fs4 rfl rfl rfl (fun _ => rfl) hnd
    (fun pr hpr => by
      obtain ⟨t, h1, h2⟩ := hok pr hpr
      exact ⟨t, h1, h1, h2⟩)
  rw [fixupPublishedLinks]
  exact h

/-- C2 (amended): after a successful fixup run, (a) every scanned source's
root link has a relative target (absolute targets are rewritten to
`../name`, relative ones kept verbatim, neither validated to resolve);
(b) every `*_small*` preview under a `published` folder is a symlink that
either resolved in place before the repair and is kept, or is rewritten to
the two-level-up target `../../name` (again without validating that the
rewritten target resolves); and (c) every preview link freshly created by
the distribution step is a one-level-up `../name` symlink in its service
directory that resolves from there.  `rootLinksUpB` and `cfgFreshB`
confine the statement to states on which the model is a faithful image of
the code: no sibling (`rel 0`) root link that `is_dir()` would follow and
exclude from the source scan, and no configured service name shadowed by
a root entry, where `mkdir` would raise.  The claim's stronger reading —
that every preview link under a service directory resolves after fixup —
is refuted by `c2_counterexample`: stale direct service previews are
never repaired, and rewritten links may still dangle. -/
theorem c2_relative_link_invariant (cfg : List String) (now : Nat) (fs : FS)
    (hcfg : cfg.Nodup)
    (hroot : (akeys fs.rootEntries).Nodup)
    (hpub : pubOkB fs = true)
    (hupl : rootLinksUpB fs = true)
    (hplain : smallsPlainB fs (scanSources fs) = true)
    (hclash : noClashB (scanSources fs) = true)
    (hfresh : cfgFreshB fs cfg = true) :
    ∃ fs', actionFixup cfg now fs = .ok fs' ∧
      (∀ nm k, (nm, k) ∈ scanSources fs →
        ∃ ups q, alookup nm fs'.rootEntries = some (Node.link (LinkTarget.rel ups q))) ∧
      (∀ s n, (s, n) ∈ publishedSmall cfg fs' →
        ∃ t, pubNodeOf fs' s n = some (Node.link t) ∧
          ((statT fs' FUEL (Loc.inPub s) t).isSome = true ∨ t = LinkTarget.rel 2 n)) ∧
      (∀ u ns, (u, ns) ∈ newSmallImages cfg
          (createMissingSmallImages now (addMissingSubdirs cfg fs) (scanSources fs))
          (scanSources fs) →
        ∀ n ∈ ns, ∃ sd, alookup u fs'.services = some sd ∧
          alookup n sd.entries = some (Node.link (LinkTarget.rel 1 n)) ∧
          (statT fs' FUEL (Loc.inSvc u) (LinkTarget.rel 1 n)).isSome = true) := by
  obtain ⟨fs3, hrun3, hp3, ha3, hr3, hunt3, hset3⟩ :=
    addNewSmallFiles_spec cfg
      (createMissingSmallImages now (addMissingSubdirs cfg fs) (scanSources fs))
      (scanSources fs) hcfg
  have hfr1 := addMissingSubdirs_frame cfg fs
  have hfr2 := createMissingSmallImages_frame now (scanSources fs) (addMissingSubdirs cfg fs)
  have hsrclink3 : ∀ e ∈ scanSources fs, ∃ t,
      alookup e.1 fs3.rootEntries = some (Node.link t) := by
    intro e he
    obtain ⟨t, ht, _⟩ := scanSources_entry hroot he
    refine ⟨t, ?_⟩
    rw [hr3, hfr2.2.2.2.1 e.1 (fun src hsrc => noClashB_spec hclash src hsrc e he),
      hfr1.2.2]
    exact ht
  obtain ⟨fs4, hrun4, hp4, ha4, hsvc4, habs4, hrel4, hunt4, hall4⟩ :=
    fixupSourcePhotosLinks_spec (scanSources fs) fs3 hsrclink3
  have hpl4f : ∀ u, pubList fs4 u =
      if u ∈ cfg then some ((pubList fs u).getD []) else pubList fs u := by
    intro u
    have hpl4 : pubList fs4 u = pubList fs3 u := pubList_congr_services hsvc4 u
    have hpl3 : pubList fs3 u =
        pubList (createMissingSmallImages now (addMissingSubdirs cfg fs) (scanSources fs)) u := by
      by_cases hex : ∃ ns, (u, ns) ∈ newSmallImages cfg
          (createMissingSmallImages now (addMissingSubdirs cfg fs) (scanSources fs))
          (scanSources fs)
      · obtain ⟨ns, hns⟩ := hex
        obtain ⟨sd, hsd, _, _⟩ := newSmallImages_conditions cfg
          (createMissingSmallImages now (addMissingSubdirs cfg fs) (scanSources fs))
          (scanSources fs) (u, ns) hns
        rw [pubList, pubList, hset3 u ns hns sd hsd, hsd]
      · push_neg at hex
        rw [pubList, pubList, hunt3 u hex]
    have hpl2 : pubList (createMissingSmallImages now (addMissingSubdirs cfg fs)
        (scanSources fs)) u = pubList (addMissingSubdirs cfg fs) u :=
      pubList_congr_services hfr2.2.2.1 u
    rw [hpl4, hpl3, hpl2, addMissingSubdirs_pubList cfg fs u hcfg]
  have hok5 : ∀ pr ∈ publishedSmall cfg fs4, ∃ t,
      pubNodeOf fs4 pr.1 pr.2 = some (Node.link t) ∧
      nodeLinkOk (Node.link t) = true := by
    intro pr hpr
    obtain ⟨hscfg, pub4, hpub4, e, he, hen, hglob⟩ := mem_publishedSmall.mp hpr
    have hpub4e := hpub4
    rw [hpl4f pr.1, if_pos hscfg] at hpub4e
    injection hpub4e with hpub4e
    cases hpl : pubList fs pr.1 with
    | none =>
        rw [hpl] at hpub4e
        rw [← hpub4e] at he
        simp at he
    | some pub =>
        rw [hpl] at hpub4e
        have hpp : pub = pub4 := hpub4e
        obtain ⟨hnd0, hlinks⟩ := pubOkB_spec hpub hpl
        have hee : e ∈ pub := by rw [hpp]; exact he
        have hlink := hlinks e hee (by rw [hen]; exact hglob)
        cases hnode : e.2 with
        | file m => rw [hnode] at hlink; cases hlink
        | dir => rw [hnode] at hlink; cases hlink
        | link t =>
            refine ⟨t, ?_, by rw [← hnode]; exact hlink⟩
            rw [pubNodeOf_eq_pubList, hpub4, ← hpp]
            dsimp only
            have hmem : (pr.2, Node.link t) ∈ pub := by
              rw [← hen, ← hnode]
              exact hee
            exact alookup_of_mem_nodup hnd0 hmem
  have hnd5 : (publishedSmall cfg fs4).Nodup := by
    refine publishedSmall_nodup hcfg ?_
    intro s pub hp
    rw [hpl4f s] at hp
    by_cases hs : s ∈ cfg
    · rw [if_pos hs] at hp
      injection hp with hp
      cases hpl : pubList fs s with
      | none =>
          rw [hpl] at hp
          rw [← hp]
          exact List.nodup_nil
      | some pub0 =>
          rw [hpl] at hp
          have : pub0 = pub := hp
          rw [← this]
          exact (pubOkB_spec hpub hpl).1
    · rw [if_neg hs] at hp
      exact (pubOkB_spec hpub hp).1
  obtain ⟨fs5, hrun5, hp5, ha5, hr5, hsvc5, hproc5, hunt5, hkeys5⟩ :=
    fixupPublishedLinks_spec cfg fs4 hok5 hnd5
  refine ⟨fs5, ?_, ?_, ?_, ?_⟩
  · have hdo : actionFixup cfg now fs =
        Bind.bind (addNewSmallFiles cfg
            (createMissingSmallImages now (addMissingSubdirs cfg fs) (scanSources fs))
            (scanSources fs))
          (fun a => Bind.bind (fixupSourcePhotosLinks a (scanSources fs))
            (fun b => Bind.bind (fixupPublishedLinks cfg b)
              (fun c => pure (addFilesToRepository c)))) := rfl
    rw [hdo, hrun3, bindOk, hrun4, bindOk, hrun5, bindOk]
    rfl
  · intro nm k hmem
    obtain ⟨t, ht, _⟩ := scanSources_entry hroot hmem
    have ht3 : alookup nm fs3.rootEntries = some (Node.link t) := by
      rw [hr3, hfr2.2.2.2.1 nm (fun src hsrc => noClashB_spec hclash src hsrc (nm, k) hmem),
        hfr1.2.2]
      exact ht
    cases t with
    | abs p =>
        have h4 := habs4 nm p ⟨k, hmem⟩ ht3
        exact ⟨1, nm, by rw [hr5]; exact h4⟩
    | rel ups q =>
        have h4 := hrel4 nm ups q ht3
        exact ⟨ups, q, by rw [hr5]; exact h4⟩
  · intro s n hmem5
    have hps : publishedSmall cfg fs5 = publishedSmall cfg fs4 :=
      publishedSmall_congr hkeys5
    rw [hps] at hmem5
    obtain ⟨t, h4t, hdi⟩ := hproc5 (s, n) hmem5
    obtain ⟨t2, h4t2, hokt2⟩ := hok5 (s, n) hmem5
    have htt : t2 = t := by
      rw [h4t] at h4t2
      injection h4t2 with hx
      injection hx with hx
      exact hx.symm
    rw [htt] at hokt2
    rcases hdi with ⟨hres, hkeep⟩ | ⟨hres, hrw⟩
    · refine ⟨t, hkeep, Or.inl ?_⟩
      rw [statT_pubIndep fs4 fs5 hp5 ha5 hr5 hsvc5 FUEL (Loc.inPub s) t
        (fun s' nm _ => nodeLinkOk_not_rel0 hokt2 nm)]
      exact hres
    · exact ⟨LinkTarget.rel 2 n, hrw, Or.inr rfl⟩
  · intro u ns hns n hn
    obtain ⟨sd2, hsd2, hnsnd, hfresh⟩ := newSmallImages_conditions cfg
      (createMissingSmallImages now (addMissingSubdirs cfg fs) (scanSources fs))
      (scanSources fs) (u, ns) hns
    obtain ⟨hucfg, husvc, hnseq⟩ := mem_newSmallImages hns
    have hnall : n ∈ allSmallNames
        (createMissingSmallImages now (addMissingSubdirs cfg fs) (scanSources fs))
        (scanSources fs) := by
      rw [hnseq] at hn
      exact (List.mem_filter.mp hn).1
    obtain ⟨⟨src0, hsrc0, hneq⟩, hex2⟩ := mem_allSmallNames hnall
    have hplain2 : optFileOrNone (alookup n
        (createMissingSmallImages now (addMissingSubdirs cfg fs)
          (scanSources fs)).rootEntries) = true := by
      rcases hfr2.2.2.2.2.1 n with hsame | hfile
      · rw [hsame, hfr1.2.2, hneq]
        exact smallsPlainB_spec hplain src0 hsrc0
      · rw [hfile]
        rfl
    have hnotsrc : ∀ k, (n, k) ∉ scanSources fs := by
      intro k hk
      exact noClashB_spec hclash src0 hsrc0 (n, k) hk hneq.symm
    have hset := hset3 u ns hns sd2 hsd2
    have hent3 : alookup n ({ sd2 with entries := sd2.entries ++ ns.map (fun n => (n, Node.link (LinkTarget.rel 1 n))) } : SvcDir).entries =
        some (Node.link (LinkTarget.rel 1 n)) := by
      dsimp only
      rw [alookup_append, (hfresh n hn).1]
      dsimp only
      rw [alookup_mapSelf, if_pos hn]
    have hsd4 : alookup u fs4.services = some { sd2 with entries := sd2.entries ++ ns.map (fun n => (n, Node.link (LinkTarget.rel 1 n))) } := by
      rw [hsvc4]
      exact hset
    have hshape := hsvc5 u
    rw [hsd4] at hshape
    cases hsd5 : alookup u fs5.services with
    | none =>
        rw [hsd5] at hshape
        cases hshape
    | some sd5 =>
        rw [hsd5] at hshape
        have hents : sd5.entries = sd2.entries ++ ns.map (fun n => (n, Node.link (LinkTarget.rel 1 n))) := by
          have := congrArg (fun o => Option.map Prod.fst o) hshape
          simp only [svcShape, Option.map_map, Option.map] at hshape
          injection hshape with hx
          exact congrArg Prod.fst hx
        refine ⟨sd5, rfl, by rw [hents]; exact hent3, ?_⟩
        rcases existsRoot_fileOrNone hplain2 hex2 with ⟨m, hm⟩ | ⟨hnone, hsvcn⟩
        · have hroot5 : alookup n fs5.rootEntries = some (Node.file m) := by
            rw [hr5, hunt4 n hnotsrc, hr3]
            exact hm
          rw [statT_svc_rel1_file u n hroot5]
          rfl
        · have hroot5 : alookup n fs5.rootEntries = none := by
            rw [hr5, hunt4 n hnotsrc, hr3]
            exact hnone
          have h3s : (alookup n fs3.services).isSome = true := by
            by_cases hexn : ∃ ns2, (n, ns2) ∈ newSmallImages cfg
                (createMissingSmallImages now (addMissingSubdirs cfg fs) (scanSources fs))
                (scanSources fs)
            · obtain ⟨ns2, hns2⟩ := hexn
              obtain ⟨sdn, hsdn, _, _⟩ := newSmallImages_conditions cfg
                (createMissingSmallImages now (addMissingSubdirs cfg fs) (scanSources fs))
                (scanSources fs) (n, ns2) hns2
              rw [hset3 n ns2 hns2 sdn hsdn]
              rfl
            · push_neg at hexn
              rw [hunt3 n hexn]
              exact hsvcn
          have h4s : (alookup n fs4.services).isSome = true := by
            rw [hsvc4]
            exact h3s
          have hsvc5n : (alookup n fs5.services).isSome = true := by
            have hsh := hsvc5 n
            cases h5 : alookup n fs5.services with
            | some _ => rfl
            | none =>
                rw [h5] at hsh
                cases h4x : alookup n fs4.services with
                | none => rw [h4x] at h4s; cases h4s
                | some _ => rw [h4x] at hsh; cases hsh
          rw [statT_svc_rel1_dir u n hroot5 hsvc5n]
          rfl

/-- C2, counterexample to the claim as stated: in `exC2` the service
directory holds a stale direct preview `b_small.jpg → /stale` and the root
holds the source `A.jpg → /gone`.  Fixup succeeds, yet afterwards the
direct preview still has its absolute target (the repair step only globs
`published` folders) and does not resolve, and the rewritten source link
`../A.jpg` does not resolve either (the rewrite is not validated). -/
theorem c2_counterexample :
    actionFixup ["s"] 10 exC2 = .ok exC2' ∧
    alookup "s" exC2'.services = some exC2sd' ∧
    alookup "b_small.jpg" exC2sd'.entries = some (Node.link (LinkTarget.abs "/stale")) ∧
    statT exC2' FUEL (Loc.inSvc "s") (LinkTarget.abs "/stale") = none ∧
    alookup "A.jpg" exC2'.rootEntries = some (Node.link (LinkTarget.rel 1 "A.jpg")) ∧
    statT exC2' FUEL Loc.inRoot (LinkTarget.rel 1 "A.jpg") = none :=
  ⟨by rfl, by decide, by decide, by decide, by decide, by decide⟩

theorem c2_witness :
    ("s" :: []).Nodup ∧ (akeys exC2.rootEntries).Nodup ∧ pubOkB exC2 = true ∧
    rootLinksUpB exC2 = true ∧
    smallsPlainB exC2 (scanSources exC2) = true ∧
    noClashB (scanSources exC2) = true ∧
    cfgFreshB exC2 ("s" :: []) = true ∧
    (∃ fs', actionFixup ("s" :: []) 10 exC2 = .ok fs' ∧
      (∀ nm k, (nm, k) ∈ scanSources exC2 →
        ∃ ups q, alookup nm fs'.rootEntries = some (Node.link (LinkTarget.rel ups q))) ∧
      (∀ s n, (s, n) ∈ publishedSmall ("s" :: []) fs' →
        ∃ t, pubNodeOf fs' s n = some (Node.link t) ∧
          ((statT fs' FUEL (Loc.inPub s) t).isSome = true ∨ t = LinkTarget.rel 2 n)) ∧
      (∀ u ns, (u, ns) ∈ newSmallImages ("s" :: [])
          (createMissingSmallImages 10 (addMissingSubdirs ("s" :: []) exC2)
            (scanSources exC2))
          (scanSources exC2) →
        ∀ n ∈ ns, ∃ sd, alookup u fs'.services = some sd ∧
          alookup n sd.entries = some (Node.link (LinkTarget.rel 1 n)) ∧
          (statT fs' FUEL (Loc.inSvc u) (LinkTarget.rel 1 n)).isSome = true)) :=
  ⟨by decide, by decide, by decide, by decide, by decide, by decide, by decide,
    c2_relative_link_invariant ("s" :: []) 10 exC2 (by decide) (by decide) (by decide)
      (by decide) (by decide) (by decide) (by decide)⟩

/-- C1, counterexample to the claim as stated: the six-step fixup is not
idempotent for every state.  In `exC1` the first run only rewrites the
dead absolute source link to `../a.jpg`; because the link-repair step runs
after the preview-materialization step, the second run sees a resolving
source, creates `a_small.jpg` and links it into the service directory, so
the tree after run two differs from the tree after run one. -/
theorem c1_counterexample :
    actionFixup ["s"] 10 exC1 = .ok exC1' ∧
    actionFixup ["s"] 10 exC1' = .ok exC1s ∧
    exC1s ≠ exC1' ∧
    alookup "a_small.jpg" exC1'.rootEntries = none ∧
    alookup "a_small.jpg" exC1s.rootEntries = some (Node.file 10) :=
  ⟨by rfl, by rfl, by decide, by decide, by decide⟩

theorem statT_abs (fs : FS) (fuel : Nat) (loc : Loc) (p : String) :
    statT fs fuel loc (LinkTarget.abs p) = alookup p fs.absFiles := by
  cases fuel <;> cases loc <;> rfl

theorem destOf_inRoot_cases {ups : Nat} {d : Dest}
    (h : destOf Loc.inRoot ups = some d) :
    (d = Dest.droot ∧ ups = 0) ∨ (d = Dest.dparent ∧ ups = 1) := by
  rcases ups with _ | _ | u
  · rw [show destOf Loc.inRoot 0 = some Dest.droot from rfl] at h
    injection h with h
    exact Or.inl ⟨h.symm, rfl⟩
  · rw [show destOf Loc.inRoot 1 = some Dest.dparent from rfl] at h
    injection h with h
    exact Or.inr ⟨h.symm, rfl⟩
  · rw [show destOf Loc.inRoot (u + 1 + 1) = none from rfl] at h
    cases h

theorem dirNode_dparent (fs : FS) (q : String) :
    dirNode fs Dest.dparent q = (alookup q fs.parentFiles).map Node.file := rfl

theorem dirNode_droot (fs : FS) (q : String) :
    dirNode fs Dest.droot q =
      match alookup q fs.rootEntries with
      | some nd => some nd
      | none => if (alookup q fs.services).isSome then some Node.dir else none := rfl

theorem statT_hop (fsa fsb : FS) (fuel : Nat) (t : LinkTarget)
    (hpar : fsa.parentFiles = fsb.parentFiles)
    (habsf : fsa.absFiles = fsb.absFiles)
    (hup : nodeLinkUp (Node.link t) = true) :
    statT fsa fuel Loc.inRoot t = statT fsb fuel Loc.inRoot t := by
  cases t with
  | abs p =>
      rw [statT_abs, statT_abs, habsf]
  | rel ups q =>
      rw [statT, statT]
      cases hd : destOf Loc.inRoot ups with
      | none => rfl
      | some d =>
          dsimp only
          rcases destOf_inRoot_cases hd with ⟨hd0, hu0⟩ | ⟨hd1, _⟩
          · subst hd0
            subst hu0
            simp [nodeLinkUp] at hup
          · subst hd1
            rw [dirNode_dparent, dirNode_dparent, hpar]
            cases alookup q fsb.parentFiles <;> rfl

theorem statRoot_local {fsa fsb : FS} {n : String}
    (hpar : fsa.parentFiles = fsb.parentFiles)
    (habsf : fsa.absFiles = fsb.absFiles)
    (hn : alookup n fsa.rootEntries = alookup n fsb.rootEntries)
    (hsvc : (alookup n fsa.services).isSome = (alookup n fsb.services).isSome)
    (hup : ∀ t, alookup n fsa.rootEntries = some (Node.link t) →
      nodeLinkUp (Node.link t) = true) :
    statRoot fsa n = statRoot fsb n := by
  rw [statRoot, statRoot, statT, statT]
  rw [show destOf Loc.inRoot 0 = some Dest.droot from rfl]
  dsimp only
  rw [dirNode_droot, dirNode_droot, ← hn]
  cases he : alookup n fsa.rootEntries with
  | none =>
      dsimp only
      rw [hsvc]
      by_cases hx : (alookup n fsb.services).isSome = true
      · rw [if_pos hx]
      · rw [if_neg hx]
  | some nd =>
      dsimp only
      cases nd with
      | file m => rfl
      | dir => rfl
      | link t =>
          dsimp only
          exact statT_hop fsa fsb 7 t hpar habsf (hup t he)

theorem statRoot_file {fs : FS} {n : String} {m : Nat}
    (h : alookup n fs.rootEntries = some (Node.file m)) :
    statRoot fs n = some m := by
  rw [statRoot, statT]
  rw [show destOf Loc.inRoot 0 = some Dest.droot from rfl]
  dsimp only
  rw [dirNode_droot, h]

theorem statRoot_rewrite {fsa fsb : FS} {nm p : String}
    (hpar : fsa.parentFiles = fsb.parentFiles)
    (habsf : fsa.absFiles = fsb.absFiles)
    (ha : alookup nm fsa.rootEntries = some (Node.link (LinkTarget.abs p)))
    (hb : alookup nm fsb.rootEntries = some (Node.link (LinkTarget.rel 1 nm)))
    (heq : alookup p fsa.absFiles = alookup nm fsa.parentFiles) :
    statRoot fsa nm = statRoot fsb nm := by
  rw [statRoot, statRoot, statT, statT]
  rw [show destOf Loc.inRoot 0 = some Dest.droot from rfl]
  dsimp only
  rw [dirNode_droot, dirNode_droot, ha, hb]
  dsimp only
  show statT fsa 7 Loc.inRoot (LinkTarget.abs p) =
    statT fsb 7 Loc.inRoot (LinkTarget.rel 1 nm)
  rw [statT_abs, heq, statT]
  rw [show destOf Loc.inRoot 1 = some Dest.dparent from rfl]
  dsimp only
  rw [dirNode_dparent, ← hpar]
  cases alookup nm fsa.parentFiles <;> rfl

theorem mtimesLeB_spec {fs : FS} {now : Nat} (h : mtimesLeB fs now = true) :
    (∀ q m, alookup q fs.parentFiles = some m → m ≤ now) ∧
    (∀ q m, alookup q fs.absFiles = some m → m ≤ now) ∧
    (∀ q m, alookup q fs.rootEntries = some (Node.file m) → m ≤ now) := by
  rw [mtimesLeB] at h
  obtain ⟨h12, h3⟩ := Bool.and_eq_true_iff.mp h
  obtain ⟨h1, h2⟩ := Bool.and_eq_true_iff.mp h12
  refine ⟨?_, ?_, ?_⟩
  · intro q m hq
    exact of_decide_eq_true (List.all_eq_true.mp h1 (q, m) (mem_of_alookup hq))
  · intro q m hq
    exact of_decide_eq_true (List.all_eq_true.mp h2 (q, m) (mem_of_alookup hq))
  · intro q m hq
    exact of_decide_eq_true (List.all_eq_true.mp h3 (q, Node.file m) (mem_of_alookup hq))

theorem statT_inRoot_le {fs : FS} {now : Nat} (h : mtimesLeB fs now = true) :
    ∀ fuel t m, statT fs fuel Loc.inRoot t = some m → m ≤ now := by
  obtain ⟨hp, ha, hr⟩ := mtimesLeB_spec h
  intro fuel
  induction fuel with
  | zero =>
      intro t m hst
      cases t with
      | abs p =>
          rw [statT_abs] at hst
          exact ha p m hst
      | rel ups q =>
          rw [statT] at hst
          cases hd : destOf Loc.inRoot ups with
          | none => rw [hd] at hst; cases hst
          | some d =>
              rw [hd] at hst
              dsimp only at hst
              rcases destOf_inRoot_cases hd with ⟨hd0, _⟩ | ⟨hd1, _⟩
              · subst hd0
                rw [dirNode_droot] at hst
                cases he : alookup q fs.rootEntries with
                | some nd =>
                    rw [he] at hst
                    cases nd with
                    | file m2 =>
                        injection hst with hst
                        rw [← hst]
                        exact hr q m2 he
                    | dir =>
                        injection hst with hst
                        rw [← hst]
                        exact Nat.zero_le now
                    | link t2 => dsimp only at hst; cases hst
                | none =>
                    rw [he] at hst
                    dsimp only at hst
                    by_cases hx : (alookup q fs.services).isSome = true
                    · rw [if_pos hx] at hst
                      injection hst with hst
                      rw [← hst]
                      exact Nat.zero_le now
                    · rw [if_neg hx] at hst
                      cases hst
              · subst hd1
                rw [dirNode_dparent] at hst
                cases he : alookup q fs.parentFiles with
                | some m2 =>
                    rw [he] at hst
                    injection hst with hst
                    rw [← hst]
                    exact hp q m2 he
                | none => rw [he] at hst; cases hst
  | succ f ih =>
      intro t m hst
      cases t with
      | abs p =>
          rw [statT_abs] at hst
          exact ha p m hst
      | rel ups q =>
          rw [statT] at hst
          cases hd : destOf Loc.inRoot ups with
          | none => rw [hd] at hst; cases hst
          | some d =>
              rw [hd] at hst
              dsimp only at hst
              rcases destOf_inRoot_cases hd with ⟨hd0, _⟩ | ⟨hd1, _⟩
              · subst hd0
                rw [dirNode_droot] at hst
                cases he : alookup q fs.rootEntries with
                | some nd =>
                    rw [he] at hst
                    cases nd with
                    | file m2 =>
                        injection hst with hst
                        rw [← hst]
                        exact hr q m2 he
                    | dir =>
                        injection hst with hst
                        rw [← hst]
                        exact Nat.zero_le now
                    | link t2 =>
                        dsimp only at hst
                        exact ih t2 m hst
                | none =>
                    rw [he] at hst
                    dsimp only at hst
                    by_cases hx : (alookup q fs.services).isSome = true
                    · rw [if_pos hx] at hst
                      injection hst with hst
                      rw [← hst]
                      exact Nat.zero_le now
                    · rw [if_neg hx] at hst
                      cases hst
              · subst hd1
                rw [dirNode_dparent] at hst
                cases he : alookup q fs.parentFiles with
                | some m2 =>
                    rw [he] at hst
                    injection hst with hst
                    rw [← hst]
                    exact hp q m2 he
                | none => rw [he] at hst; cases hst

theorem statRoot_le {fs : FS} {now : Nat} (h : mtimesLeB fs now = true)
    {n : String} {m : Nat} (hst : statRoot fs n = some m) : m ≤ now := by
  rw [statRoot] at hst
  exact statT_inRoot_le h FUEL (LinkTarget.rel 0 n) m hst

theorem find?_congr {p q : α → Bool} :
    ∀ {l : List α}, (∀ a ∈ l, p a = q a) → l.find? p = l.find? q := by
  intro l
  induction l with
  | nil => intro _; rfl
  | cons a rest ih =>
      intro h
      cases hpa : p a with
      | true =>
          rw [List.find?_cons_of_pos _ hpa,
            List.find?_cons_of_pos _ (by rw [← h a (List.mem_cons_self _ _)]; exact hpa)]
      | false =>
          rw [List.find?_cons_of_neg _ (by rw [hpa]; intro hc; cases hc),
            List.find?_cons_of_neg _ (by rw [← h a (List.mem_cons_self _ _), hpa]; intro hc; cases hc)]
          exact ih (fun b hb => h b (List.mem_cons_of_mem _ hb))

theorem largeName_mem (fs : FS) (n : String) (k : SKind) :
    largeName fs n k ∈ largeCandidates n k := by
  cases k with
  | raw =>
      rw [largeName, rawLargeName, largeCandidates]
      by_cases h1 : existsRoot fs (stemOf n ++ ".JPG")
      · rw [if_pos h1]
        exact List.mem_cons_self _ _
      · rw [if_neg h1]
        by_cases h2 : existsRoot fs (stemOf n ++ ".jpg")
        · rw [if_pos h2]
          exact List.mem_cons_of_mem _ (List.mem_cons_self _ _)
        · rw [if_neg h2]
          exact List.mem_cons_self _ _
  | jpeg =>
      rw [largeName, jpegLargeName, largeCandidates]
      cases hf : processedExts.find? (fun e => existsRoot fs (stemOf n ++ "_processed." ++ e)) with
      | some e =>
          dsimp only
          exact List.mem_append_left _
            (List.mem_map.mpr ⟨e, List.mem_of_find?_eq_some hf, rfl⟩)
      | none =>
          dsimp only
          exact List.mem_append_right _ (List.mem_cons_self _ _)

theorem largeName_congr {fsa fsb : FS} {n : String} {k : SKind}
    (h : ∀ c ∈ largeCandidates n k, existsRoot fsa c = existsRoot fsb c) :
    largeName fsa n k = largeName fsb n k := by
  cases k with
  | raw =>
      rw [largeName, largeName, rawLargeName, rawLargeName,
        h (stemOf n ++ ".JPG") (by rw [largeCandidates]; exact List.mem_cons_self _ _),
        h (stemOf n ++ ".jpg")
          (by rw [largeCandidates]; exact List.mem_cons_of_mem _ (List.mem_cons_self _ _))]
  | jpeg =>
      rw [largeName, largeName, jpegLargeName, jpegLargeName,
        find?_congr (fun e he => h (stemOf n ++ "_processed." ++ e)
          (by rw [largeCandidates]; exact List.mem_append_left _ (List.mem_map.mpr ⟨e, he, rfl⟩)))]

theorem smallAction_congr {fsa fsb : FS} {n : String} {k : SKind}
    (h2 : statRoot fsa (largeName fsa n k) = statRoot fsb (largeName fsb n k))
    (h3 : statRoot fsa (smallNameOf n) = statRoot fsb (smallNameOf n)) :
    smallAction fsa n k = smallAction fsb n k := by
  rw [smallAction, smallAction, h2, h3]

theorem noClashB_cand {srcs : List (String × SKind)} (h : noClashB srcs = true) :
    ∀ src ∈ srcs, ∀ src2 ∈ srcs, ∀ c ∈ largeCandidates src2.1 src2.2,
      smallNameOf src.1 ≠ c := by
  intro src hsrc src2 hsrc2 c hc
  have h1 := List.all_eq_true.mp h src hsrc
  have h2 := List.all_eq_true.mp h1 src2 hsrc2
  have h3 := (Bool.and_eq_true_iff.mp h2).2
  exact of_decide_eq_true (List.all_eq_true.mp h3 c hc)

theorem absMatchesB_spec {fs : FS} {srcs : List (String × SKind)}
    (h : absMatchesB fs srcs = true) :
    ∀ src ∈ srcs, ∀ p, alookup src.1 fs.rootEntries = some (Node.link (LinkTarget.abs p)) →
      alookup p fs.absFiles = alookup src.1 fs.parentFiles := by
  intro src hsrc p hp
  have hx := List.all_eq_true.mp h src hsrc
  rw [hp] at hx
  exact of_decide_eq_true hx

theorem filterMapSrc_aset_eq (n : String) (nd : Node) :
    ∀ (l : List (String × Node)),
    (alookup n l = none → classify nd n = none) →
    (∀ old, alookup n l = some old → classify nd n = classify old n) →
    (aset n nd l).filterMap (fun e => (classify e.2 e.1).map (fun k => (e.1, k))) =
      l.filterMap (fun e => (classify e.2 e.1).map (fun k => (e.1, k))) := by
  intro l
  induction l with
  | nil =>
      intro hnone _
      rw [aset]
      have h0 := hnone rfl
      simp [h0]
  | cons e rest ih =>
      intro hnone hsome
      obtain ⟨k, v⟩ := e
      rw [aset]
      by_cases hk : k = n
      · rw [if_pos hk]
        subst hk
        have hv : alookup k ((k, v) :: rest) = some v := by
          rw [alookup, if_pos rfl]
        have hcl := hsome v hv
        rw [List.filterMap_cons, List.filterMap_cons, hcl]
      · rw [if_neg hk]
        rw [List.filterMap_cons, List.filterMap_cons]
        have hrest : alookup n rest = alookup n ((k, v) :: rest) := by
          rw [alookup, if_neg hk]
        rw [ih (fun h0 => hnone (by rw [← hrest]; exact h0))
          (fun old h0 => hsome old (by rw [← hrest]; exact h0))]

theorem scanSources_upsert {fs : FS} {n : String} {nd : Node}
    (hnone : alookup n fs.rootEntries = none → classify nd n = none)
    (hsome : ∀ old, alookup n fs.rootEntries = some old → classify nd n = classify old n) :
    scanSources (upsertRoot fs n nd) = scanSources fs := by
  rw [scanSources, scanSources, upsertRoot]
  exact filterMapSrc_aset_eq n nd fs.rootEntries hnone hsome

theorem scanSources_createMissing (now : Nat) :
    ∀ (srcs : List (String × SKind)) (fs : FS),
    (∀ src ∈ srcs, optFileOrNone (alookup (smallNameOf src.1) fs.rootEntries) = true) →
    scanSources (createMissingSmallImages now fs srcs) = scanSources fs := by
  intro srcs
  induction srcs with
  | nil => intro fs _; rfl
  | cons src rest ih =>
      intro fs hplain
      rw [createMissingSmallImages, List.foldl_cons]
      rw [show List.foldl (createSmallStep now) (createSmallStep now fs src) rest =
        createMissingSmallImages now (createSmallStep now fs src) rest from rfl]
      have hplainw := hplain src (List.mem_cons_self _ _)
      have hstep : scanSources (createSmallStep now fs src) = scanSources fs ∧
          ∀ m, optFileOrNone (alookup m (createSmallStep now fs src).rootEntries) =
            optFileOrNone (alookup m fs.rootEntries) ∨
            alookup m (createSmallStep now fs src).rootEntries = some (Node.file now) := by
        rw [createSmallStep]
        cases smallAction fs src.1 src.2 with
        | none => exact ⟨rfl, fun m => Or.inl rfl⟩
        | some a =>
            dsimp only
            constructor
            · refine scanSources_upsert (fun _ => rfl) ?_
              intro old hold
              rw [hold] at hplainw
              cases old with
              | file m2 => rfl
              | dir => cases hplainw
              | link t => cases hplainw
            · intro m
              rw [upsertRoot]
              dsimp only
              rw [alookup_aset]
              by_cases hm : smallNameOf src.1 = m
              · rw [if_pos hm]
                exact Or.inr rfl
              · rw [if_neg hm]
                exact Or.inl rfl
      rw [ih (createSmallStep now fs src) ?_, hstep.1]
      intro src2 hsrc2
      rcases hstep.2 (smallNameOf src2.1) with heq | hnow
      · rw [heq]
        exact hplain src2 (List.mem_cons_of_mem _ hsrc2)
      · rw [hnow]
        rfl

theorem scanSources_fixupSource :
    ∀ (srcs : List (String × SKind)) (fs fs' : FS),
    fixupSourcePhotosLinks fs srcs = .ok fs' →
    scanSources fs' = scanSources fs := by
  intro srcs
  induction srcs with
  | nil =>
      intro fs fs' h
      injection h with h
      rw [h]
  | cons src rest ih =>
      intro fs fs' h
      rw [fixupSourcePhotosLinks, List.foldlM_cons] at h
      cases hstep : fixupOneSource fs src with
      | error e =>
          rw [hstep] at h
          cases h
      | ok fsb =>
          rw [hstep] at h
          have hrest : fixupSourcePhotosLinks fsb rest = .ok fs' := h
          have hb : scanSources fsb = scanSources fs := by
            rw [fixupOneSource] at hstep
            cases he : alookup src.1 fs.rootEntries with
            | none => rw [he] at hstep; cases hstep
            | some nd =>
                rw [he] at hstep
                cases nd with
                | file m => cases hstep
                | dir => cases hstep
                | link t =>
                    cases t with
                    | abs p =>
                        dsimp only at hstep
                        injection hstep with hstep
                        rw [← hstep]
                        refine scanSources_upsert (fun h0 => by rw [h0] at he; cases he) ?_
                        intro old hold
                        rw [he] at hold
                        injection hold with hold
                        rw [← hold]
                        rfl
                    | rel ups q =>
                        dsimp only at hstep
                        injection hstep with hstep
                        rw [← hstep]
          rw [ih fsb fs' hrest, hb]

theorem filterKeys_eq (pub : List (String × Node)) :
    (pub.filter (fun e => smallGlob e.1)).map (·.1) =
      (akeys pub).filter (fun n => smallGlob n) := by
  induction pub with
  | nil => rfl
  | cons e rest ih =>
      rw [show akeys (e :: rest) = e.1 :: akeys rest from rfl]
      cases hg : smallGlob e.1 with
      | true => simp [List.filter_cons, hg, ih]
      | false => simp [List.filter_cons, hg, ih]

theorem managedNames_congr {fsa fsb : FS} {s : String}
    (hsh : svcShape (alookup s fsa.services) = svcShape (alookup s fsb.services))
    (hk : Option.map akeys (pubList fsa s) = Option.map akeys (pubList fsb s)) :
    managedNames fsa s = managedNames fsb s := by
  rw [managedNames, managedNames]
  cases ha : alookup s fsa.services with
  | none =>
      cases hb : alookup s fsb.services with
      | none => rfl
      | some sdb =>
          rw [ha, hb] at hsh
          simp [svcShape] at hsh
  | some sda =>
      cases hb : alookup s fsb.services with
      | none =>
          rw [ha, hb] at hsh
          simp [svcShape] at hsh
      | some sdb =>
          rw [ha, hb] at hsh
          simp only [svcShape, Option.map] at hsh
          injection hsh with hsh
          have hent : sda.entries = sdb.entries := congrArg Prod.fst hsh
          have hk2 : Option.map akeys sda.published = Option.map akeys sdb.published := by
            rw [pubList, pubList, ha, hb] at hk
            exact hk
          dsimp only
          rw [hent]
          have htail : (match sda.published with
              | some pub => (pub.filter (fun (e : String × Node) => smallGlob e.1)).map (fun (e : String × Node) => e.1)
              | none => ([] : List String)) = (match sdb.published with
              | some pub => (pub.filter (fun (e : String × Node) => smallGlob e.1)).map (fun (e : String × Node) => e.1)
              | none => ([] : List String)) := by
            cases hpa : sda.published with
            | none =>
                cases hpb : sdb.published with
                | none => rfl
                | some pubb =>
                    rw [hpa, hpb] at hk2
                    cases hk2
            | some puba =>
                cases hpb : sdb.published with
                | none =>
                    rw [hpa, hpb] at hk2
                    cases hk2
                | some pubb =>
                    rw [hpa, hpb] at hk2
                    dsimp only [Option.map] at hk2
                    injection hk2 with hk2
                    dsimp only
                    rw [filterKeys_eq, filterKeys_eq, hk2]
          rw [htail]

theorem ensureService_id {fs : FS} {s : String}
    (h1 : svcExists fs s = true) (h2 : pubExists fs s = true) :
    ensureService fs s = fs := by
  rw [ensureService, if_pos h1, ensurePub, if_pos h2]

theorem addMissingSubdirs_id {cfg : List String} :
    ∀ {fs : FS}, (∀ s ∈ cfg, svcExists fs s = true ∧ pubExists fs s = true) →
    addMissingSubdirs cfg fs = fs := by
  induction cfg with
  | nil => intro fs _; rfl
  | cons s rest ih =>
      intro fs h
      rw [addMissingSubdirs, List.foldl_cons,
        ensureService_id (h s (List.mem_cons_self _ _)).1 (h s (List.mem_cons_self _ _)).2]
      exact ih (fun u hu => h u (List.mem_cons_of_mem _ hu))

theorem createMissing_id {now : Nat} :
    ∀ {srcs : List (String × SKind)} {fs : FS},
    (∀ src ∈ srcs, smallAction fs src.1 src.2 = none) →
    createMissingSmallImages now fs srcs = fs := by
  intro srcs
  induction srcs with
  | nil => intro fs _; rfl
  | cons src rest ih =>
      intro fs h
      rw [createMissingSmallImages, List.foldl_cons]
      have hstep : createSmallStep now fs src = fs := by
        rw [createSmallStep, h src (List.mem_cons_self _ _)]
      rw [hstep]
      exact ih (fun src2 h2 => h src2 (List.mem_cons_of_mem _ h2))

theorem fixupSource_id :
    ∀ {srcs : List (String × SKind)} {fs : FS},
    (∀ src ∈ srcs, ∃ ups q, alookup src.1 fs.rootEntries =
      some (Node.link (LinkTarget.rel ups q))) →
    fixupSourcePhotosLinks fs srcs = .ok fs := by
  intro srcs
  induction srcs with
  | nil => intro fs _; rfl
  | cons src rest ih =>
      intro fs h
      obtain ⟨ups, q, hq⟩ := h src (List.mem_cons_self _ _)
      rw [fixupSourcePhotosLinks, List.foldlM_cons]
      rw [show fixupOneSource fs src = .ok fs by rw [fixupOneSource, hq]]
      rw [bindOk]
      exact ih (fun src2 h2 => h src2 (List.mem_cons_of_mem _ h2))

theorem foldPub_id :
    ∀ {pairs : List (String × String)} {fs : FS},
    (∀ pr ∈ pairs, fixupOnePub fs pr = .ok fs) →
    pairs.foldlM fixupOnePub fs = .ok fs := by
  intro pairs
  induction pairs with
  | nil => intro fs _; rfl
  | cons pr rest ih =>
      intro fs h
      rw [List.foldlM_cons, h pr (List.mem_cons_self _ _), bindOk]
      exact ih (fun q hq => h q (List.mem_cons_of_mem _ hq))

theorem setPubEntry_same {fs : FS} {s n : String} {nd : Node}
    (h : pubNodeOf fs s n = some nd) : setPubEntry fs s n nd = fs := by
  rw [pubNodeOf] at h
  rw [setPubEntry]
  cases hs : alookup s fs.services with
  | none => rfl
  | some sd =>
      rw [hs] at h
      dsimp only at h
      dsimp only
      cases hpub : sd.published with
      | none => rfl
      | some pub =>
          rw [hpub] at h
          dsimp only at h
          dsimp only
          rw [aset_self n nd pub h]
          have hsd : { sd with published := some pub } = sd := by
            rw [← hpub]
          rw [hsd, aset_self s sd fs.services hs]

theorem all_aset {p : String × α → Bool} (w : String) (v : α) :
    ∀ {l : List (String × α)}, l.all p = true → p (w, v) = true →
    (aset w v l).all p = true := by
  intro l
  induction l with
  | nil =>
      intro _ hp
      rw [aset]
      simp [hp]
  | cons e rest ih =>
      intro hall hp
      obtain ⟨k, x⟩ := e
      rw [aset]
      rw [List.all_cons] at hall
      obtain ⟨h1, h2⟩ := Bool.and_eq_true_iff.mp hall
      by_cases hk : k = w
      · rw [if_pos hk]
        simp [hp, h2]
      · rw [if_neg hk]
        simp [h1, ih h2 hp]

theorem mtimesLe_upsert_file {fs : FS} {now : Nat} {w : String} {m : Nat}
    (h : mtimesLeB fs now = true) (hm : m ≤ now) :
    mtimesLeB (upsertRoot fs w (Node.file m)) now = true := by
  rw [mtimesLeB] at h ⊢
  rw [upsertRoot]
  obtain ⟨h12, h3⟩ := Bool.and_eq_true_iff.mp h
  obtain ⟨h1, h2⟩ := Bool.and_eq_true_iff.mp h12
  dsimp only
  rw [h1, h2]
  simp only [Bool.true_and]
  exact all_aset w (Node.file m) h3 (by simp [hm])

theorem alookup_upsert (fs : FS) (w : String) (nd : Node) (c : String) :
    alookup c (upsertRoot fs w nd).rootEntries =
      if w = c then some nd else alookup c fs.rootEntries := by
  rw [upsertRoot]
  dsimp only
  rw [alookup_aset]

theorem statRoot_upsert_other {fs : FS} {w : String} {nd : Node} {c : String}
    (hne : ¬ w = c)
    (hup : ∀ t, alookup c fs.rootEntries = some (Node.link t) →
      nodeLinkUp (Node.link t) = true) :
    statRoot (upsertRoot fs w nd) c = statRoot fs c := by
  refine statRoot_local rfl rfl ?_ rfl ?_
  · rw [alookup_upsert, if_neg hne]
  · intro t ht
    rw [alookup_upsert, if_neg hne] at ht
    exact hup t ht

theorem linkUp_upsert_file {fs : FS} {w : String} {m : Nat}
    (hup : ∀ q t, alookup q fs.rootEntries = some (Node.link t) →
      nodeLinkUp (Node.link t) = true) :
    ∀ q t, alookup q (upsertRoot fs w (Node.file m)).rootEntries =
      some (Node.link t) → nodeLinkUp (Node.link t) = true := by
  intro q t hq
  rw [alookup_upsert] at hq
  by_cases hw : w = q
  · rw [if_pos hw] at hq
    cases hq
  · rw [if_neg hw] at hq
    exact hup q t hq

theorem smallAction_after_write {fs : FS} {now : Nat} {nm w : String} {k : SKind}
    (hcand : ∀ c ∈ largeCandidates nm k, ¬ w = c)
    (hup : ∀ q t, alookup q fs.rootEntries = some (Node.link t) →
      nodeLinkUp (Node.link t) = true)
    (hmt : mtimesLeB fs now = true) :
    smallAction (upsertRoot fs w (Node.file now)) nm k = none ∨
      smallAction (upsertRoot fs w (Node.file now)) nm k = smallAction fs nm k := by
  have hstatc : ∀ c ∈ largeCandidates nm k,
      statRoot (upsertRoot fs w (Node.file now)) c = statRoot fs c := by
    intro c hc
    exact statRoot_upsert_other (hcand c hc) (hup c)
  have hlarge : largeName (upsertRoot fs w (Node.file now)) nm k = largeName fs nm k :=
    largeName_congr (fun c hc => by rw [existsRoot, existsRoot, hstatc c hc])
  have hstatl : statRoot (upsertRoot fs w (Node.file now))
      (largeName (upsertRoot fs w (Node.file now)) nm k) =
      statRoot fs (largeName fs nm k) := by
    rw [hlarge]
    exact hstatc (largeName fs nm k) (largeName_mem fs nm k)
  by_cases hw : w = smallNameOf nm
  · left
    rw [smallAction, hstatl]
    cases hl : statRoot fs (largeName fs nm k) with
    | none => rfl
    | some lm =>
        dsimp only
        have hsm : statRoot (upsertRoot fs w (Node.file now)) (smallNameOf nm) = some now := by
          refine statRoot_file ?_
          rw [alookup_upsert, if_pos hw]
        rw [hsm]
        dsimp only
        rw [if_neg ?_]
        intro hlt
        exact absurd (statRoot_le hmt hl) (Nat.not_le_of_lt hlt)
  · right
    refine smallAction_congr hstatl ?_
    exact statRoot_upsert_other hw (hup (smallNameOf nm))

theorem smallAction_none_fold {now : Nat} {srcsAll : List (String × SKind)}
    (hclash : noClashB srcsAll = true) :
    ∀ (rest : List (String × SKind)) (fs : FS) (nm : String) (k : SKind),
    (nm, k) ∈ srcsAll → (∀ src ∈ rest, src ∈ srcsAll) →
    (∀ q t, alookup q fs.rootEntries = some (Node.link t) →
      nodeLinkUp (Node.link t) = true) →
    mtimesLeB fs now = true →
    smallAction fs nm k = none →
    smallAction (createMissingSmallImages now fs rest) nm k = none := by
  intro rest
  induction rest with
  | nil =>
      intro fs nm k _ _ _ _ h
      exact h
  | cons src rest2 ih =>
      intro fs nm k hmem hsub hup hmt hnone
      rw [createMissingSmallImages, List.foldl_cons]
      rw [show List.foldl (createSmallStep now) (createSmallStep now fs src) rest2 =
        createMissingSmallImages now (createSmallStep now fs src) rest2 from rfl]
      cases ha : smallAction fs src.1 src.2 with
      | none =>
          have hid : createSmallStep now fs src = fs := by
            rw [createSmallStep, ha]
          rw [hid]
          exact ih fs nm k hmem (fun s hs => hsub s (List.mem_cons_of_mem _ hs)) hup hmt hnone
      | some a =>
          have hid : createSmallStep now fs src =
              upsertRoot fs (smallNameOf src.1) (Node.file now) := by
            rw [createSmallStep, ha]
          rw [hid]
          have hnone2 : smallAction (upsertRoot fs (smallNameOf src.1) (Node.file now))
              nm k = none := by
            rcases smallAction_after_write
              (fun c hc => noClashB_cand hclash src (hsub src (List.mem_cons_self _ _))
                (nm, k) hmem c hc) hup hmt with h | h
            · exact h
            · rw [h]
              exact hnone
          exact ih (upsertRoot fs (smallNameOf src.1) (Node.file now)) nm k hmem
            (fun s hs => hsub s (List.mem_cons_of_mem _ hs))
            (linkUp_upsert_file hup) (mtimesLe_upsert_file hmt (Nat.le_refl now)) hnone2

theorem createMissing_decisions {now : Nat} {srcsAll : List (String × SKind)}
    (hclash : noClashB srcsAll = true) :
    ∀ (srcs : List (String × SKind)) (fs : FS),
    (∀ src ∈ srcs, src ∈ srcsAll) →
    (∀ q t, alookup q fs.rootEntries = some (Node.link t) →
      nodeLinkUp (Node.link t) = true) →
    mtimesLeB fs now = true →
    ∀ src ∈ srcs, smallAction (createMissingSmallImages now fs srcs) src.1 src.2 = none := by
  intro srcs
  induction srcs with
  | nil =>
      intro fs _ _ _ src hsrc
      cases hsrc
  | cons src rest ih =>
      intro fs hsub hup hmt src2 hsrc2
      rw [createMissingSmallImages, List.foldl_cons]
      rw [show List.foldl (createSmallStep now) (createSmallStep now fs src) rest =
        createMissingSmallImages now (createSmallStep now fs src) rest from rfl]
      have hselfcand : ∀ c ∈ largeCandidates src.1 src.2, ¬ smallNameOf src.1 = c :=
        fun c hc => noClashB_cand hclash src (hsub src (List.mem_cons_self _ _))
          src (hsub src (List.mem_cons_self _ _)) c hc
      have hstep : (createSmallStep now fs src = fs ∧ smallAction fs src.1 src.2 = none) ∨
          (createSmallStep now fs src = upsertRoot fs (smallNameOf src.1) (Node.file now)) := by
        cases ha : smallAction fs src.1 src.2 with
        | none => exact Or.inl ⟨by rw [createSmallStep, ha], rfl⟩
        | some a => exact Or.inr (by rw [createSmallStep, ha])
      have hproc : smallAction (createSmallStep now fs src) src.1 src.2 = none := by
        rcases hstep with ⟨hid, hnone⟩ | hwrite
        · rw [hid]
          exact hnone
        · rw [hwrite]
          have hstatc : ∀ c ∈ largeCandidates src.1 src.2,
              statRoot (upsertRoot fs (smallNameOf src.1) (Node.file now)) c =
                statRoot fs c := by
            intro c hc
            exact statRoot_upsert_other (hselfcand c hc) (hup c)
          have hlarge : largeName (upsertRoot fs (smallNameOf src.1) (Node.file now))
              src.1 src.2 = largeName fs src.1 src.2 :=
            largeName_congr (fun c hc => by rw [existsRoot, existsRoot, hstatc c hc])
          rw [smallAction, hlarge, hstatc (largeName fs src.1 src.2)
            (largeName_mem fs src.1 src.2)]
          cases hl : statRoot fs (largeName fs src.1 src.2) with
          | none => rfl
          | some lm =>
              dsimp only
              have hsm : statRoot (upsertRoot fs (smallNameOf src.1) (Node.file now))
                  (smallNameOf src.1) = some now := by
                refine statRoot_file ?_
                rw [alookup_upsert, if_pos rfl]
              rw [hsm]
              dsimp only
              rw [if_neg ?_]
              intro hlt
              exact absurd (statRoot_le hmt hl) (Nat.not_le_of_lt hlt)
      have hinv : (∀ q t, alookup q (createSmallStep now fs src).rootEntries =
            some (Node.link t) → nodeLinkUp (Node.link t) = true) ∧
          mtimesLeB (createSmallStep now fs src) now = true := by
        rcases hstep with ⟨hid, _⟩ | hwrite
        · rw [hid]
          exact ⟨hup, hmt⟩
        · rw [hwrite]
          exact ⟨linkUp_upsert_file hup, mtimesLe_upsert_file hmt (Nat.le_refl now)⟩
      rcases List.mem_cons.mp hsrc2 with hq | hq
      · subst hq
        exact smallAction_none_fold hclash rest (createSmallStep now fs src2) src2.1 src2.2
          (by rw [show (src2.1, src2.2) = src2 from rfl]; exact hsub src2 (List.mem_cons_self _ _))
          (fun s hs => hsub s (List.mem_cons_of_mem _ hs)) hinv.1 hinv.2 hproc
      · exact ih (createSmallStep now fs src)
          (fun s hs => hsub s (List.mem_cons_of_mem _ hs)) hinv.1 hinv.2 src2 hq

theorem rootLinksUpB_spec {fs : FS} (h : rootLinksUpB fs = true) :
    ∀ q nd, alookup q fs.rootEntries = some nd → nodeLinkUp nd = true :=
  fun _ nd hq => List.all_eq_true.mp h (_, nd) (mem_of_alookup hq)

theorem filterMap_congr2 {f g : α → Option β} :
    ∀ {l : List α}, (∀ a ∈ l, f a = g a) → l.filterMap f = l.filterMap g := by
  intro l
  induction l with
  | nil => intro _; rfl
  | cons a rest ih =>
      intro h
      rw [List.filterMap_cons, List.filterMap_cons, h a (List.mem_cons_self _ _),
        ih (fun b hb => h b (List.mem_cons_of_mem _ hb))]

theorem allSmallNames_congr {fsa fsb : FS} {srcs : List (String × SKind)}
    (h : ∀ src ∈ srcs, existsRoot fsa (smallNameOf src.1) =
      existsRoot fsb (smallNameOf src.1)) :
    allSmallNames fsa srcs = allSmallNames fsb srcs := by
  rw [allSmallNames, allSmallNames]
  rw [filterMap_congr2 (fun src hsrc => by rw [h src hsrc])]

theorem newSmallImages_mem_intro {cfg : List String} {fs : FS}
    {srcs : List (String × SKind)} {s : String} (hs : s ∈ cfg)
    (hex : svcExists fs s = true)
    (hne : (allSmallNames fs srcs).filter
      (fun n => decide (n ∉ managedNames fs s)) ≠ []) :
    (s, (allSmallNames fs srcs).filter (fun n => decide (n ∉ managedNames fs s))) ∈
      newSmallImages cfg fs srcs := by
  rw [newSmallImages]
  refine List.mem_filterMap.mpr ⟨s, hs, ?_⟩
  rw [if_pos hex, if_neg hne]

theorem newSmallImages_nil {cfg : List String} {fs : FS} {srcs : List (String × SKind)}
    (h : ∀ s ∈ cfg, svcExists fs s = true →
      (allSmallNames fs srcs).filter (fun n => decide (n ∉ managedNames fs s)) = []) :
    newSmallImages cfg fs srcs = [] := by
  rw [newSmallImages]
  refine List.filterMap_eq_nil_iff.mpr ?_
  intro s hs
  by_cases hex : svcExists fs s = true
  · rw [if_pos hex, if_pos (h s hs hex)]
  · rw [if_neg hex]

theorem svcShape_isSome {a b : Option SvcDir} (h : svcShape a = svcShape b) :
    a.isSome = b.isSome := by
  cases a <;> cases b <;> simp [svcShape] at h ⊢

/-- C1 (amended): the six-step fixup sequence is not idempotent on every
state (`c1_counterexample`): the link-repair step runs after the
preview-materialization step, so a dead absolute source link that is
rewritten to a resolving `../name` makes the second run materialize new
previews.  Idempotence does hold for every well-formed state in which each
absolute source target denotes the same file as its `../name` rewrite
(`absMatchesB`), no recorded modification time lies in the future
(`mtimesLeB`), root links point out of the root, previews are plain files,
preview names collide with no source or large-candidate name, published
directories are well-formed, and no configured service name is shadowed
by a root entry nor any service directory by a plain `published` entry
(`cfgFreshB`, the domain on which the model's service-map existence
checks coincide with the code's `Path.exists` checks on the tree): then
the first run succeeds and a second run (at any later clock) returns
exactly the first run's tree. -/
theorem c1_fixup_idempotent (cfg : List String) (now now2 : Nat) (fs : FS)
    (hcfg : cfg.Nodup)
    (hroot : (akeys fs.rootEntries).Nodup)
    (hpub : pubOkB fs = true)
    (hupl : rootLinksUpB fs = true)
    (hplain : smallsPlainB fs (scanSources fs) = true)
    (hclash : noClashB (scanSources fs) = true)
    (hmt : mtimesLeB fs now = true)
    (habsm : absMatchesB fs (scanSources fs) = true)
    (hfresh : cfgFreshB fs cfg = true) :
    ∃ fs', actionFixup cfg now fs = .ok fs' ∧ actionFixup cfg now2 fs' = .ok fs' := by
  obtain ⟨fs3, hrun3, hp3, ha3, hr3, hunt3, hset3⟩ :=
    addNewSmallFiles_spec cfg
      (createMissingSmallImages now (addMissingSubdirs cfg fs) (scanSources fs))
      (scanSources fs) hcfg
  have hfr1 := addMissingSubdirs_frame cfg fs
  have hfr2 := createMissingSmallImages_frame now (scanSources fs) (addMissingSubdirs cfg fs)
  have hsrc2 : ∀ nm k, (nm, k) ∈ scanSources fs →
      alookup nm (createMissingSmallImages now (addMissingSubdirs cfg fs)
        (scanSources fs)).rootEntries = alookup nm fs.rootEntries := by
    intro nm k h
    rw [hfr2.2.2.2.1 nm (fun src hsrc => noClashB_spec hclash src hsrc (nm, k) h), hfr1.2.2]
  have hsrclink3 : ∀ e ∈ scanSources fs, ∃ t,
      alookup e.1 fs3.rootEntries = some (Node.link t) := by
    intro e he
    obtain ⟨t, ht, _⟩ := scanSources_entry hroot
      (show (e.1, e.2) ∈ scanSources fs from he)
    exact ⟨t, by rw [hr3, hsrc2 e.1 e.2 he, ht]⟩
  obtain ⟨fs4, hrun4, hp4, ha4, hsvc4, habs4, hrel4, hunt4, hall4⟩ :=
    fixupSourcePhotosLinks_spec (scanSources fs) fs3 hsrclink3
  have hpl4f : ∀ u, pubList fs4 u =
      if u ∈ cfg then some ((pubList fs u).getD []) else pubList fs u := by
    intro u
    have hpl4 : pubList fs4 u = pubList fs3 u := pubList_congr_services hsvc4 u
    have hpl3 : pubList fs3 u =
        pubList (createMissingSmallImages now (addMissingSubdirs cfg fs) (scanSources fs)) u := by
      by_cases hex : ∃ ns, (u, ns) ∈ newSmallImages cfg
          (createMissingSmallImages now (addMissingSubdirs cfg fs) (scanSources fs))
          (scanSources fs)
      · obtain ⟨ns, hns⟩ := hex
        obtain ⟨sd, hsd, _, _⟩ := newSmallImages_conditions cfg
          (createMissingSmallImages now (addMissingSubdirs cfg fs) (scanSources fs))
          (scanSources fs) (u, ns) hns
        rw [pubList, pubList, hset3 u ns hns sd hsd, hsd]
      · push_neg at hex
        rw [pubList, pubList, hunt3 u hex]
    have hpl2 : pubList (createMissingSmallImages now (addMissingSubdirs cfg fs)
        (scanSources fs)) u = pubList (addMissingSubdirs cfg fs) u :=
      pubList_congr_services hfr2.2.2.1 u
    rw [hpl4, hpl3, hpl2, addMissingSubdirs_pubList cfg fs u hcfg]
  have hok5 : ∀ pr ∈ publishedSmall cfg fs4, ∃ t,
      pubNodeOf fs4 pr.1 pr.2 = some (Node.link t) ∧
      nodeLinkOk (Node.link t) = true := by
    intro pr hpr
    obtain ⟨hscfg, pub4, hpub4, e, he, hen, hglob⟩ := mem_publishedSmall.mp hpr
    have hpub4e := hpub4
    rw [hpl4f pr.1, if_pos hscfg] at hpub4e
    injection hpub4e with hpub4e
    cases hpl : pubList fs pr.1 with
    | none =>
        rw [hpl] at hpub4e
        rw [← hpub4e] at he
        simp at he
    | some pub =>
        rw [hpl] at hpub4e
        have hpp : pub = pub4 := hpub4e
        obtain ⟨hnd0, hlinks⟩ := pubOkB_spec hpub hpl
        have hee : e ∈ pub := by rw [hpp]; exact he
        have hlink := hlinks e hee (by rw [hen]; exact hglob)
        cases hnode : e.2 with
        | file m => rw [hnode] at hlink; cases hlink
        | dir => rw [hnode] at hlink; cases hlink
        | link t =>
            refine ⟨t, ?_, by rw [← hnode]; exact hlink⟩
            rw [pubNodeOf_eq_pubList, hpub4, ← hpp]
            dsimp only
            have hmem : (pr.2, Node.link t) ∈ pub := by
              rw [← hen, ← hnode]
              exact hee
            exact alookup_of_mem_nodup hnd0 hmem
  have hnd5 : (publishedSmall cfg fs4).Nodup := by
    refine publishedSmall_nodup hcfg ?_
    intro s pub hp
    rw [hpl4f s] at hp
    by_cases hs : s ∈ cfg
    · rw [if_pos hs] at hp
      injection hp with hp
      cases hpl : pubList fs s with
      | none =>
          rw [hpl] at hp
          rw [← hp]
          exact List.nodup_nil
      | some pub0 =>
          rw [hpl] at hp
          have hx : pub0 = pub := hp
          rw [← hx]
          exact (pubOkB_spec hpub hpl).1
    · rw [if_neg hs] at hp
      exact (pubOkB_spec hpub hp).1
  obtain ⟨fs5, hrun5, hp5, ha5, hr5, hsvc5, hproc5, hunt5, hkeys5⟩ :=
    fixupPublishedLinks_spec cfg fs4 hok5 hnd5
  have hpf25 : (createMissingSmallImages now (addMissingSubdirs cfg fs)
      (scanSources fs)).parentFiles = fs5.parentFiles := by
    rw [hp5, hp4, hp3]
  have haf25 : (createMissingSmallImages now (addMissingSubdirs cfg fs)
      (scanSources fs)).absFiles = fs5.absFiles := by
    rw [ha5, ha4, ha3]
  have hs23 : ∀ u, (alookup u fs3.services).isSome =
      (alookup u (createMissingSmallImages now (addMissingSubdirs cfg fs)
        (scanSources fs)).services).isSome := by
    intro u
    by_cases hex : ∃ ns, (u, ns) ∈ newSmallImages cfg
        (createMissingSmallImages now (addMissingSubdirs cfg fs) (scanSources fs))
        (scanSources fs)
    · obtain ⟨ns, hns⟩ := hex
      obtain ⟨sd, hsd, _, _⟩ := newSmallImages_conditions cfg
        (createMissingSmallImages now (addMissingSubdirs cfg fs) (scanSources fs))
        (scanSources fs) (u, ns) hns
      rw [hset3 u ns hns sd hsd, hsd]
      rfl
    · push_neg at hex
      rw [hunt3 u hex]
  have hsome25 : ∀ u, (alookup u fs5.services).isSome =
      (alookup u (createMissingSmallImages now (addMissingSubdirs cfg fs)
        (scanSources fs)).services).isSome := by
    intro u
    rw [svcShape_isSome (hsvc5 u), hsvc4]
    exact hs23 u
  have hlinkup2 : ∀ q t, alookup q (createMissingSmallImages now (addMissingSubdirs cfg fs)
      (scanSources fs)).rootEntries = some (Node.link t) →
      nodeLinkUp (Node.link t) = true := by
    intro q t hq
    rcases hfr2.2.2.2.2.1 q with heq | hfile
    · rw [heq, hfr1.2.2] at hq
      exact rootLinksUpB_spec hupl q _ hq
    · rw [hfile] at hq
      cases hq
  have hstat25 : ∀ c, (∀ src ∈ scanSources fs, ¬ smallNameOf src.1 = c) →
      statRoot fs5 c = statRoot (createMissingSmallImages now (addMissingSubdirs cfg fs)
        (scanSources fs)) c := by
    intro c hnsmall
    by_cases hsrc : ∃ k2, (c, k2) ∈ scanSources fs
    · obtain ⟨k2, hk2⟩ := hsrc
      obtain ⟨t, ht, _⟩ := scanSources_entry hroot hk2
      have h2c : alookup c (createMissingSmallImages now (addMissingSubdirs cfg fs)
          (scanSources fs)).rootEntries = some (Node.link t) := by
        rw [hsrc2 c k2 hk2, ht]
      cases t with
      | abs p =>
          have h4c : alookup c fs4.rootEntries = some (Node.link (LinkTarget.rel 1 c)) :=
            habs4 c p ⟨k2, hk2⟩ (by rw [hr3]; exact h2c)
          have h5c : alookup c fs5.rootEntries = some (Node.link (LinkTarget.rel 1 c)) := by
            rw [hr5]
            exact h4c
          refine (statRoot_rewrite hpf25 haf25 h2c h5c ?_).symm
          have hx := absMatchesB_spec habsm (c, k2) hk2 p ht
          rw [hfr2.2.1, hfr1.2.1, hfr2.1, hfr1.1]
          exact hx
      | rel ups q =>
          have h4c : alookup c fs4.rootEntries = some (Node.link (LinkTarget.rel ups q)) :=
            hrel4 c ups q (by rw [hr3]; exact h2c)
          have h5c : alookup c fs5.rootEntries = some (Node.link (LinkTarget.rel ups q)) := by
            rw [hr5]
            exact h4c
          refine statRoot_local hpf25.symm haf25.symm (by rw [h5c, h2c]) (hsome25 c) ?_
          intro t2 ht2
          rw [h5c] at ht2
          injection ht2 with ht2
          rw [← ht2]
          exact rootLinksUpB_spec hupl c _ ht
    · push_neg at hsrc
      have hec : alookup c fs5.rootEntries = alookup c (createMissingSmallImages now
          (addMissingSubdirs cfg fs) (scanSources fs)).rootEntries := by
        rw [hr5, hunt4 c hsrc, hr3]
      refine statRoot_local hpf25.symm haf25.symm hec (hsome25 c) ?_
      intro t2 ht2
      rw [hec] at ht2
      exact hlinkup2 c t2 ht2
  have hstatw25 : ∀ src ∈ scanSources fs, statRoot fs5 (smallNameOf src.1) =
      statRoot (createMissingSmallImages now (addMissingSubdirs cfg fs)
        (scanSources fs)) (smallNameOf src.1) := by
    intro src hsrc
    have hw : ∀ k2, (smallNameOf src.1, k2) ∉ scanSources fs := by
      intro k2 hk2
      exact noClashB_spec hclash src hsrc (smallNameOf src.1, k2) hk2 rfl
    have hec : alookup (smallNameOf src.1) fs5.rootEntries =
        alookup (smallNameOf src.1) (createMissingSmallImages now
          (addMissingSubdirs cfg fs) (scanSources fs)).rootEntries := by
      rw [hr5, hunt4 _ hw, hr3]
    refine statRoot_local hpf25.symm haf25.symm hec (hsome25 _) ?_
    intro t2 ht2
    rw [hec] at ht2
    exact hlinkup2 _ t2 ht2
  have hmt1 : mtimesLeB (addMissingSubdirs cfg fs) now = true := by
    rw [mtimesLeB] at hmt ⊢
    rw [hfr1.1, hfr1.2.1, hfr1.2.2]
    exact hmt
  have hlinkup1 : ∀ q t, alookup q (addMissingSubdirs cfg fs).rootEntries =
      some (Node.link t) → nodeLinkUp (Node.link t) = true := by
    intro q t hq
    rw [hfr1.2.2] at hq
    exact rootLinksUpB_spec hupl q _ hq
  have hdec2 : ∀ src ∈ scanSources fs, smallAction (createMissingSmallImages now
      (addMissingSubdirs cfg fs) (scanSources fs)) src.1 src.2 = none :=
    createMissing_decisions hclash (scanSources fs) (addMissingSubdirs cfg fs)
      (fun _ hs => hs) hlinkup1 hmt1
  have hdec5 : ∀ src ∈ scanSources fs, smallAction fs5 src.1 src.2 = none := by
    intro src hsrc
    have hcand : ∀ c ∈ largeCandidates src.1 src.2, statRoot fs5 c =
        statRoot (createMissingSmallImages now (addMissingSubdirs cfg fs)
          (scanSources fs)) c := by
      intro c hc
      exact hstat25 c (fun src2 hsrc2 => noClashB_cand hclash src2 hsrc2 src hsrc c hc)
    have hlg : largeName fs5 src.1 src.2 = largeName (createMissingSmallImages now
        (addMissingSubdirs cfg fs) (scanSources fs)) src.1 src.2 :=
      largeName_congr (fun c hc => by rw [existsRoot, existsRoot, hcand c hc])
    rw [smallAction_congr (by
      rw [hlg]
      exact hcand _ (largeName_mem (createMissingSmallImages now
        (addMissingSubdirs cfg fs) (scanSources fs)) src.1 src.2)) (hstatw25 src hsrc)]
    exact hdec2 src hsrc
  have hplain1 : ∀ src ∈ scanSources fs, optFileOrNone
      (alookup (smallNameOf src.1) (addMissingSubdirs cfg fs).rootEntries) = true := by
    intro src hsrc
    rw [hfr1.2.2]
    exact smallsPlainB_spec hplain src hsrc
  have hscan5 : scanSources fs5 = scanSources fs := by
    rw [show scanSources fs5 = scanSources fs4 from by rw [scanSources, scanSources, hr5]]
    rw [scanSources_fixupSource (scanSources fs) fs3 fs4 hrun4]
    rw [show scanSources fs3 = scanSources (createMissingSmallImages now
      (addMissingSubdirs cfg fs) (scanSources fs)) from by rw [scanSources, scanSources, hr3]]
    rw [scanSources_createMissing now (scanSources fs) (addMissingSubdirs cfg fs) hplain1]
    rw [scanSources, scanSources, hfr1.2.2]
  have hsvc2some : ∀ s ∈ cfg, ∃ sd1 p1, alookup s (createMissingSmallImages now
      (addMissingSubdirs cfg fs) (scanSources fs)).services = some sd1 ∧
      sd1.published = some p1 := by
    intro s hs
    have h1 := addMissingSubdirs_lookup cfg fs s hcfg
    rw [if_pos hs] at h1
    cases hfs : alookup s fs.services with
    | none =>
        rw [hfs] at h1
        exact ⟨_, _, by rw [hfr2.2.2.1]; exact h1, rfl⟩
    | some sd =>
        rw [hfs] at h1
        exact ⟨_, _, by rw [hfr2.2.2.1]; exact h1, rfl⟩
  have hsvc3info : ∀ s ∈ cfg, ∃ sd1 p1 sd3, alookup s (createMissingSmallImages now
      (addMissingSubdirs cfg fs) (scanSources fs)).services = some sd1 ∧
      sd1.published = some p1 ∧
      alookup s fs3.services = some sd3 ∧ sd3.published = some p1 := by
    intro s hs
    obtain ⟨sd1, p1, hsd1, hp1⟩ := hsvc2some s hs
    by_cases hex : ∃ ns, (s, ns) ∈ newSmallImages cfg
        (createMissingSmallImages now (addMissingSubdirs cfg fs) (scanSources fs))
        (scanSources fs)
    · obtain ⟨ns, hns⟩ := hex
      exact ⟨sd1, p1, _, hsd1, hp1, hset3 s ns hns sd1 hsd1, by dsimp only; exact hp1⟩
    · push_neg at hex
      exact ⟨sd1, p1, sd1, hsd1, hp1, by rw [hunt3 s hex]; exact hsd1, hp1⟩
  have hpub5ok : ∀ s ∈ cfg, svcExists fs5 s = true ∧ pubExists fs5 s = true := by
    intro s hs
    obtain ⟨sd1, p1, sd3, hsd1, hp1, hsd3, hp3x⟩ := hsvc3info s hs
    have hsd4 : alookup s fs4.services = some sd3 := by
      rw [hsvc4]
      exact hsd3
    have hsh := hsvc5 s
    rw [hsd4] at hsh
    cases hsd5 : alookup s fs5.services with
    | none =>
        rw [hsd5] at hsh
        cases hsh
    | some sd5 =>
        rw [hsd5] at hsh
        simp only [svcShape, Option.map] at hsh
        injection hsh with hsh
        refine ⟨by rw [svcExists, hsd5]; rfl, ?_⟩
        rw [pubExists, hsd5]
        dsimp only
        have hps : sd5.published.isSome = sd3.published.isSome := congrArg Prod.snd hsh
        rw [hps, hp3x]
        rfl
  have hman3 : ∀ s ∈ cfg, ∀ n ∈ allSmallNames (createMissingSmallImages now
      (addMissingSubdirs cfg fs) (scanSources fs)) (scanSources fs),
      n ∈ managedNames fs3 s := by
    intro s hs n hn
    obtain ⟨sd1, p1, hsd1, hp1⟩ := hsvc2some s hs
    have hglob : smallGlob n = true := smallGlob_of_mem_allSmall hn
    by_cases hm2 : n ∈ managedNames (createMissingSmallImages now
        (addMissingSubdirs cfg fs) (scanSources fs)) s
    · by_cases hex : ∃ ns, (s, ns) ∈ newSmallImages cfg
          (createMissingSmallImages now (addMissingSubdirs cfg fs) (scanSources fs))
          (scanSources fs)
      · obtain ⟨ns, hns⟩ := hex
        have hsd3 := hset3 s ns hns sd1 hsd1
        rw [managedNames, hsd3]
        rw [managedNames, hsd1] at hm2
        dsimp only at hm2 ⊢
        rw [List.filter_append, List.map_append]
        rcases List.mem_append.mp hm2 with h | h
        · exact List.mem_append_left _ (List.mem_append_left _ h)
        · exact List.mem_append_right _ h
      · push_neg at hex
        rw [managedNames, hunt3 s hex, hsd1]
        rw [managedNames, hsd1] at hm2
        exact hm2
    · have hnfil : n ∈ (allSmallNames (createMissingSmallImages now
          (addMissingSubdirs cfg fs) (scanSources fs)) (scanSources fs)).filter
          (fun m => decide (m ∉ managedNames (createMissingSmallImages now
            (addMissingSubdirs cfg fs) (scanSources fs)) s)) :=
        List.mem_filter.mpr ⟨hn, decide_eq_true hm2⟩
      have hne : (allSmallNames (createMissingSmallImages now
          (addMissingSubdirs cfg fs) (scanSources fs)) (scanSources fs)).filter
          (fun m => decide (m ∉ managedNames (createMissingSmallImages now
            (addMissingSubdirs cfg fs) (scanSources fs)) s)) ≠ [] := by
        intro h0
        rw [h0] at hnfil
        cases hnfil
      have hmem := newSmallImages_mem_intro hs (by rw [svcExists, hsd1]; rfl) hne
      obtain ⟨sdc, hsdc, hndc, hfresh⟩ := newSmallImages_conditions cfg
        (createMissingSmallImages now (addMissingSubdirs cfg fs) (scanSources fs))
        (scanSources fs) _ hmem
      rw [hsd1] at hsdc
      injection hsdc with hsdc
      have hsd3 := hset3 s _ hmem sd1 hsd1
      refine (mem_managed_of_key hsd3 hglob).1 (Node.link (LinkTarget.rel 1 n)) ?_
      dsimp only
      rw [alookup_append]
      rw [show alookup n sd1.entries = none from by
        rw [hsdc]
        exact (hfresh n hnfil).1]
      dsimp only
      rw [alookup_mapSelf, if_pos hnfil]
  have hmancongr : ∀ s, managedNames fs5 s = managedNames fs3 s := by
    intro s
    refine managedNames_congr ?_ ?_
    · have hx := hsvc5 s
      rw [hsvc4] at hx
      exact hx
    · rw [hkeys5 s, pubList_congr_services hsvc4 s]
  have hallsm : allSmallNames fs5 (scanSources fs) = allSmallNames
      (createMissingSmallImages now (addMissingSubdirs cfg fs) (scanSources fs))
      (scanSources fs) :=
    allSmallNames_congr (fun src hsrc => by
      rw [existsRoot, existsRoot, hstatw25 src hsrc])
  have hnsi5 : newSmallImages cfg fs5 (scanSources fs) = [] := by
    refine newSmallImages_nil ?_
    intro s hs _
    refine List.filter_eq_nil_iff.mpr ?_
    intro n hn hd
    refine (of_decide_eq_true hd) ?_
    rw [hallsm] at hn
    rw [hmancongr s]
    exact hman3 s hs n hn
  have hsrc5 : ∀ src ∈ scanSources fs, ∃ ups q,
      alookup src.1 fs5.rootEntries = some (Node.link (LinkTarget.rel ups q)) := by
    intro src hsrc
    obtain ⟨t, ht, _⟩ := scanSources_entry hroot
      (show (src.1, src.2) ∈ scanSources fs from hsrc)
    have h2c : alookup src.1 (createMissingSmallImages now (addMissingSubdirs cfg fs)
        (scanSources fs)).rootEntries = some (Node.link t) := by
      rw [hsrc2 src.1 src.2 hsrc, ht]
    cases t with
    | abs p =>
        refine ⟨1, src.1, ?_⟩
        rw [hr5]
        exact habs4 src.1 p ⟨src.2, hsrc⟩ (by rw [hr3]; exact h2c)
    | rel ups q =>
        refine ⟨ups, q, ?_⟩
        rw [hr5]
        exact hrel4 src.1 ups q (by rw [hr3]; exact h2c)
  have hpub5id : ∀ pr ∈ publishedSmall cfg fs5, fixupOnePub fs5 pr = .ok fs5 := by
    intro pr hpr
    have hps : publishedSmall cfg fs5 = publishedSmall cfg fs4 :=
      publishedSmall_congr hkeys5
    rw [hps] at hpr
    obtain ⟨t, h4t, hdi⟩ := hproc5 pr hpr
    obtain ⟨t2, h4t2, hokt2⟩ := hok5 pr hpr
    have htt : t2 = t := by
      rw [h4t] at h4t2
      injection h4t2 with hx
      injection hx with hx
      exact hx.symm
    rw [htt] at hokt2
    rcases hdi with ⟨hres, hkeep⟩ | ⟨hres, hrw2⟩
    · rw [fixupOnePub, hkeep]
      dsimp only
      rw [if_pos (show (statT fs5 FUEL (Loc.inPub pr.1) t).isSome = true from by
        rw [statT_pubIndep fs4 fs5 hp5 ha5 hr5 hsvc5 FUEL (Loc.inPub pr.1) t
          (fun s2 nm _ => nodeLinkOk_not_rel0 hokt2 nm)]
        exact hres)]
    · rw [fixupOnePub, hrw2]
      dsimp only
      by_cases hres5 : (statT fs5 FUEL (Loc.inPub pr.1) (LinkTarget.rel 2 pr.2)).isSome = true
      · rw [if_pos hres5]
      · rw [if_neg hres5, setPubEntry_same hrw2]
  refine ⟨fs5, ?_, ?_⟩
  · have hdo : actionFixup cfg now fs =
        Bind.bind (addNewSmallFiles cfg
            (createMissingSmallImages now (addMissingSubdirs cfg fs) (scanSources fs))
            (scanSources fs))
          (fun a => Bind.bind (fixupSourcePhotosLinks a (scanSources fs))
            (fun b => Bind.bind (fixupPublishedLinks cfg b)
              (fun c => pure (addFilesToRepository c)))) := rfl
    rw [hdo, hrun3, bindOk, hrun4, bindOk, hrun5, bindOk]
    rfl
  · have hdo2 : actionFixup cfg now2 fs5 =
        Bind.bind (addNewSmallFiles cfg
            (createMissingSmallImages now2 (addMissingSubdirs cfg fs5) (scanSources fs5))
            (scanSources fs5))
          (fun a => Bind.bind (fixupSourcePhotosLinks a (scanSources fs5))
            (fun b => Bind.bind (fixupPublishedLinks cfg b)
              (fun c => pure (addFilesToRepository c)))) := rfl
    rw [hdo2, hscan5, addMissingSubdirs_id hpub5ok, createMissing_id hdec5]
    rw [show addNewSmallFiles cfg fs5 (scanSources fs) = Except.ok fs5 from by
      rw [addNewSmallFiles, hnsi5]
      rfl]
    rw [bindOk, fixupSource_id hsrc5, bindOk]
    rw [show fixupPublishedLinks cfg fs5 = Except.ok fs5 from by
      rw [fixupPublishedLinks]
      exact foldPub_id hpub5id]
    rw [bindOk]
    rfl

theorem c1_witness :
    ("s" :: []).Nodup ∧ (akeys exC1w.rootEntries).Nodup ∧ pubOkB exC1w = true ∧
    rootLinksUpB exC1w = true ∧ smallsPlainB exC1w (scanSources exC1w) = true ∧
    noClashB (scanSources exC1w) = true ∧ mtimesLeB exC1w 10 = true ∧
    absMatchesB exC1w (scanSources exC1w) = true ∧
    cfgFreshB exC1w ("s" :: []) = true ∧
    (∃ fs', actionFixup ("s" :: []) 10 exC1w = .ok fs' ∧
      actionFixup ("s" :: []) 11 fs' = .ok fs') :=
  ⟨by decide, by decide, by decide, by decide, by decide, by decide, by decide, by decide,
    by decide,
    c1_fixup_idempotent ("s" :: []) 10 11 exC1w (by decide) (by decide) (by decide)
      (by decide) (by decide) (by decide) (by decide) (by decide) (by decide)⟩
